import Mathlib

/-!
# MemoryAccessor: run finder, segment map, memory channel and diff command

A shallow embedding of `Tools::FindDifferencesOfLen` and the permission codes
(src/src/tools.cc), of `MemoryAccessor` (src/src/memoryaccessor.cc: the PID, the parser
of the maps listing, the segment-aware read/write entry points) and of the `diff` and
`write` commands of `Console` (src/src/console.cc), together with the properties proved
about them.

Conventions of the embedding:

* a `char` is a `Byte` (a value below 256); only equality of bytes is ever used;
* a `const char *` is a function from offsets to bytes: `p 0` is `*p` and `ptrAdd p k`
  is `p + k`.  The length of a buffer is never part of the pointer, exactly as in the
  source, where it travels in a separate `size_t`;
* `size_t` values are natural numbers below `SIZE = 2^64`; every addition or
  subtraction of the source that can wrap is written with `add64` / `sub64`;
* a function that can throw returns an `Except Ex _` next to the state it leaves
  behind, so that what a caller observes after a `throw` can be stated.
-/

namespace MemAcc

/-! ## Basic types -/

/-- One `char`. -/
abbrev Byte : Type := Fin 256

/-- A `char *`: the byte found at each offset from the pointer. -/
abbrev Ptr : Type := Nat → Byte

/-- Pointer arithmetic `p + k`. -/
def ptrAdd (p : Ptr) (k : Nat) : Ptr := fun i => p (k + i)

/-- The `len` bytes found at offsets `start, start+1, ...` of `p`. -/
def slice (p : Ptr) (start len : Nat) : List Byte :=
  (List.range len).map (fun i => p (start + i))

/-- A pointer to the first element of a byte string (offsets past the end read 0). -/
def ofList (l : List Byte) : Ptr := fun i => l.getD i 0

/-! ## Tools::FindDifferencesOfLen -/

/-- The two `unique_ptr<char[]>` returned by `FindDifferencesOfLen`; `none` is a
null pointer. -/
abbrev DiffPair : Type := Option (List Byte) × Option (List Byte)

/-- The `for (; str_len; str_len--, old_str++, new_str++, done++)` loop of
`FindDifferencesOfLen` together with the two statements after it.  `result` holds the
two candidate arrays of `len` bytes.  The value is the returned pair and the final
`done`.  `found_len` is bounded by the number of iterations, so it cannot wrap. -/
def Tools.FindDifferencesOfLen.loop (len : Nat) :
    (str_len : Nat) → (old_str new_str : Ptr) → (done found_len : Nat) →
    (result : List Byte × List Byte) → DiffPair × Nat
  | 0, _, _, done, found_len, result =>
    if found_len = len then ((some result.1, some result.2), done)
    else ((none, none), done)
  | str_len + 1, old_str, new_str, done, found_len, result =>
    if old_str 0 ≠ new_str 0 then
      Tools.FindDifferencesOfLen.loop len str_len (ptrAdd old_str 1) (ptrAdd new_str 1)
        (done + 1) (found_len + 1)
        (if found_len < len then
          (result.1.set found_len (old_str 0), result.2.set found_len (new_str 0))
         else result)
    else if found_len = len then ((some result.1, some result.2), done)
    else
      Tools.FindDifferencesOfLen.loop len str_len (ptrAdd old_str 1) (ptrAdd new_str 1)
        (done + 1) 0 result

/-- `Tools::FindDifferencesOfLen(old_str, new_str, str_len, done, len)`.  `done` is a
reference parameter: the value passed in is the caller's variable before the call, the
second component of the result is that variable after the call. -/
def Tools.FindDifferencesOfLen (old_str new_str : Ptr) (str_len done len : Nat) :
    DiffPair × Nat :=
  if str_len = 0 ∨ len = 0 ∨ str_len < len then ((none, none), done)
  else
    Tools.FindDifferencesOfLen.loop len str_len old_str new_str 0 0
      (List.replicate len 0, List.replicate len 0)

/-! ### Vocabulary for the run finder -/

/-- Position `i` differs between the two buffers. -/
def Differs (o n : Ptr) (i : Nat) : Prop := o i ≠ n i

instance (o n : Ptr) (i : Nat) : Decidable (Differs o n i) := by
  unfold Differs; exact inferInstance

/-- In buffers of length `N`, positions `[p, p+t)` are a maximal run of differing
positions: all of them differ, `p = 0` or position `p-1` is equal, and `p+t = N` or
position `p+t` is equal. -/
def IsMaxRun (o n : Ptr) (N t p : Nat) : Prop :=
  p + t ≤ N ∧ (∀ i, i < t → Differs o n (p + i)) ∧
  (p = 0 ∨ ¬ Differs o n (p - 1)) ∧ (p + t = N ∨ ¬ Differs o n (p + t))

instance (o n : Ptr) (N t p : Nat) : Decidable (IsMaxRun o n N t p) := by
  unfold IsMaxRun; exact inferInstance

/-- Outcome of a scan over buffers of length `N` for target `t`: either the first
maximal run of length exactly `t` sits at `p`, the arrays are the two buffers at
`[p, p+t)` and `done = p + t`; or there is no such run, both arrays are null and
`done = N`. -/
def FindSpec (o n : Ptr) (N t : Nat) (out : DiffPair × Nat) : Prop :=
  (∃ p, IsMaxRun o n N t p ∧ (∀ q, q < p → ¬ IsMaxRun o n N t q) ∧
      out = ((some (slice o p t), some (slice n p t)), p + t)) ∨
  ((∀ p, ¬ IsMaxRun o n N t p) ∧ out = ((none, none), N))

/-- What is known when the loop stands at position `d` with counter `f`. -/
structure LoopInv (o n : Ptr) (N t d f : Nat) (res : List Byte × List Byte) : Prop where
  f_le : f ≤ d
  run : ∀ i, i < f → Differs o n (d - f + i)
  start : f = d ∨ ¬ Differs o n (d - f - 1)
  len1 : res.1.length = t
  len2 : res.2.length = t
  cont1 : ∀ i, i < f → i < t → res.1[i]? = some (o (d - f + i))
  cont2 : ∀ i, i < f → i < t → res.2[i]? = some (n (d - f + i))
  none_before : ∀ q, q < d - f → ¬ IsMaxRun o n N t q

/-! ### Repeated calls over the suffixes -/

/-- One reported match: the absolute position of the run's first byte and the two
returned arrays. -/
abbrev Report : Type := Nat × List Byte × List Byte

/-- The calling protocol of C5 (the one of the tests "Find differences: two" and "seq
length 1"): call `FindDifferencesOfLen` on the suffixes that start at the accumulated
`done` offset, stop when the remainder is shorter than `t` or a call reports no match.
`offset` is the accumulated offset, `done` the caller's variable handed to each call.
Every successful call consumes at least one byte, so `fuel` greater than the buffer
length is never used up. -/
def findAllRuns (o n : Ptr) (N t : Nat) : (fuel : Nat) → (offset done : Nat) → List Report
  | 0, _, _ => []
  | fuel + 1, offset, done =>
    if N - offset < t then []
    else
      match Tools.FindDifferencesOfLen (ptrAdd o offset) (ptrAdd n offset) (N - offset) done t with
      | ((some a, some b), done2) =>
        (offset + done2 - t, a, b) :: findAllRuns o n N t fuel (offset + done2) done2
      | _ => []

/-! ## MemoryAccessor -/

/-- Number of values of a `size_t` (2^64). -/
abbrev SIZE : Nat := 18446744073709551616

/-- `SIZE_MAX`. -/
abbrev SIZE_MAX : Nat := 18446744073709551615

/-- Addition of two `size_t`. -/
def add64 (a b : Nat) : Nat := (a + b) % SIZE

/-- Subtraction of two `size_t` (wraps around below zero). -/
def sub64 (a b : Nat) : Nat := (a % SIZE + (SIZE - b % SIZE)) % SIZE

/-- The exception classes of `MemoryAccessor` that can be thrown (memoryaccessor.h).
`OutOfRange` is not one of them: it marks a `segment_infos_[i]` with `i` not below
`segment_infos_.size()`, which in the source is undefined behaviour. -/
inductive Ex where
  | ErrCheckingPidEx
  | PidNotExistEx
  | PidNotSetEx
  | MemFileEx
  | MapsFileEx
  | BadMapsEx
  | SegmentNotExistEx
  | SegmentAccessDeniedEx
  | AddressNotInSegmentEx
  | OutOfRange
  deriving DecidableEq, Repr

instance {α : Type} [DecidableEq α] : DecidableEq (Except Ex α) := fun a b =>
  match a, b with
  | .ok x, .ok y => if h : x = y then isTrue (by rw [h]) else isFalse (fun h2 => h (by cases h2; rfl))
  | .error x, .error y =>
    if h : x = y then isTrue (by rw [h]) else isFalse (fun h2 => h (by cases h2; rfl))
  | .ok _, .error _ => isFalse (fun h => by cases h)
  | .error _, .ok _ => isFalse (fun h => by cases h)

/-- `struct SegmentInfo` (segmentinfo.h); the field `end` is spelled `end_`. -/
structure SegmentInfo where
  start : Nat
  end_ : Nat
  offset : Nat := 0
  mode : Nat := 0
  major_id : Nat := 0
  minor_id : Nat := 0
  inode_id : Nat := 0
  path : String := ""
  deriving DecidableEq, Repr

/-- The data members of a `MemoryAccessor` object.  The stream `mem_` is represented by
what the code observes of it: `is_open()`, `good()` and the position set by `seekg`.
`special_segment_found_` maps a name to the index of the segment it points to. -/
structure MemoryAccessor where
  pid_ : Int := 0
  pid_set_ : Bool := false
  segment_infos_ : List SegmentInfo := []
  special_segment_found_ : List (String × Nat) := []
  mem_is_open : Bool := false
  mem_good : Bool := true
  mem_pos : Nat := 0

/-- The file `/proc/PID/mem` of the subject: whether opening it gives a good stream,
the byte at every address, and whether the kernel lets a byte be read or written
(protection is evaluated per access). -/
structure MemImage where
  openable : Bool
  bytes : Ptr
  readable : Nat → Bool
  writable : Nat → Bool

/-- Copy `amount` bytes from `src` to offsets `dst, dst+1, ...` of the memory `buf`. -/
def blit (buf : Ptr) (dst : Nat) (src : Ptr) (amount : Nat) : Ptr :=
  fun i => if dst ≤ i ∧ i < dst + amount then src (i - dst) else buf i

namespace MemoryAccessor

/-- `MemoryAccessor::CheckPid`. -/
def CheckPid (m : MemoryAccessor) : Except Ex Unit :=
  if !m.pid_set_ then .error Ex.PidNotSetEx else .ok ()

/-- The `for` loop of `AddressInSegment` from index `i` on, `segs` being the segments
at indices `i, i+1, ...`. -/
def AddressInSegment.loop (address : Nat) : List SegmentInfo → Nat → Except Ex Nat
  | [], _ => .error Ex.AddressNotInSegmentEx
  | seg :: segs, i =>
    if seg.end_ > address then .ok i else AddressInSegment.loop address segs (i + 1)

/-- `MemoryAccessor::AddressInSegment`. -/
def AddressInSegment (m : MemoryAccessor) (address : Nat) : Except Ex Nat :=
  AddressInSegment.loop address m.segment_infos_ 0

/-- `MemoryAccessor::CheckSegNum`. -/
def CheckSegNum (m : MemoryAccessor) (num : Nat) : Except Ex Unit :=
  match CheckPid m with
  | .error e => .error e
  | .ok _ => if num ≥ m.segment_infos_.length then .error Ex.SegmentNotExistEx else .ok ()

/-- `MemoryAccessor::OpenMem`: close the stream and open `/proc/PID/mem` again. -/
def OpenMem (m : MemoryAccessor) (img : MemImage) : Except Ex Unit × MemoryAccessor :=
  match CheckPid m with
  | .error e => (.error e, m)
  | .ok _ =>
    if img.openable then
      (.ok (), { m with mem_is_open := true, mem_good := true, mem_pos := 0 })
    else
      (.error Ex.MemFileEx, { m with mem_is_open := false, mem_good := false, mem_pos := 0 })

/-- `MemoryAccessor::CheckMem`. -/
def CheckMem (m : MemoryAccessor) (img : MemImage) : Except Ex Unit × MemoryAccessor :=
  if !m.mem_is_open || !m.mem_good then OpenMem m img else (.ok (), m)

/-- `MemoryAccessor::CheckSegBoundaries`; the value is the reference parameter
`amount` after the call. -/
def CheckSegBoundaries (m : MemoryAccessor) (num start amount : Nat) : Except Ex Nat :=
  match CheckSegNum m num with
  | .error e => .error e
  | .ok _ =>
    match m.segment_infos_[num]? with
    | none => .error Ex.OutOfRange
    | some seg =>
      let seg_size := sub64 seg.end_ seg.start
      if start ≥ seg_size then .error Ex.AddressNotInSegmentEx
      else if amount > seg_size ∨ add64 start amount > seg_size then .ok (sub64 seg_size start)
      else .ok amount

/-- `MemoryAccessor::PrepareMemSegment`; the value is `amount` after the call, the
stream is left positioned at `segment_infos_[num].start + start` (the `seekg` is taken
to succeed). -/
def PrepareMemSegment (m : MemoryAccessor) (img : MemImage) (num start amount : Nat) :
    Except Ex Nat × MemoryAccessor :=
  match CheckPid m with
  | .error e => (.error e, m)
  | .ok _ =>
    match CheckMem m img with
    | (.error e, m1) => (.error e, m1)
    | (.ok _, m1) =>
      match CheckSegBoundaries m1 num start amount with
      | .error e => (.error e, m1)
      | .ok amount1 =>
        match m1.segment_infos_[num]? with
        | none => (.error Ex.OutOfRange, m1)
        | some seg => (.ok amount1, { m1 with mem_pos := add64 seg.start start })

/-- `MemoryAccessor::ReadSegment(dst, num, start, amount)`.  `buf` is the caller's
memory and `dst` the offset in it that the pointer `dst` designates.  The read is
rejected as soon as one byte of the range is not readable; what a rejected read leaves
in `dst` is not represented (`buf` is returned as it was). -/
def ReadSegment (m : MemoryAccessor) (img : MemImage) (buf : Ptr) (dst num start amount : Nat) :
    Except Ex Nat × Ptr × MemoryAccessor :=
  match PrepareMemSegment m img num start amount with
  | (.error e, m1) => (.error e, buf, m1)
  | (.ok amount1, m1) =>
    if ∀ i, i < amount1 → img.readable (m1.mem_pos + i) = true then
      (.ok amount1, blit buf dst (ptrAdd img.bytes m1.mem_pos) amount1,
        { m1 with mem_pos := m1.mem_pos + amount1 })
    else
      (.error Ex.SegmentAccessDeniedEx, buf, { m1 with mem_good := false })

/-- `MemoryAccessor::WriteSegment(src, num, start, amount)`.  The write is rejected as
soon as one byte of the range is not writable, and a rejected write is taken to leave
the memory image as it was. -/
def WriteSegment (m : MemoryAccessor) (img : MemImage) (src : Ptr) (num start amount : Nat) :
    Except Ex Nat × MemImage × MemoryAccessor :=
  match PrepareMemSegment m img num start amount with
  | (.error e, m1) => (.error e, img, m1)
  | (.ok amount1, m1) =>
    if ∀ i, i < amount1 → img.writable (m1.mem_pos + i) = true then
      (.ok amount1, { img with bytes := blit img.bytes m1.mem_pos src amount1 },
        { m1 with mem_pos := 0 })
    else
      (.error Ex.SegmentAccessDeniedEx, img, { m1 with mem_good := false, mem_pos := 0 })

/-- The loop `for (; amount; cur_segment_num++)` of `Read`.  `fuel` is the number of
indices from `cur_segment_num` up to `segment_infos_.size()`; when it is used up the
next `segment_infos_[cur_segment_num]` is out of range, as the lookups themselves
report.  The value is the outcome, the caller's memory, `done_amount` and the object. -/
def Read.loop (img : MemImage) (dst : Nat) :
    (fuel : Nat) → (m : MemoryAccessor) → (buf : Ptr) → (cur_segment_num amount done_amount : Nat) →
    Except Ex Unit × Ptr × Nat × MemoryAccessor
  | 0, m, buf, _, amount, done_amount =>
    if amount = 0 then (.ok (), buf, done_amount, m)
    else (.error Ex.OutOfRange, buf, done_amount, m)
  | fuel + 1, m, buf, cur_segment_num, amount, done_amount =>
    if amount = 0 then (.ok (), buf, done_amount, m)
    else
      match m.segment_infos_[cur_segment_num - 1]?, m.segment_infos_[cur_segment_num]? with
      | some prev, some cur =>
        if prev.end_ ≠ cur.start then (.error Ex.AddressNotInSegmentEx, buf, done_amount, m)
        else
          match ReadSegment m img buf (dst + done_amount) cur_segment_num 0 amount with
          | (.error e, buf1, m1) => (.error e, buf1, done_amount, m1)
          | (.ok ret_size, buf1, m1) =>
            Read.loop img dst fuel m1 buf1 (cur_segment_num + 1) (sub64 amount ret_size)
              (add64 done_amount ret_size)
      | _, _ => (.error Ex.OutOfRange, buf, done_amount, m)

/-- `MemoryAccessor::Read(dst, address, amount, done_amount)`.  `done_amount` is a
reference parameter: the argument is the caller's variable before the call, the third
component of the value is that variable when the call returns or throws. -/
def Read (m : MemoryAccessor) (img : MemImage) (buf : Ptr) (dst address amount done_amount : Nat) :
    Except Ex Unit × Ptr × Nat × MemoryAccessor :=
  match CheckPid m with
  | .error e => (.error e, buf, done_amount, m)
  | .ok _ =>
    match AddressInSegment m address with
    | .error e => (.error e, buf, done_amount, m)
    | .ok cur_segment_num =>
      match m.segment_infos_[cur_segment_num]? with
      | none => (.error Ex.OutOfRange, buf, 0, m)
      | some seg =>
        match ReadSegment m img buf dst cur_segment_num (sub64 address seg.start) amount with
        | (.error e, buf1, m1) => (.error e, buf1, 0, m1)
        | (.ok ret_size, buf1, m1) =>
          Read.loop img dst (m.segment_infos_.length - (cur_segment_num + 1)) m1 buf1
            (cur_segment_num + 1) (sub64 amount ret_size) (add64 0 ret_size)

/-- The loop `for (; amount; cur_segment_num++)` of `Write`; see `Read.loop`.  The
value is the outcome, the memory image, `done_amount` and the object. -/
def Write.loop (src : Ptr) :
    (fuel : Nat) → (m : MemoryAccessor) → (img : MemImage) → (cur_segment_num amount done_amount : Nat) →
    Except Ex Unit × MemImage × Nat × MemoryAccessor
  | 0, m, img, _, amount, done_amount =>
    if amount = 0 then (.ok (), img, done_amount, m)
    else (.error Ex.OutOfRange, img, done_amount, m)
  | fuel + 1, m, img, cur_segment_num, amount, done_amount =>
    if amount = 0 then (.ok (), img, done_amount, m)
    else
      match m.segment_infos_[cur_segment_num - 1]?, m.segment_infos_[cur_segment_num]? with
      | some prev, some cur =>
        if prev.end_ ≠ cur.start then (.error Ex.AddressNotInSegmentEx, img, done_amount, m)
        else
          match WriteSegment m img (ptrAdd src done_amount) cur_segment_num 0 amount with
          | (.error e, img1, m1) => (.error e, img1, done_amount, m1)
          | (.ok ret_size, img1, m1) =>
            Write.loop src fuel m1 img1 (cur_segment_num + 1) (sub64 amount ret_size)
              (add64 done_amount ret_size)
      | _, _ => (.error Ex.OutOfRange, img, done_amount, m)

/-- `MemoryAccessor::Write(src, address, amount, done_amount)`; `done_amount` as in
`Read`. -/
def Write (m : MemoryAccessor) (img : MemImage) (src : Ptr) (address amount done_amount : Nat) :
    Except Ex Unit × MemImage × Nat × MemoryAccessor :=
  match CheckPid m with
  | .error e => (.error e, img, done_amount, m)
  | .ok _ =>
    match AddressInSegment m address with
    | .error e => (.error e, img, done_amount, m)
    | .ok cur_segment_num =>
      match m.segment_infos_[cur_segment_num]? with
      | none => (.error Ex.OutOfRange, img, 0, m)
      | some seg =>
        match WriteSegment m img src cur_segment_num (sub64 address seg.start) amount with
        | (.error e, img1, m1) => (.error e, img1, 0, m1)
        | (.ok ret_size, img1, m1) =>
          Write.loop src (m.segment_infos_.length - (cur_segment_num + 1)) m1 img1
            (cur_segment_num + 1) (sub64 amount ret_size) (add64 0 ret_size)

end MemoryAccessor

/-! ### Vocabulary for the memory channel -/

/-- The invariants of a segment map (data model): every segment has `start < end`,
every bound is a `size_t`, and the segments are ascending and mutually
non-overlapping. -/
def SegmentMapOk (segs : List SegmentInfo) : Prop :=
  (∀ s, s ∈ segs → s.start < s.end_ ∧ s.end_ < SIZE) ∧
  segs.Pairwise (fun s1 s2 => s1.end_ ≤ s2.start)

instance (segs : List SegmentInfo) : Decidable (SegmentMapOk segs) := by
  unfold SegmentMapOk; exact inferInstance

/-- Address `a` lies in no segment of the map. -/
def InNoSegment (segs : List SegmentInfo) (a : Nat) : Prop :=
  ∀ s, s ∈ segs → ¬ (s.start ≤ a ∧ a < s.end_)

/-- The memory image can be opened and every read and write access is permitted. -/
def AllAccess (img : MemImage) : Prop :=
  img.openable = true ∧ (∀ x, img.readable x = true) ∧ (∀ x, img.writable x = true)

/-- A memory image that can be opened and in which every access is permitted. -/
def openImage (bytes : Ptr) : MemImage :=
  { openable := true, bytes := bytes, readable := fun _ => true, writable := fun _ => true }

/-- Two segments `[0x1000, 0x1004)` and `[0x1004, 0x1008)` that are contiguous, and a
third `[0x2000, 0x2004)` after a gap. -/
def demoSegments : List SegmentInfo :=
  [{ start := 4096, end_ := 4100 }, { start := 4100, end_ := 4104 },
   { start := 8192, end_ := 8196 }]

/-- An object with a PID set and `demoSegments` as its segment map. -/
def demoAccessor : MemoryAccessor :=
  { pid_ := 1, pid_set_ := true, segment_infos_ := demoSegments }

/-- A memory image whose byte at address `a` is `a mod 256`. -/
def demoImage : MemImage := openImage (fun a => Fin.ofNat a)

/-! ## Tools::DecodePermissions and Tools::EncodePermissions -/

/-- The `uint8_t` value of `-1`, returned by `DecodePermissions` for a rejected
token. -/
abbrev INVALID_MODE : Nat := 255

/-- `Tools::kModes`, the characters that give a 1 bit. -/
def Tools.kModes : List Char := ['r', 'w', 'x', 's']

/-- `Tools::kModesLength`. -/
def Tools.kModesLength : Nat := 4

/-- `s[i]` of a `std::string` (the terminating zero when `i` is the length). -/
def charAt (s : List Char) (i : Nat) : Char := s.getD i (Char.ofNat 0)

/-- The loop `for (; i < kModesLength - 1; i++)` of `DecodePermissions`, with `steps`
iterations left.  `.error v` is a `return v` inside the loop, `.ok (mode, i)` the state
when the loop is left.  `mode` is a `uint8_t`. -/
def Tools.DecodePermissions.loop (permissions : List Char) :
    (steps : Nat) → (i mode : Nat) → Except Nat (Nat × Nat)
  | 0, i, mode => .ok (mode, i)
  | steps + 1, i, mode =>
    if charAt permissions i = charAt Tools.kModes i then
      Tools.DecodePermissions.loop permissions steps (i + 1)
        ((mode ||| (1 <<< (Tools.kModesLength - 1 - i))) % 256)
    else if charAt permissions i ≠ '-' then .error INVALID_MODE
    else Tools.DecodePermissions.loop permissions steps (i + 1) mode

/-- `Tools::DecodePermissions`. -/
def Tools.DecodePermissions (permissions : List Char) : Nat :=
  if Tools.kModesLength > permissions.length then INVALID_MODE
  else
    match Tools.DecodePermissions.loop permissions (Tools.kModesLength - 1) 0 0 with
    | .error v => v
    | .ok (mode, i) =>
      if charAt permissions i = charAt Tools.kModes i then
        (mode ||| (1 <<< (Tools.kModesLength - 1 - i))) % 256
      else if charAt permissions i ≠ 'p' then INVALID_MODE
      else mode

/-- The loop `for (uint8_t i{0}; i < kModesLength - 1; i++)` of `EncodePermissions`,
with `steps` iterations left. -/
def Tools.EncodePermissions.loop (mode : Nat) : (steps : Nat) → (i : Nat) → List Char → List Char
  | 0, _, permissions => permissions
  | steps + 1, i, permissions =>
    Tools.EncodePermissions.loop mode steps (i + 1)
      (if mode &&& (1 <<< (Tools.kModesLength - 1 - i)) ≠ 0 then
        permissions ++ [charAt Tools.kModes i]
       else permissions ++ ['-'])

/-- `Tools::EncodePermissions`; `mode` is a `uint8_t`. -/
def Tools.EncodePermissions (mode : Nat) : List Char :=
  if mode &&& 1 ≠ 0 then
    Tools.EncodePermissions.loop mode (Tools.kModesLength - 1) 0 [] ++ ['s']
  else Tools.EncodePermissions.loop mode (Tools.kModesLength - 1) 0 [] ++ ['p']

/-! ## Formatted input from a `std::istringstream`

`ParseMaps` reads every line through a `std::istringstream`.  The stream is part of the
C++ standard library, not of the repository; it is represented by the characters not
yet read, the number base selected by `std::hex` / `std::dec`, and the two state bits the
code looks at.  The extraction functions follow the library (libstdc++) for the "C"
locale. -/

/-- A `std::istringstream`: unread characters, `basefield`, `failbit`, `eofbit`. -/
structure IStream where
  rest : List Char
  base : Nat := 10
  failbit : Bool := false
  eofbit : Bool := false
  deriving DecidableEq, Repr

/-- `std::isspace` in the "C" locale. -/
def isspace (c : Char) : Bool :=
  c = ' ' || c = '\t' || c = '\n' || c = Char.ofNat 11 || c = Char.ofNat 12 || c = '\r'

/-- Value of `c` as a digit of the base (10 or 16), if it is one. -/
def digitOf (base : Nat) (c : Char) : Option Nat :=
  if '0' ≤ c ∧ c ≤ '9' then some (c.toNat - 48)
  else if base = 16 ∧ 'a' ≤ c ∧ c ≤ 'f' then some (c.toNat - 87)
  else if base = 16 ∧ 'A' ≤ c ∧ c ≤ 'F' then some (c.toNat - 55)
  else none

/-- The digit loop of `num_get`: accumulated value, overflow flag, number of digits
taken, characters left. -/
def scanDigits (base max : Nat) :
    List Char → (result : Nat) → (overflow : Bool) → (sep_pos : Nat) → Nat × Bool × Nat × List Char
  | [], result, overflow, sep_pos => (result, overflow, sep_pos, [])
  | c :: cs, result, overflow, sep_pos =>
    match digitOf base c with
    | none => (result, overflow, sep_pos, c :: cs)
    | some d =>
      if result * base + d > max then scanDigits base max cs result true (sep_pos + 1)
      else scanDigits base max cs (result * base + d) overflow (sep_pos + 1)

/-- `num_get` for an unsigned type of `bits` bits: an optional sign, for base 16 an
optional `0x` / `0X`, then digits.  The value is 0 with `failbit` when no digit was
found, the maximum with `failbit` on overflow, and negated modulo `2^bits` after a minus
sign.  Result: value, `failbit`, `eofbit`, characters left. -/
def numGet (base bits : Nat) (cs : List Char) : Nat × Bool × Bool × List Char :=
  let negative := cs.head? = some '-'
  let cs1 := if cs.head? = some '-' ∨ cs.head? = some '+' then cs.tail else cs
  let lead : Bool × Nat × List Char :=
    match cs1 with
    | '0' :: 'x' :: t => if base = 16 then (false, 0, t) else (true, 1, 'x' :: t)
    | '0' :: 'X' :: t => if base = 16 then (false, 0, t) else (true, 1, 'X' :: t)
    | '0' :: t => (true, 1, t)
    | _ => (false, 0, cs1)
  let r := scanDigits base (2 ^ bits - 1) lead.2.2 0 false lead.2.1
  if r.2.2.1 = 0 ∧ lead.1 = false then (0, true, decide (r.2.2.2 = []), r.2.2.2)
  else if r.2.1 then (2 ^ bits - 1, true, decide (r.2.2.2 = []), r.2.2.2)
  else ((if negative then (2 ^ bits - r.1) % 2 ^ bits else r.1), false,
    decide (r.2.2.2 = []), r.2.2.2)

namespace IStream

/-- `good()`. -/
def good (s : IStream) : Bool := !s.failbit && !s.eofbit

/-- The constructor of `istream::sentry`: the stream afterwards and whether input may
proceed.  Unless `noskipws`, leading whitespace is skipped; running into the end while
doing so sets `eofbit` and `failbit`. -/
def sentry (s : IStream) (noskipws : Bool) : IStream × Bool :=
  if !s.good then ({ s with failbit := true }, false)
  else if noskipws then (s, true)
  else
    match s.rest.dropWhile isspace with
    | [] => ({ s with rest := [], failbit := true, eofbit := true }, false)
    | c :: cs => ({ s with rest := c :: cs }, true)

/-- `operator>>` into an unsigned integer of `bits` bits; `old` is the variable before
the call, left as it is when the sentry refuses. -/
def extractUnsigned (s : IStream) (bits old : Nat) : IStream × Nat :=
  match s.sentry false with
  | (s1, false) => (s1, old)
  | (s1, true) =>
    let r := numGet s1.base bits s1.rest
    ({ s1 with rest := r.2.2.2, failbit := r.2.1, eofbit := r.2.2.1 }, r.1)

/-- `operator>>` into a `char`. -/
def extractChar (s : IStream) (old : Char) : IStream × Char :=
  match s.sentry false with
  | (s1, false) => (s1, old)
  | (s1, true) =>
    match s1.rest with
    | [] => ({ s1 with failbit := true, eofbit := true }, old)
    | c :: cs => ({ s1 with rest := cs }, c)

/-- `operator>>` into a `std::string`: the characters up to the next whitespace. -/
def extractString (s : IStream) (old : List Char) : IStream × List Char :=
  match s.sentry false with
  | (s1, false) => (s1, old)
  | (s1, true) =>
    let word := s1.rest.takeWhile (fun c => !isspace c)
    let left := s1.rest.dropWhile (fun c => !isspace c)
    ({ s1 with rest := left, failbit := decide (word = []), eofbit := decide (left = []) }, word)

/-- `unget()` after the character `last` was extracted. -/
def unget (s : IStream) (last : Char) : IStream :=
  if s.failbit then { s with eofbit := false }
  else { s with rest := last :: s.rest, eofbit := false }

/-- `std::getline(iss, str)`: the characters up to the next newline, which is consumed. -/
def getline (s : IStream) (old : List Char) : IStream × List Char :=
  match s.sentry true with
  | (s1, false) => (s1, old)
  | (s1, true) =>
    let text := s1.rest.takeWhile (fun c => c ≠ '\n')
    let left := s1.rest.dropWhile (fun c => c ≠ '\n')
    match left with
    | [] => ({ s1 with rest := [], failbit := decide (text = []), eofbit := true }, text)
    | _ :: after => ({ s1 with rest := after }, text)

end IStream

/-! ## MemoryAccessor::ParseMaps -/

/-- The variables `segmentInfo`, `trash` and `permissions` that `ParseMaps` declares
before its loop and reuses for every line. -/
structure ParseLocals where
  segmentInfo : SegmentInfo := { start := 0, end_ := 0 }
  trash : Char := Char.ofNat 0
  permissions : List Char := []

namespace MemoryAccessor

/-- `MemoryAccessor::ResetSegments`. -/
def ResetSegments (m : MemoryAccessor) : MemoryAccessor :=
  { m with segment_infos_ := [], special_segment_found_ := [] }

/-- `MemoryAccessor::Reset`. -/
def Reset (m : MemoryAccessor) : MemoryAccessor :=
  { ResetSegments m with pid_set_ := false, mem_is_open := false }

/-- The chain `iss >> std::hex >> start >> trash >> end >> permissions >> offset >>
major_id >> trash >> minor_id >> std::dec >> inode_id` on a fresh stream over `line`:
the stream afterwards and the variables. -/
def ParseMaps.extract (loc : ParseLocals) (line : List Char) : IStream × ParseLocals :=
  let iss : IStream := { rest := line, base := 16 }
  let r1 := iss.extractUnsigned 64 loc.segmentInfo.start
  let r2 := r1.1.extractChar loc.trash
  let r3 := r2.1.extractUnsigned 64 loc.segmentInfo.end_
  let r4 := r3.1.extractString loc.permissions
  let r5 := r4.1.extractUnsigned 64 loc.segmentInfo.offset
  let r6 := r5.1.extractUnsigned 32 loc.segmentInfo.major_id
  let r7 := r6.1.extractChar r2.2
  let r8 := r7.1.extractUnsigned 32 loc.segmentInfo.minor_id
  let r9 := IStream.extractUnsigned { r8.1 with base := 10 } 64 loc.segmentInfo.inode_id
  (r9.1,
    { segmentInfo :=
        { loc.segmentInfo with
          start := r1.2, end_ := r3.2, offset := r5.2, major_id := r6.2, minor_id := r8.2,
          inode_id := r9.2 },
      trash := r7.2, permissions := r4.2 })

/-- The loop `do { iss >> trash; } while (trash == ' ');`.  An extracted character is
never a blank, so the body runs once; `fuel` bounds the repetitions of the model. -/
def ParseMaps.skip : (fuel : Nat) → IStream → Char → IStream × Char
  | 0, iss, trash => (iss, trash)
  | fuel + 1, iss, trash =>
    let r := iss.extractChar trash
    if r.2 = ' ' then ParseMaps.skip fuel r.1 r.2 else r

/-- The body of the `while (std::getline(maps, line))` loop up to the `push_back`:
`none` when the line is rejected (`BadMapsEx`), else the variables afterwards, of which
`segmentInfo` is appended to the segment list. -/
def ParseMaps.line (loc : ParseLocals) (line : List Char) : Option ParseLocals :=
  let r := ParseMaps.extract loc line
  let mode := Tools.DecodePermissions r.2.permissions
  if r.1.failbit = true ∨ mode = INVALID_MODE then none
  else
    let sk := ParseMaps.skip (line.length + 1) r.1 r.2.trash
    if sk.2 ≠ ' ' ∧ sk.1.eofbit = false then
      let g := (sk.1.unget sk.2).getline r.2.segmentInfo.path.data
      some { segmentInfo := { r.2.segmentInfo with mode := mode, path := String.mk g.2 },
             trash := sk.2, permissions := r.2.permissions }
    else
      some { segmentInfo := { r.2.segmentInfo with mode := mode },
             trash := sk.2, permissions := r.2.permissions }

/-- The statements `segment_infos_.push_back(segmentInfo)` and, for a path starting
with `[`, `special_segment_found_[path] = &segment_infos_.back()` (the pointer is
represented by the index of the element it designates when it is taken). -/
def ParseMaps.push (m : MemoryAccessor) (seg : SegmentInfo) : MemoryAccessor :=
  if seg.path.data.head? = some '[' then
    { m with
      segment_infos_ := m.segment_infos_ ++ [seg],
      special_segment_found_ :=
        m.special_segment_found_.filter (fun e => e.1 ≠ seg.path)
          ++ [(seg.path, m.segment_infos_.length)] }
  else { m with segment_infos_ := m.segment_infos_ ++ [seg] }

/-- The loop `while (std::getline(maps, line))` over the lines still to be read. -/
def ParseMaps.loop : List (List Char) → ParseLocals → MemoryAccessor →
    Except Ex Unit × MemoryAccessor
  | [], _, m => (.ok (), m)
  | line :: lines, loc, m =>
    match ParseMaps.line loc line with
    | none => (.error Ex.BadMapsEx, ResetSegments m)
    | some loc1 => ParseMaps.loop lines loc1 (ParseMaps.push m loc1.segmentInfo)

/-- `MemoryAccessor::ParseMaps`.  `maps` is `/proc/PID/maps` as the call finds it:
`none` when it cannot be opened, else the lines that `std::getline` delivers. -/
def ParseMaps (m : MemoryAccessor) (maps : Option (List (List Char))) :
    Except Ex Unit × MemoryAccessor :=
  match CheckPid m with
  | .error e => (.error e, m)
  | .ok _ =>
    match maps with
    | none => (.error Ex.MapsFileEx, m)
    | some lines => ParseMaps.loop lines {} (ResetSegments m)

end MemoryAccessor

/-- The start value that the extraction chain reads from a line. -/
def lineStart (line : List Char) : Nat := (MemoryAccessor.ParseMaps.extract {} line).2.segmentInfo.start

/-- The end value that the extraction chain reads from a line. -/
def lineEnd (line : List Char) : Nat := (MemoryAccessor.ParseMaps.extract {} line).2.segmentInfo.end_

/-- The extraction chain rejects the line: it ends with `failbit` set (a field is
missing or a number does not parse), or `DecodePermissions` rejects the permission
token. -/
def LineRejected (line : List Char) : Prop :=
  (MemoryAccessor.ParseMaps.extract {} line).1.failbit = true ∨
  Tools.DecodePermissions (MemoryAccessor.ParseMaps.extract {} line).2.permissions
    = INVALID_MODE

instance (line : List Char) : Decidable (LineRejected line) := by
  unfold LineRejected; exact inferInstance

/-- An object with a PID set and nothing parsed yet. -/
def freshAccessor : MemoryAccessor := { pid_ := 1, pid_set_ := true }

/-! ## Console: the diff command (console.cc)

The sweep of `Console::CommandDiff` and its helpers.  The flag `ctrl_c_pressed` is
taken to stay false.

The iterator `it` of `full_dump` is a pointer into the array of the vector; it is
modelled by the position it designates.  `DiffOldNext` assigns the result of `erase` to
`it`, `DiffNewNext` drops the result of `insert` and goes on with `it`.  As long as the
`insert` does not move the array, the pointer designates the same position as before and
the position is what the code works with.  When the `insert` finds the array full, the
vector moves to a new array and `it` is left pointing into the released one: every later
use of `it` is undefined.  Likewise `DiffReadSeg` reads `segment_infos_[num]` without a
test of `num`.  The model does not stop at such an operation: it records it in the field
`undefined` of the state and goes on with the values that the position and a size of 0
give.  After the first record, what the model says of the variables is no statement
about the program any more. -/

/-- A `std::unique_ptr<char[]>` holding the dump of a segment: `none` is the null
pointer, `some bytes` an array with these bytes. -/
abbrev Dump : Type := Option (List Byte)

namespace Console

/-- What the commands act on: the object `memory_accessor_` and the memory of the
subject. -/
structure World where
  m : MemoryAccessor
  img : MemImage

/-- `Console::ParseMapsWrapper`: the return code and the object.  `maps` is what
opening `/proc/PID/maps` gives, as for `MemoryAccessor::ParseMaps`. -/
def ParseMapsWrapper (m : MemoryAccessor) (maps : Option (List (List Char))) :
    Nat × MemoryAccessor :=
  match m.ParseMaps maps with
  | (.ok _, m1) => (0, m1)
  | (.error _, m1) => (1, m1.Reset)

/-- `Console::ReadSegWrapper`: the return code, the caller's memory and the object.
`PidNotSetEx` and `MemFileEx` give 1, `SegmentAccessDeniedEx` and the other `SegmentEx`
give 2; `ReadSegment` throws nothing else. -/
def ReadSegWrapper (m : MemoryAccessor) (img : MemImage) (buf : Ptr)
    (dst num start amount : Nat) : Nat × Ptr × MemoryAccessor :=
  match m.ReadSegment img buf dst num start amount with
  | (.ok _, buf1, m1) => (0, buf1, m1)
  | (.error Ex.SegmentAccessDeniedEx, buf1, m1) => (2, buf1, m1)
  | (.error Ex.SegmentNotExistEx, buf1, m1) => (2, buf1, m1)
  | (.error Ex.AddressNotInSegmentEx, buf1, m1) => (2, buf1, m1)
  | (.error _, buf1, m1) => (1, buf1, m1)

/-- An operation of the diff command that the language leaves undefined. -/
inductive Undefined where
  /-- A use of `it` (`insert(it, ...)`, `it++`, `erase(it)`, `it->get()`) after an
  `insert` moved the array of `full_dump`. -/
  | stale_iterator
  /-- The call `erase(it)` with `it` behind the last slot of `full_dump`. -/
  | end_iterator
  /-- The read of `segment_infos_[num]` in `DiffReadSeg` with `num` not below the size. -/
  | segment_index (num : Nat)
  deriving DecidableEq, Repr

/-- `Console::DiffReadSeg(mem_dump, num)`: the return code, `mem_dump` after the call
and the world.  The array is allocated zeroed with the size of segment `num` and filled
by `ReadSegWrapper` with the default `start = 0`, `amount = SIZE_MAX`.  When `num` is
not below `segment_infos_.size()`, the read of `segment_infos_[num]` for the size is
undefined in the source (see `DiffReadSeg.undefined`, which the callers record); the
value given here for that case is the one of a size of 0, after which `ReadSegment`
rejects the number and the array is dropped again. -/
def DiffReadSeg (w : World) (num : Nat) : Nat × Dump × World :=
  let size :=
    match w.m.segment_infos_[num]? with
    | some seg => sub64 seg.end_ seg.start
    | none => 0
  match ReadSegWrapper w.m w.img (fun _ => 0) 0 num 0 SIZE_MAX with
  | (1, buf, m1) => (1, some (slice buf 0 size), { w with m := m1 })
  | (2, _, m1) => (0, none, { w with m := m1 })
  | (_, buf, m1) => (0, some (slice buf 0 size), { w with m := m1 })

/-- The undefined operation of the call `DiffReadSeg(mem_dump, num)` in the world `w`:
`segment_infos_[num]` is read without a test, also when `num` is not below
`segment_infos_.size()`. -/
def DiffReadSeg.undefined (w : World) (num : Nat) : List Undefined :=
  if num < w.m.segment_infos_.length then [] else [Undefined.segment_index num]

/-- The capacity of a `std::vector` after one element was added to `size` elements held
in an array for `capacity` elements (`push_back` and `insert` of libstdc++, through
`_M_check_len(1)`): the array is kept while it has room, and replaced by an array for
`size + max(size, 1)` elements when it is full. -/
def vectorGrow (capacity size : Nat) : Nat :=
  if size < capacity then capacity else size + max size 1

/-- What a use of the iterator `it` is: undefined when `it` is stale. -/
def staleUse (it_stale : Bool) : List Undefined :=
  if it_stale then [Undefined.stale_iterator] else []

/-- The arguments of one call of `Console::DiffCompare` (`length` and `replacement`
are those of the command): `it->get()`, `mem_dump.get()`, the two offsets, the amount
and the start address. -/
structure DiffCall where
  old_dump : Dump
  new_dump : Dump
  o_offs : Nat
  n_offs : Nat
  amount : Nat
  start_addr : Nat
  deriving DecidableEq, Repr

/-- The local variables of `Console::CommandDiff` that live across the sweep, and the
world.  `reads` and `calls` are not variables of the source: they record, in order, the
calls of `DiffReadSeg` made in the current round (the number passed and the world right
before the call) and the calls of `DiffCompare`.  Three more fields are not variables
of the source either: `capacity` is `full_dump.capacity()`, `it_stale` tells that an
`insert` moved the array of `full_dump` since `it` was last set from `begin()`, and
`undefined` records, in order, the undefined operations made since the command
started. -/
structure DiffState where
  w : World
  i : Nat := 0
  j : Nat := 0
  o_offs : Nat := 0
  n_offs : Nat := 0
  amount : Nat := 0
  mem_dump : Dump := none
  full_dump : List Dump := []
  it : Nat := 0
  reads : List (Nat × World) := []
  calls : List DiffCall := []
  capacity : Nat := 0
  it_stale : Bool := false
  undefined : List Undefined := []

/-- How a piece of the diff command is left: `next` when control goes on after it
(a `break` out of the sweep, the end of a round), `aborted` when the command ends
(`goto diff_return`, or the `break` after a failed `ParseMapsWrapper`), `undefined` when
an element past the end of a vector would be read. -/
inductive Flow where
  | next
  | aborted
  | undefined
  deriving DecidableEq, Repr

/-- The undefined operation of `full_dump.erase(it)`: `it` is stale, or designates no
slot. -/
def eraseUndefined (st : DiffState) : List Undefined :=
  if st.it_stale then [Undefined.stale_iterator]
  else if st.full_dump.length ≤ st.it then [Undefined.end_iterator]
  else []

/-- `Console::DiffOldNext(i, old_segments_amount, it, full_dump)`: erase the slot at
`it` and assign the result, the iterator to the slot that followed, to `it`; `i++`. -/
def DiffOldNext (old_segments_amount : Nat) (st : DiffState) : Nat × DiffState :=
  let st1 := { st with
    full_dump := st.full_dump.take st.it ++ st.full_dump.drop (st.it + 1),
    i := st.i + 1,
    undefined := st.undefined ++ eraseUndefined st }
  if st1.i = old_segments_amount then (1, st1) else (0, st1)

/-- `Console::DiffNewNext(j, it, mem_dump, full_dump)`: insert `mem_dump` before `it`,
`it++`, `j++`, dump segment `j` into `mem_dump`.  The iterator that `insert` returns is
dropped.  When the array of `full_dump` is full, the `insert` moves the vector to a new
array and `it` becomes stale: the `it++` that follows and every use of `it` up to the
next `it = full_dump.begin()` are recorded as undefined. -/
def DiffNewNext (st : DiffState) : Nat × DiffState :=
  let stale := st.it_stale || decide (st.capacity ≤ st.full_dump.length)
  let st1 := { st with
    full_dump := st.full_dump.take st.it ++ st.mem_dump :: st.full_dump.drop st.it,
    capacity := vectorGrow st.capacity st.full_dump.length,
    mem_dump := none,
    it := st.it + 1,
    it_stale := stale,
    j := st.j + 1,
    undefined := st.undefined ++ staleUse st.it_stale ++ staleUse stale }
  let r := DiffReadSeg st1.w st1.j
  let st2 := { st1 with
    mem_dump := r.2.1, w := r.2.2, reads := st1.reads ++ [(st1.j, st1.w)],
    undefined := st1.undefined ++ DiffReadSeg.undefined st1.w st1.j }
  if r.1 ≠ 0 then (2, st2)
  else if st2.j = st2.w.m.segment_infos_.length then (1, st2)
  else (0, st2)

/-- One call of `DiffCompare` from the sweep, with `it->get()` for the old dump.
`DiffCompare` touches no variable of the sweep; what it does to the world (patches
written through the `write` command) is given by `cmp`, with `none` when it does not
return. -/
def callDiffCompare (cmp : DiffCall → World → Option World) (st : DiffState)
    (old_dump : Dump) (start_addr : Nat) : Option DiffState :=
  let call : DiffCall :=
    { old_dump := old_dump, new_dump := st.mem_dump, o_offs := st.o_offs,
      n_offs := st.n_offs, amount := st.amount, start_addr := start_addr }
  match cmp call st.w with
  | none => none
  | some w1 =>
    some { st with
      w := w1, calls := st.calls ++ [call],
      undefined := st.undefined ++ staleUse st.it_stale }

/-- What the sweep does with the return code of `DiffOldNext`: `break` when it is not
0, `continue` otherwise (`none`). -/
def afterOldNext (r : Nat × DiffState) : Option Flow × DiffState :=
  match r with
  | (0, st1) => (none, st1)
  | (_, st1) => (some Flow.next, st1)

/-- What the sweep does with the return code of `DiffNewNext`: `continue` on 0 (`none`),
`break` on 1, `goto diff_return` otherwise. -/
def afterNewNext (r : Nat × DiffState) : Option Flow × DiffState :=
  match r with
  | (0, st1) => (none, st1)
  | (1, st1) => (some Flow.next, st1)
  | (_, st1) => (some Flow.aborted, st1)

/-- One iteration of the inner `for (;;)` of `CommandDiff`.  The value is `none` when
`DiffCompare` does not return; otherwise the state with `none` for `continue` and
`some` of the way the loop is left. -/
def CommandDiff.step (cmp : DiffCall → World → Option World)
    (old_segment_infos : List SegmentInfo) (old_segments_amount : Nat) (st : DiffState) :
    Option (Option Flow × DiffState) :=
  match old_segment_infos[st.i]?, st.w.m.segment_infos_[st.j]? with
  | some o, some n =>
    if o.end_ ≤ n.start then some (afterOldNext (DiffOldNext old_segments_amount st))
    else if n.end_ ≤ o.start then some (afterNewNext (DiffNewNext st))
    else
      let st1 :=
        if n.start ≤ o.start then { st with n_offs := sub64 o.start n.start }
        else { st with o_offs := sub64 n.start o.start }
      match st1.full_dump[st1.it]? with
      | none => some (some Flow.undefined, st1)
      | some old_dump =>
        if n.end_ ≤ o.end_ then
          let st2 := { st1 with amount := sub64 (sub64 n.end_ n.start) st1.n_offs }
          match callDiffCompare cmp st2 old_dump (add64 o.start st2.o_offs) with
          | none => none
          | some st3 => some (afterNewNext (DiffNewNext st3))
        else
          let st2 := { st1 with amount := sub64 (sub64 o.end_ o.start) st1.o_offs }
          match callDiffCompare cmp st2 old_dump (add64 o.start st2.o_offs) with
          | none => none
          | some st3 => some (afterOldNext (DiffOldNext old_segments_amount st3))
  | _, _ => some (some Flow.undefined, st)

/-- The inner `for (;;)` of `CommandDiff`; `fuel` bounds the number of iterations. -/
def CommandDiff.sweep (cmp : DiffCall → World → Option World)
    (old_segment_infos : List SegmentInfo) (old_segments_amount : Nat) :
    Nat → DiffState → Option (Flow × DiffState)
  | 0, _ => none
  | fuel + 1, st =>
    match CommandDiff.step cmp old_segment_infos old_segments_amount st with
    | none => none
    | some (some flow, st1) => some (flow, st1)
    | some (none, st1) => CommandDiff.sweep cmp old_segment_infos old_segments_amount fuel st1

/-- The loop `while (i < old_segments_amount) DiffOldNext(...)`. -/
def CommandDiff.drainOld (old_segments_amount : Nat) : Nat → DiffState → Option DiffState
  | 0, st => if st.i < old_segments_amount then none else some st
  | fuel + 1, st =>
    if st.i < old_segments_amount then
      CommandDiff.drainOld old_segments_amount fuel (DiffOldNext old_segments_amount st).2
    else some st

/-- The loop `for (;;)` over `DiffNewNext` that ends the round. -/
def CommandDiff.drainNew : Nat → DiffState → Option (Flow × DiffState)
  | 0, _ => none
  | fuel + 1, st =>
    match DiffNewNext st with
    | (1, st1) => some (Flow.next, st1)
    | (2, st1) => some (Flow.aborted, st1)
    | (_, st1) => CommandDiff.drainNew fuel st1

/-- The body of the outer `for (;;)` of `CommandDiff`: one round.  `st` holds the
variables as the previous round (or the priming) left them, `maps` is the listing the
round parses.  The value is `none` when `DiffCompare` does not return (the bounds given
to the loops are never reached, see `sweep_returns`, `drainOld_returns` and
`drainNew_returns`). -/
def CommandDiff.round (cmp : DiffCall → World → Option World)
    (maps : Option (List (List Char))) (st : DiffState) : Option (Flow × DiffState) :=
  let old_segments_amount := st.w.m.segment_infos_.length
  let old_segment_infos := st.w.m.segment_infos_
  match ParseMapsWrapper st.w.m maps with
  | (0, m1) =>
    let st1 := { st with w := { st.w with m := m1 } }
    if old_segments_amount = 0 ∨ m1.segment_infos_.length = 0 then some (Flow.next, st1)
    else
      let r := DiffReadSeg st1.w 0
      let st2 := { st1 with
        it := 0, it_stale := false, i := 0, j := 0, o_offs := 0, n_offs := 0, amount := 0,
        mem_dump := r.2.1, w := r.2.2, reads := [(0, st1.w)], calls := [],
        undefined := st1.undefined ++ DiffReadSeg.undefined st1.w 0 }
      if r.1 ≠ 0 then some (Flow.aborted, st2)
      else
        match CommandDiff.sweep cmp old_segment_infos old_segments_amount
            (old_segments_amount + m1.segment_infos_.length) st2 with
        | none => none
        | some (Flow.next, st3) =>
          match CommandDiff.drainOld old_segments_amount (old_segments_amount - st3.i) st3 with
          | none => none
          | some st4 =>
            if st4.j < st4.w.m.segment_infos_.length then
              CommandDiff.drainNew (st4.w.m.segment_infos_.length - st4.j) st4
            else some (Flow.next, st4)
        | some (flow, st3) => some (flow, st3)
  | (_, m1) => some (Flow.aborted, { st with w := { st.w with m := m1 } })

end Console

/-- The dump that the call of `DiffReadSeg` recorded as `e` produced. -/
def dumpOf (e : Nat × Console.World) : Dump := (Console.DiffReadSeg e.2 e.1).2.1

/-- A world with a PID set, no segment map yet and the memory `demoImage`. -/
def demoWorld : Console.World := { m := freshAccessor, img := demoImage }

/-- A listing with three segments `[0x1000, 0x1004)`, `[0x1008, 0x100c)` and
`[0x2000, 0x2004)`. -/
def demoOldMaps : List (List Char) :=
  ["1000-1004 rw-p 00000000 00:00 0".toList, "1008-100c rw-p 00000000 00:00 0".toList,
   "2000-2004 rw-p 00000000 00:00 0".toList]

/-- A listing with three segments `[0xff0, 0xff2)`, `[0x1002, 0x100a)` and
`[0x3000, 0x3002)`: the first lies below the segments of `demoOldMaps`, the second
overlaps the first two of them, the third lies above them. -/
def demoNewMaps : List (List Char) :=
  ["0ff0-0ff2 rw-p 00000000 00:00 0".toList, "1002-100a rw-p 00000000 00:00 0".toList,
   "3000-3002 rw-p 00000000 00:00 0".toList]

/-- The variables of the diff command at the start of a round: the segment map is that
of `demoOldMaps` and `full_dump` has one slot for each of its segments, the second
being null, in the array for four slots that three calls of `push_back` leave. -/
def demoDiffState : Console.DiffState :=
  { w := { demoWorld with m := (freshAccessor.ParseMaps (some demoOldMaps)).2 },
    full_dump := [some [1, 1, 1, 1], none, some [3, 3, 3, 3]],
    capacity := 4 }

namespace Console

/-- The loop `for (num = 0; num < old_segments_amount; num++)` of the priming step of
`CommandDiff`, with `left` iterations to go: dump segment `num` and push the dump onto
`full_dump`. -/
def CommandDiff.primeLoop : (left : Nat) → (num : Nat) → DiffState → Flow × DiffState
  | 0, _, st => (Flow.next, st)
  | left + 1, num, st =>
    let r := DiffReadSeg st.w num
    let st1 := { st with
      mem_dump := r.2.1, w := r.2.2, reads := st.reads ++ [(num, st.w)],
      undefined := st.undefined ++ DiffReadSeg.undefined st.w num }
    if r.1 ≠ 0 then (Flow.aborted, st1)
    else
      CommandDiff.primeLoop left (num + 1)
        { st1 with
          full_dump := st1.full_dump ++ [st1.mem_dump],
          capacity := vectorGrow st1.capacity st1.full_dump.length, mem_dump := none }

/-- The priming step of `CommandDiff` (from the declarations of the locals to the end of
the first dump loop).  `old_segments_amount` is initialised from the segment list the
object holds when the command starts, before `ParseMapsWrapper` is called. -/
def CommandDiff.prime (maps : Option (List (List Char))) (w : World) : Flow × DiffState :=
  let old_segments_amount := w.m.segment_infos_.length
  match ParseMapsWrapper w.m maps with
  | (0, m1) => CommandDiff.primeLoop old_segments_amount 0 { w := { w with m := m1 } }
  | (_, m1) => (Flow.aborted, { w := { w with m := m1 } })

end Console

/-- The object after `maps` was parsed, the state in which the diff command finds it
when the map was parsed before (by the `maps` command, for one). -/
def parsedWorld (maps : List (List Char)) : Console.World :=
  { demoWorld with m := (freshAccessor.ParseMaps (some maps)).2 }

/-- The variables of the diff command after the priming step, when the object held the
map of `maps` and the subject still has this map. -/
def primedState (maps : List (List Char)) : Console.DiffState :=
  (Console.CommandDiff.prime (some maps) (parsedWorld maps)).2

/-! ## Console: the `write` command and the command line (console.cc) -/

namespace Console

/-- The locals of `Console::ParseCmdline`. -/
structure CmdlineState where
  result : List (List Char) := []
  in_quote : Bool := false
  in_escape : Bool := false
  was_space : Bool := false
  param : List Char := []
  deriving DecidableEq, Repr

/-- The body of the loop `for (const char &c : line)` of `ParseCmdline`. -/
def ParseCmdline.step (s : CmdlineState) (c : Char) : CmdlineState :=
  if s.in_escape then
    let res_c :=
      if c = 'a' then Char.ofNat 7
      else if c = 'b' then Char.ofNat 8
      else if c = 'f' then Char.ofNat 12
      else if c = 'n' then Char.ofNat 10
      else if c = 'r' then Char.ofNat 13
      else if c = 't' then Char.ofNat 9
      else if c = 'v' then Char.ofNat 11
      else c
    { s with param := s.param ++ [res_c], in_escape := false }
  else if c = ' ' then
    if !s.in_quote then
      if !s.was_space && !s.param.isEmpty then
        { s with result := s.result ++ [s.param], param := [], was_space := true }
      else { s with was_space := true }
    else { s with param := s.param ++ [c] }
  else if c = Char.ofNat 34 then { s with was_space := false, in_quote := !s.in_quote }
  else if c = Char.ofNat 92 then { s with was_space := false, in_escape := true }
  else { s with was_space := false, param := s.param ++ [c] }

/-- `Console::ParseCmdline(line)`: the arguments, the command name first. -/
def ParseCmdline (line : List Char) : List (List Char) :=
  let s := line.foldl ParseCmdline.step {}
  if !s.param.isEmpty then s.result ++ [s.param] else s.result

/-- `Console::ParseAddress(s, result)`: `none` for the return code 1, otherwise the
value stored in `result`. -/
def ParseAddress (s : List Char) : Option Nat :=
  let r := ({ rest := s, base := 16 } : IStream).extractUnsigned 64 0
  if r.1.failbit then none else some r.2

/-- `std::stoull(s)` (base 10): leading whitespace, an optional sign, digits.  The
error is 1 for `std::invalid_argument` (no digit) and 2 for `std::out_of_range`. -/
def stoull (s : List Char) : Except Nat Nat :=
  let cs := s.dropWhile isspace
  let negative := cs.head? = some '-'
  let cs1 := if cs.head? = some '-' ∨ cs.head? = some '+' then cs.tail else cs
  let r := scanDigits 10 SIZE_MAX cs1 0 false 0
  if r.2.2.1 = 0 then .error 1
  else if r.2.1 then .error 2
  else .ok (if negative then (SIZE - r.1) % SIZE else r.1)

/-- `Console::StoullWrapper(s, result, name)`: `none` for a return code other than 0,
otherwise the value stored in `result`. -/
def StoullWrapper (s : List Char) : Option Nat :=
  match stoull s with
  | .ok v => some v
  | .error _ => none

/-- `Console::CheckPidWrapper`: the return code. -/
def CheckPidWrapper (m : MemoryAccessor) : Nat :=
  match m.CheckPid with
  | .ok _ => 0
  | .error _ => 1

/-- `Console::WriteWrapper(src, address, amount, done_amount)`: the return code, the
caller's `done_amount` and the world.  The codes are those of `ReadSegWrapper`. -/
def WriteWrapper (w : World) (src : Ptr) (address amount done_amount : Nat) :
    Nat × Nat × World :=
  match w.m.Write w.img src address amount done_amount with
  | (.ok _, img1, done1, m1) => (0, done1, { m := m1, img := img1 })
  | (.error Ex.SegmentAccessDeniedEx, img1, done1, m1) => (2, done1, { m := m1, img := img1 })
  | (.error Ex.SegmentNotExistEx, img1, done1, m1) => (2, done1, { m := m1, img := img1 })
  | (.error Ex.AddressNotInSegmentEx, img1, done1, m1) => (2, done1, { m := m1, img := img1 })
  | (.error _, img1, done1, m1) => (1, done1, { m := m1, img := img1 })

/-- What the console is set up with besides the object: the size of its buffers
(`buffer_size_`, 0x1000 unless changed) and, for `-f file`, the files that can be
opened with their contents. -/
structure Setup where
  buffer_size_ : Nat := 4096
  files : List Char → Option (List Byte) := fun _ => none

/-- The byte stored for a character of a `std::string`. -/
def byteOf (c : Char) : Byte := Fin.ofNat c.toNat

/-- The variables that the two loops of `CommandWrite` update. -/
structure WriteState where
  w : World
  buf : Ptr := fun _ => 0
  address : Nat
  amount : Nat
  done_amount : Nat := 0
  temp_done_amount : Nat := 0
  last_wrapper_exit_code : Nat := 0
  file_pos : Nat := 0
  file_fail : Bool := false

/-- The variables `file_path`, `addr_str`, `amount_str` and `str_p` of `CommandWrite`
(`str_p` points to one of the arguments; `none` is the null pointer). -/
structure WriteArgs where
  file_path : List Char := []
  addr_str : List Char := []
  amount_str : List Char := []
  str_p : Option (List Char) := none
  deriving DecidableEq, Repr

/-- The loop `for (ch_num = 1; ch_num < args[par_num].length(); ch_num++)` of
`CommandWrite`, from `ch_num` on: the value is `none` when the usage is shown and the
command ends, otherwise `par_num` and `file_path` after the loop.  `par_num` is
incremented inside the loop, which then goes on over the characters of the next
argument.  `fuel` is more than the length of the longest argument. -/
def CommandWrite.flags (args : List (List Char)) :
    (fuel : Nat) → (ch_num par_num : Nat) → (file_path : List Char) → Option (Nat × List Char)
  | 0, _, _, _ => none
  | fuel + 1, ch_num, par_num, file_path =>
    if ch_num < (args.getD par_num []).length then
      if charAt (args.getD par_num []) ch_num = 'f' then
        if par_num ≠ args.length - 1 ∧ file_path = [] then
          CommandWrite.flags args fuel (ch_num + 1) (par_num + 1) (args.getD (par_num + 1) [])
        else none
      else CommandWrite.flags args fuel (ch_num + 1) par_num file_path
    else some (par_num, file_path)

/-- The loop `for (par_num = 0; par_num < par_amount; par_num++)` of `CommandWrite`,
from `par_num` on; `none` when the usage is shown and the command ends. -/
def CommandWrite.scan (args : List (List Char)) :
    (fuel : Nat) → (par_num : Nat) → WriteArgs → Option WriteArgs
  | 0, _, a => some a
  | fuel + 1, par_num, a =>
    if par_num < args.length then
      let arg := args.getD par_num []
      if arg = [] then CommandWrite.scan args fuel (par_num + 1) a
      else if charAt arg 0 = '-' then
        if arg.length = 1 then CommandWrite.scan args fuel (par_num + 1) a
        else
          match CommandWrite.flags args (args.flatten.length + 1) 1 par_num a.file_path with
          | none => none
          | some (par_num1, file_path1) =>
            CommandWrite.scan args fuel (par_num1 + 1) { a with file_path := file_path1 }
      else if a.addr_str = [] then
        CommandWrite.scan args fuel (par_num + 1) { a with addr_str := arg }
      else if a.amount_str = [] then
        CommandWrite.scan args fuel (par_num + 1) { a with amount_str := arg }
      else if a.str_p = none then
        CommandWrite.scan args fuel (par_num + 1) { a with str_p := some arg }
      else CommandWrite.scan args fuel (par_num + 1) a
    else some a

/-- `str_p->copy(buf.get(), count, pos)`: the characters of the string from `pos` on,
at most `count` of them, stored at the start of `buf` (`pos` is never beyond the end
of the string here). -/
def strCopy (str : List Char) (buf : Ptr) (count pos : Nat) : Ptr :=
  blit buf 0 (ofList (((str.drop pos).take count).map byteOf)) ((str.drop pos).take count).length

/-- The first loop of the string branch of `CommandWrite`:
`for (; amount >= buffer_size_; amount -= buffer_size_, address += buffer_size_)`.
`none` when `fuel` is used up, which happens only when `buffer_size_` is 0. -/
def CommandWrite.strLoop (buffer_size_ : Nat) (str : List Char) :
    (fuel : Nat) → WriteState → Option WriteState
  | 0, _ => none
  | fuel + 1, s =>
    if s.amount ≥ buffer_size_ then
      let buf1 := strCopy str s.buf buffer_size_ s.done_amount
      let r := WriteWrapper s.w buf1 s.address buffer_size_ s.temp_done_amount
      let s1 := { s with buf := buf1, last_wrapper_exit_code := r.1, temp_done_amount := r.2.1,
                         w := r.2.2 }
      if r.1 ≠ 0 then some s1
      else
        CommandWrite.strLoop buffer_size_ str fuel
          { s1 with done_amount := add64 s1.done_amount s1.temp_done_amount,
                    amount := sub64 s1.amount buffer_size_,
                    address := add64 s1.address buffer_size_ }
    else some s

/-- The string branch of `CommandWrite` (the `else` of `if (file.is_open())`). -/
def CommandWrite.strBranch (buffer_size_ : Nat) (str : List Char) (s : WriteState) :
    Option WriteState :=
  match CommandWrite.strLoop buffer_size_ str (s.amount + 1) s with
  | none => none
  | some s1 =>
    if s1.amount ≠ 0 ∧ s1.last_wrapper_exit_code = 0 then
      let buf1 := strCopy str s1.buf s1.amount s1.done_amount
      let r := WriteWrapper s1.w buf1 s1.address s1.amount s1.temp_done_amount
      let s2 := { s1 with buf := buf1, last_wrapper_exit_code := r.1, temp_done_amount := r.2.1,
                          w := r.2.2 }
      if r.1 = 0 then some { s2 with done_amount := add64 s2.done_amount s2.temp_done_amount }
      else some s2
    else some s1

/-- `file.read(buf.get(), count)` on a file with the given contents: the bytes read
are stored at the start of `buf`; when fewer than `count` bytes are left the stream
fails. -/
def fileRead (content : List Byte) (s : WriteState) (count : Nat) : WriteState × Nat :=
  let got := (content.drop s.file_pos).take count
  ({ s with buf := blit s.buf 0 (ofList got) got.length, file_pos := s.file_pos + got.length,
            file_fail := decide (got.length < count) }, got.length)

/-- The first loop of the file branch of `CommandWrite`; see `strLoop`. -/
def CommandWrite.fileLoop (buffer_size_ : Nat) (content : List Byte) :
    (fuel : Nat) → WriteState → Option WriteState
  | 0, _ => none
  | fuel + 1, s =>
    if s.amount ≥ buffer_size_ then
      let rd := fileRead content s buffer_size_
      if rd.1.file_fail then some rd.1
      else if rd.2 ≠ buffer_size_ then
        let r := WriteWrapper rd.1.w rd.1.buf rd.1.address rd.2 rd.1.temp_done_amount
        let s1 := { rd.1 with last_wrapper_exit_code := r.1, temp_done_amount := r.2.1, w := r.2.2 }
        if r.1 = 0 then some { s1 with done_amount := add64 s1.done_amount s1.temp_done_amount }
        else some s1
      else
        let r := WriteWrapper rd.1.w rd.1.buf rd.1.address buffer_size_ rd.1.temp_done_amount
        let s1 := { rd.1 with last_wrapper_exit_code := r.1, temp_done_amount := r.2.1, w := r.2.2 }
        if r.1 ≠ 0 then some s1
        else
          CommandWrite.fileLoop buffer_size_ content fuel
            { s1 with done_amount := add64 s1.done_amount s1.temp_done_amount,
                      amount := sub64 s1.amount buffer_size_,
                      address := add64 s1.address buffer_size_ }
    else some s

/-- The file branch of `CommandWrite` (`if (file.is_open())`). -/
def CommandWrite.fileBranch (buffer_size_ : Nat) (content : List Byte) (s : WriteState) :
    Option WriteState :=
  match CommandWrite.fileLoop buffer_size_ content (s.amount + 1) s with
  | none => none
  | some s1 =>
    if s1.amount ≠ 0 ∧ s1.file_fail = false ∧ s1.last_wrapper_exit_code = 0 then
      let rd := fileRead content s1 s1.amount
      if rd.1.file_fail then some rd.1
      else
        let r :=
          if rd.2 ≠ buffer_size_ then
            WriteWrapper rd.1.w rd.1.buf rd.1.address rd.2 rd.1.temp_done_amount
          else WriteWrapper rd.1.w rd.1.buf rd.1.address rd.1.amount rd.1.temp_done_amount
        let s2 := { rd.1 with last_wrapper_exit_code := r.1, temp_done_amount := r.2.1, w := r.2.2 }
        if r.1 = 0 then some { s2 with done_amount := add64 s2.done_amount s2.temp_done_amount }
        else some s2
    else some s1

/-- `Console::CommandWrite(parent, args)`: the world after the command; `none` when
the command does not return (a loop over chunks of `buffer_size_ = 0` bytes).  What
the command prints is not represented. -/
def CommandWrite (cfg : Setup) (args : List (List Char)) (w : World) : Option World :=
  match CommandWrite.scan args args.length 0 {} with
  | none => some w
  | some a =>
    if a.addr_str = [] ∨ a.amount_str = [] ∨ (a.str_p = none ∧ a.file_path = []) then some w
    else
      match ParseAddress a.addr_str with
      | none => some w
      | some address =>
        match StoullWrapper a.amount_str with
        | none => some w
        | some amount0 =>
          let amount :=
            match a.str_p with
            | some str => if str.length < amount0 then str.length else amount0
            | none => amount0
          let file : Option (List Byte) := if a.file_path ≠ [] then cfg.files a.file_path else none
          if a.file_path ≠ [] ∧ file = none then some w
          else if CheckPidWrapper w.m ≠ 0 then some w
          else
            let s : WriteState := { w := w, address := address, amount := amount }
            match file with
            | some content => (CommandWrite.fileBranch cfg.buffer_size_ content s).map (fun s1 => s1.w)
            | none =>
              (CommandWrite.strBranch cfg.buffer_size_ (a.str_p.getD []) s).map (fun s1 => s1.w)

/-- `Console::HandleCommand(line)`.  Of the table `kCommands` only the entry `write`
is represented: for any other command name the world is returned as it is. -/
def HandleCommand (cfg : Setup) (line : List Char) (w : World) : Option World :=
  if line = [] then some w
  else
    match ParseCmdline line with
    | [] => some w
    | command_name :: args =>
      if command_name = "write".toList then CommandWrite cfg args w else some w

end Console
/-! ## Console: DiffCompare (console.cc) -/

namespace Console

/-- The variables of the loop `while (amount)` of `DiffCompare`, the world, and the
matches printed so far (address, old bytes, new bytes). -/
structure CompareState where
  old_dump : Ptr
  new_dump : Ptr
  amount : Nat
  start_addr : Nat
  done : Nat := 0
  w : World
  reports : List Report := []

/-- `oss << std::hex << start_addr`. -/
def hexOf (n : Nat) : List Char := Nat.toDigits 16 n

/-- The line `"write " + oss.str() + " " + std::to_string(length) + " " + replacement`
that `DiffCompare` hands to `HandleCommand`. -/
def writeLine (start_addr length : Nat) (replacement : List Char) : List Char :=
  "write ".toList ++ hexOf start_addr ++ " ".toList ++ Nat.toDigits 10 length ++ " ".toList
    ++ replacement

/-- The body of the loop `while (amount)` of `DiffCompare`; `none` when the `write`
command does not return. -/
def DiffCompare.body (cfg : Setup) (length : Nat) (replacement : List Char)
    (s : CompareState) : Option CompareState :=
  let r := Tools.FindDifferencesOfLen s.old_dump s.new_dump s.amount s.done length
  let s1 := { s with
    done := r.2,
    old_dump := ptrAdd s.old_dump r.2,
    new_dump := ptrAdd s.new_dump r.2,
    amount := sub64 s.amount r.2,
    start_addr := add64 s.start_addr r.2 }
  match r.1 with
  | (some found0, some found1) =>
    let s2 := { s1 with reports := s1.reports ++ [(s1.start_addr, found0, found1)] }
    if replacement ≠ [] then
      match HandleCommand cfg (writeLine s2.start_addr length replacement) s2.w with
      | none => none
      | some w1 => some { s2 with w := w1 }
    else some s2
  | _ => some s1

/-- The state after at most `n` iterations of the loop `while (amount)`. -/
def DiffCompare.iterate (cfg : Setup) (length : Nat) (replacement : List Char) :
    Nat → CompareState → Option CompareState
  | 0, s => some s
  | n + 1, s =>
    if s.amount ≠ 0 then
      match DiffCompare.body cfg length replacement s with
      | none => none
      | some s1 => DiffCompare.iterate cfg length replacement n s1
    else some s

/-- The loop `while (amount)` run to its end: `none` when it has not ended after `fuel`
iterations. -/
def DiffCompare.loop (cfg : Setup) (length : Nat) (replacement : List Char) (fuel : Nat)
    (s : CompareState) : Option CompareState :=
  match DiffCompare.iterate cfg length replacement fuel s with
  | some s1 => if s1.amount = 0 then some s1 else none
  | none => none

/-- The variables of `DiffCompare` when its loop is entered: both pointers advanced by
their offsets, `start_addr -= length`, `done = 0`. -/
def DiffCompare.start (o n : Ptr) (o_offs n_offs amount start_addr length : Nat) (w : World) :
    CompareState :=
  { old_dump := ptrAdd o o_offs, new_dump := ptrAdd n n_offs, amount := amount,
    start_addr := sub64 start_addr length, done := 0, w := w }

/-- `Console::DiffCompare(old_dump, new_dump, o_offs, n_offs, amount, start_addr, length,
replacement)`: the world after the call and the matches printed, `none` when the call
has not returned after `fuel` iterations of its loop. -/
def DiffCompare (cfg : Setup) (fuel : Nat) (old_dump new_dump : Option Ptr)
    (o_offs n_offs amount start_addr length : Nat) (replacement : List Char) (w : World) :
    Option (World × List Report) :=
  match old_dump, new_dump with
  | some o, some n =>
    (DiffCompare.loop cfg length replacement fuel
      (DiffCompare.start o n o_offs n_offs amount start_addr length w)).map
      (fun s => (s.w, s.reports))
  | _, _ => some (w, [])

/-- The pointer `get()` of a dump; what lies behind the array in memory is read as 0. -/
def dumpPtr (d : Dump) : Option Ptr := d.map ofList

/-- The effect of `DiffCompare` on the world for the sweep of `CommandDiff` run with
the arguments `length` and `replacement`. -/
def diffCmp (cfg : Setup) (fuel length : Nat) (replacement : List Char) :
    DiffCall → World → Option World :=
  fun c w =>
    (DiffCompare cfg fuel (dumpPtr c.old_dump) (dumpPtr c.new_dump) c.o_offs c.n_offs c.amount
      c.start_addr length replacement w).map Prod.fst

end Console

/-! ## MemoryAccessor::GetPid and MemoryAccessor::SetPid -/

/-- `Tools::PidExists(pid)`.  `stat` gives what `stat("/proc/PID", &buffer)` returns for
a PID, `none` when an exception is thrown on the way (caught by `catch (...)`). -/
def Tools.PidExists (stat : Int → Option Int) (pid : Int) : Nat :=
  match stat pid with
  | some r => if r ≠ 0 then 1 else 0
  | none => 2

namespace MemoryAccessor

/-- `MemoryAccessor::GetPid`. -/
def GetPid (m : MemoryAccessor) : Except Ex Int :=
  match CheckPid m with
  | .error e => .error e
  | .ok _ => .ok m.pid_

/-- `MemoryAccessor::SetPid(pid)`. -/
def SetPid (m : MemoryAccessor) (stat : Int → Option Int) (pid : Int) :
    Except Ex Unit × MemoryAccessor :=
  match Tools.PidExists stat pid with
  | 0 => (.ok (), { Reset m with pid_ := pid, pid_set_ := true })
  | 1 => (.error Ex.PidNotExistEx, m)
  | _ => (.error Ex.ErrCheckingPidEx, m)

end MemoryAccessor

/-! # Theorems -/

/-! ## Pointers and slices -/

theorem ptrAdd_ptrAdd (p : Ptr) (a b : Nat) : ptrAdd (ptrAdd p a) b = ptrAdd p (a + b) := by
  funext i; simp [ptrAdd, Nat.add_assoc]

theorem ptrAdd_zero (p : Ptr) : ptrAdd p 0 = p := by
  funext i; simp [ptrAdd]

theorem slice_length (p : Ptr) (s t : Nat) : (slice p s t).length = t := by
  simp [slice]

theorem slice_getElem? (p : Ptr) (s t i : Nat) (h : i < t) :
    (slice p s t)[i]? = some (p (s + i)) := by
  simp [slice, List.getElem?_map, List.getElem?_range h]

theorem eq_slice (l : List Byte) (p : Ptr) (s t : Nat) (hl : l.length = t)
    (h : ∀ i, i < t → l[i]? = some (p (s + i))) : l = slice p s t := by
  apply List.ext_getElem?
  intro i
  by_cases hi : i < t
  · rw [h i hi, slice_getElem? p s t i hi]
  · rw [List.getElem?_eq_none (by omega), List.getElem?_eq_none (by rw [slice_length]; omega)]

theorem LoopInv.run_at {o n : Ptr} {N t d f : Nat} {res : List Byte × List Byte}
    (inv : LoopInv o n N t d f res) (j : Nat) (h1 : d - f ≤ j) (h2 : j < d) :
    Differs o n j := by
  have h := inv.run (j - (d - f)) (by have := inv.f_le; omega)
  rwa [show d - f + (j - (d - f)) = j by omega] at h

/-- The invariant holds when the scan starts. -/
theorem LoopInv.init (o n : Ptr) (N t : Nat) :
    LoopInv o n N t 0 0 (List.replicate t 0, List.replicate t 0) where
  f_le := Nat.le_refl 0
  run := fun i hi => absurd hi (Nat.not_lt_zero i)
  start := Or.inl rfl
  len1 := by simp
  len2 := by simp
  cont1 := fun i hi => absurd hi (Nat.not_lt_zero i)
  cont2 := fun i hi => absurd hi (Nat.not_lt_zero i)
  none_before := fun q hq => absurd hq (Nat.not_lt_zero q)

/-- A differing position extends the current run. -/
theorem LoopInv.step_diff {o n : Ptr} {N t d f : Nat} {res : List Byte × List Byte}
    (inv : LoopInv o n N t d f res) (hd : Differs o n d) :
    LoopInv o n N t (d + 1) (f + 1)
      (if f < t then (res.1.set f (o d), res.2.set f (n d)) else res) where
  f_le := by have := inv.f_le; omega
  run := by
    intro i hi
    have hfd := inv.f_le
    rw [show d + 1 - (f + 1) + i = d - f + i by omega]
    by_cases h : i < f
    · exact inv.run i h
    · rw [show d - f + i = d by omega]; exact hd
  start := by
    have hfd := inv.f_le
    rcases inv.start with h | h
    · left; omega
    · right; rwa [show d + 1 - (f + 1) - 1 = d - f - 1 by omega]
  len1 := by split <;> simp [inv.len1]
  len2 := by split <;> simp [inv.len2]
  cont1 := by
    intro i hi hit
    have hfd := inv.f_le
    rw [show d + 1 - (f + 1) + i = d - f + i by omega]
    by_cases hft : f < t
    · simp only [hft, if_true]
      by_cases h : i = f
      · subst h
        rw [List.getElem?_set_self (by rw [inv.len1]; exact hit), show d - i + i = d by omega]
      · rw [List.getElem?_set_ne (by omega)]
        exact inv.cont1 i (by omega) hit
    · simp only [hft, if_false]
      exact inv.cont1 i (by omega) hit
  cont2 := by
    intro i hi hit
    have hfd := inv.f_le
    rw [show d + 1 - (f + 1) + i = d - f + i by omega]
    by_cases hft : f < t
    · simp only [hft, if_true]
      by_cases h : i = f
      · subst h
        rw [List.getElem?_set_self (by rw [inv.len2]; exact hit), show d - i + i = d by omega]
      · rw [List.getElem?_set_ne (by omega)]
        exact inv.cont2 i (by omega) hit
    · simp only [hft, if_false]
      exact inv.cont2 i (by omega) hit
  none_before := by
    intro q hq
    exact inv.none_before q (by omega)

/-- No maximal run of length `t` starts inside or at the start of a run whose length
is known to be different from `t`. -/
theorem LoopInv.no_run_here {o n : Ptr} {N t d f : Nat} {res : List Byte × List Byte}
    (inv : LoopInv o n N t d f res) (ht : 0 < t) (hft : f ≠ t)
    (hend : d = N ∨ ¬ Differs o n d) (hdN : d ≤ N) :
    ∀ q, q ≤ d → ¬ IsMaxRun o n N t q := by
  intro q hq ⟨h1, h2, h3, h4⟩
  have hfd := inv.f_le
  by_cases hlt : q < d - f
  · exact inv.none_before q hlt ⟨h1, h2, h3, h4⟩
  · by_cases heq : q = d - f
    · subst heq
      by_cases htf : t < f
      · have hdiff := inv.run t htf
        rcases h4 with h4 | h4
        · omega
        · exact h4 hdiff
      · -- the run would have to cover position d
        have hcov := h2 (d - (d - f)) (by omega)
        rw [show d - f + (d - (d - f)) = d by omega] at hcov
        rcases hend with hend | hend
        · omega
        · exact hend hcov
    · by_cases hqd : q = d
      · subst hqd
        have hcov := h2 0 ht
        rw [Nat.add_zero] at hcov
        rcases hend with hend | hend
        · omega
        · exact hend hcov
      · have hprev := inv.run_at (q - 1) (by omega) (by omega)
        rcases h3 with h3 | h3
        · omega
        · exact h3 hprev

/-- A run of exactly `t` differing positions that has just ended is reported. -/
theorem LoopInv.found {o n : Ptr} {N t d : Nat} {res : List Byte × List Byte}
    (inv : LoopInv o n N t d t res) (hend : d = N ∨ ¬ Differs o n d) (hdN : d ≤ N) :
    FindSpec o n N t ((some res.1, some res.2), d) := by
  have hfd := inv.f_le
  left
  refine ⟨d - t, ⟨by omega, fun i hi => inv.run i hi, ?_, ?_⟩, inv.none_before, ?_⟩
  · rcases inv.start with h | h
    · left; omega
    · right; exact h
  · rw [show d - t + t = d by omega]; exact hend
  · rw [eq_slice res.1 o (d - t) t inv.len1 (fun i hi => inv.cont1 i hi hi),
      eq_slice res.2 n (d - t) t inv.len2 (fun i hi => inv.cont2 i hi hi),
      show d - t + t = d by omega]

/-- The scan loop meets `FindSpec` from every state that satisfies the invariant. -/
theorem loop_spec (o n : Ptr) (N t : Nat) (ht : 0 < t) :
    ∀ (r d f : Nat) (res : List Byte × List Byte), LoopInv o n N t d f res → d + r = N →
      FindSpec o n N t (Tools.FindDifferencesOfLen.loop t r (ptrAdd o d) (ptrAdd n d) d f res) := by
  intro r
  induction r with
  | zero =>
    intro d f res inv hN
    have hdN : d = N := by omega
    unfold Tools.FindDifferencesOfLen.loop
    by_cases hft : f = t
    · subst hft
      simp only [if_true]
      exact inv.found (Or.inl hdN) (by omega)
    · simp only [hft, if_false]
      right
      refine ⟨fun p hp => ?_, by rw [hdN]⟩
      have hle : p ≤ d := by have := hp.1; omega
      exact inv.no_run_here ht hft (Or.inl hdN) (by omega) p hle hp
  | succ r ih =>
    intro d f res inv hN
    unfold Tools.FindDifferencesOfLen.loop
    have h0o : ptrAdd o d 0 = o d := by simp [ptrAdd]
    have h0n : ptrAdd n d 0 = n d := by simp [ptrAdd]
    rw [ptrAdd_ptrAdd, ptrAdd_ptrAdd, h0o, h0n]
    by_cases hd : Differs o n d
    · have hd2 : o d ≠ n d := hd
      simp only [hd2, ne_eq, not_false_eq_true, if_true]
      exact ih (d + 1) (f + 1) _ (inv.step_diff hd) (by omega)
    · have hd2 : ¬ (o d ≠ n d) := hd
      simp only [hd2, if_false]
      by_cases hft : f = t
      · subst hft
        simp only [if_true]
        exact inv.found (Or.inr hd) (by omega)
      · simp only [hft, if_false]
        refine ih (d + 1) 0 res ?_ (by omega)
        have hno := inv.no_run_here ht hft (Or.inr hd) (by omega)
        exact {
          f_le := Nat.zero_le _
          run := fun i hi => absurd hi (Nat.not_lt_zero i)
          start := Or.inr (by rw [show d + 1 - 0 - 1 = d by omega]; exact hd)
          len1 := inv.len1
          len2 := inv.len2
          cont1 := fun i hi => absurd hi (Nat.not_lt_zero i)
          cont2 := fun i hi => absurd hi (Nat.not_lt_zero i)
          none_before := fun q hq => hno q (by omega) }

/-- Behaviour of `FindDifferencesOfLen` whenever the guard lets the scan start. -/
theorem FindDifferencesOfLen_spec (o n : Ptr) (N t done : Nat) (ht : 0 < t) (htN : t ≤ N) :
    FindSpec o n N t (Tools.FindDifferencesOfLen o n N done t) := by
  unfold Tools.FindDifferencesOfLen
  have hg : ¬ (N = 0 ∨ t = 0 ∨ N < t) := by omega
  simp only [hg, if_false]
  have h := loop_spec o n N t ht N 0 0 _ (LoopInv.init o n N t) (by omega)
  rwa [ptrAdd_zero, ptrAdd_zero] at h

/-- A run that is maximal with length `t` does not start inside a maximal run of a
length `L` greater than `t`. -/
theorem IsMaxRun.not_inside_longer {o n : Ptr} {N t L p q : Nat}
    (hp : IsMaxRun o n N t p) (hq : IsMaxRun o n N L q) (hL : t < L) :
    ¬ (q ≤ p ∧ p < q + L) := by
  rintro ⟨h1, h2⟩
  obtain ⟨_, _, hp3, hp4⟩ := hp
  obtain ⟨hq1, hq2, _, _⟩ := hq
  by_cases h : p = q
  · subst h
    have hd := hq2 t hL
    rcases hp4 with hp4 | hp4
    · omega
    · exact hp4 hd
  · have hd := hq2 (p - 1 - q) (by omega)
    rw [show q + (p - 1 - q) = p - 1 by omega] at hd
    rcases hp3 with hp3 | hp3
    · omega
    · exact hp3 hd

/-! ### Evaluations on the buffers of the test suite -/

example : Tools.FindDifferencesOfLen (ofList [1, 2, 4, 1]) (ofList [1, 3, 5, 1]) 4 0 2
    = ((some [2, 4], some [3, 5]), 3) := by decide

example : Tools.FindDifferencesOfLen (ofList [1, 2, 3, 4, 5, 6, 7]) (ofList [8, 9, 10, 11, 12, 13, 14]) 7 0 6
    = ((none, none), 7) := by decide

example : IsMaxRun (ofList [1, 2, 4, 1]) (ofList [1, 3, 5, 1]) 4 2 1 := by decide

example : (findAllRuns (ofList [1, 10, 11, 12, 2, 13, 14, 15, 3]) (ofList [1, 15, 14, 13, 2, 12, 11, 10, 3])
    9 3 10 0 0) = [(1, [10, 11, 12], [15, 14, 13]), (5, [13, 14, 15], [12, 11, 10])] := by decide

/-! ### Claims about Tools.FindDifferencesOfLen -/

/-- C1: for buffers of length `N` and a target `0 < t ≤ N`, `FindDifferencesOfLen`
returns two non-null arrays exactly when the buffers contain a maximal run of differing
positions of length exactly `t`; the reported run (at `done - t`) is then the one with
the smallest start, and it never lies inside a maximal run longer than `t`. -/
theorem C1_match_iff_exact_run (o n : Ptr) (N t done : Nat) (ht : 0 < t) (htN : t ≤ N) :
    (((Tools.FindDifferencesOfLen o n N done t).1.1.isSome ∧
        (Tools.FindDifferencesOfLen o n N done t).1.2.isSome) ↔ ∃ p, IsMaxRun o n N t p) ∧
    (((Tools.FindDifferencesOfLen o n N done t).1.1.isSome ∧
        (Tools.FindDifferencesOfLen o n N done t).1.2.isSome) →
      ∃ p, (Tools.FindDifferencesOfLen o n N done t).2 = p + t ∧ IsMaxRun o n N t p ∧
        (∀ q, IsMaxRun o n N t q → p ≤ q) ∧
        (∀ q L, t < L → IsMaxRun o n N L q → ¬ (q ≤ p ∧ p < q + L))) := by
  have hspec := FindDifferencesOfLen_spec o n N t done ht htN
  rcases hspec with ⟨p, hp, hmin, hout⟩ | ⟨hno, hout⟩
  · rw [hout]
    refine ⟨⟨fun _ => ⟨p, hp⟩, fun _ => ⟨rfl, rfl⟩⟩, fun _ => ⟨p, rfl, hp, ?_, ?_⟩⟩
    · intro q hq
      by_contra hlt
      exact hmin q (by omega) hq
    · intro q L hL hq
      exact hp.not_inside_longer hq hL
  · rw [hout]
    refine ⟨⟨fun h => ?_, fun ⟨p, hp⟩ => absurd hp (hno p)⟩, fun h => ?_⟩
    · simp at h
    · simp at h

/-- C1 at the buffers "1241" / "1351" with target 2. -/
theorem C1_match_iff_exact_run_witness :
    (0 < 2 ∧ 2 ≤ 4) ∧
    ((((Tools.FindDifferencesOfLen (ofList [49, 50, 52, 49]) (ofList [49, 51, 53, 49]) 4 0 2).1.1.isSome ∧
        (Tools.FindDifferencesOfLen (ofList [49, 50, 52, 49]) (ofList [49, 51, 53, 49]) 4 0 2).1.2.isSome) ↔
        ∃ p, IsMaxRun (ofList [49, 50, 52, 49]) (ofList [49, 51, 53, 49]) 4 2 p) ∧
    (((Tools.FindDifferencesOfLen (ofList [49, 50, 52, 49]) (ofList [49, 51, 53, 49]) 4 0 2).1.1.isSome ∧
        (Tools.FindDifferencesOfLen (ofList [49, 50, 52, 49]) (ofList [49, 51, 53, 49]) 4 0 2).1.2.isSome) →
      ∃ p, (Tools.FindDifferencesOfLen (ofList [49, 50, 52, 49]) (ofList [49, 51, 53, 49]) 4 0 2).2 = p + 2 ∧
        IsMaxRun (ofList [49, 50, 52, 49]) (ofList [49, 51, 53, 49]) 4 2 p ∧
        (∀ q, IsMaxRun (ofList [49, 50, 52, 49]) (ofList [49, 51, 53, 49]) 4 2 q → p ≤ q) ∧
        (∀ q L, 2 < L → IsMaxRun (ofList [49, 50, 52, 49]) (ofList [49, 51, 53, 49]) 4 L q →
          ¬ (q ≤ p ∧ p < q + L)))) :=
  ⟨⟨by decide, by decide⟩,
    C1_match_iff_exact_run (ofList [49, 50, 52, 49]) (ofList [49, 51, 53, 49]) 4 2 0
      (by decide) (by decide)⟩

/-- C2: whenever `FindDifferencesOfLen` returns a match for target `t`, the final
`done` is the index just past the matched run (the index of the terminating equal
byte, or the buffer length), the run `[done - t, done)` is a maximal run of differing
positions, and the two returned arrays are exactly the old and the new buffer at
`[done - t, done)`, whatever an earlier longer run left in the candidate arrays.  In
particular, with the target equal to the buffer length over fully differing buffers the
match is the entire buffers. -/
theorem C2_match_content (o n : Ptr) (N t done : Nat) :
    (∀ (a b : List Byte) (d : Nat),
      Tools.FindDifferencesOfLen o n N done t = ((some a, some b), d) →
        t ≤ d ∧ d ≤ N ∧ (d = N ∨ ¬ Differs o n d) ∧ IsMaxRun o n N t (d - t) ∧
        a = slice o (d - t) t ∧ b = slice n (d - t) t) ∧
    (0 < N → (∀ i, i < N → Differs o n i) →
      Tools.FindDifferencesOfLen o n N done N = ((some (slice o 0 N), some (slice n 0 N)), N)) := by
  constructor
  · intro a b d h
    have hg : ¬ (N = 0 ∨ t = 0 ∨ N < t) := by
      intro hg
      unfold Tools.FindDifferencesOfLen at h
      simp [hg] at h
    have hspec := FindDifferencesOfLen_spec o n N t done (by omega) (by omega)
    rw [h] at hspec
    rcases hspec with ⟨p, hp, _, hout⟩ | ⟨_, hout⟩
    · simp only [Prod.mk.injEq, Option.some.injEq] at hout
      obtain ⟨⟨ha, hb⟩, hd⟩ := hout
      subst hd
      rw [Nat.add_sub_cancel]
      exact ⟨by omega, hp.1, hp.2.2.2, hp, ha, hb⟩
    · simp at hout
  · intro hN hall
    have hrun : IsMaxRun o n N N 0 :=
      ⟨by omega, fun i hi => by rw [Nat.zero_add]; exact hall i hi, Or.inl rfl,
        Or.inl (by omega)⟩
    rcases FindDifferencesOfLen_spec o n N N done hN (Nat.le_refl N) with
      ⟨p, hp, _, hout⟩ | ⟨hno, _⟩
    · have hp0 : p = 0 := by have := hp.1; omega
      subst hp0
      rw [hout, Nat.zero_add]
    · exact absurd hrun (hno 0)

/-- C2 at buffers in which a run of three differing bytes precedes the run of two (the
arrays returned are the bytes of the second run only), and at the fully differing
buffers "abcdefg" / "hijklmn" with target 7. -/
theorem C2_match_content_witness :
    (Tools.FindDifferencesOfLen (ofList [1, 2, 3, 4, 1, 5, 6, 1]) (ofList [1, 9, 9, 9, 1, 8, 8, 1]) 8 0 2
      = ((some [5, 6], some [8, 8]), 7) ∧
    (2 ≤ 7 ∧ 7 ≤ 8 ∧
      (7 = 8 ∨ ¬ Differs (ofList [1, 2, 3, 4, 1, 5, 6, 1]) (ofList [1, 9, 9, 9, 1, 8, 8, 1]) 7) ∧
      IsMaxRun (ofList [1, 2, 3, 4, 1, 5, 6, 1]) (ofList [1, 9, 9, 9, 1, 8, 8, 1]) 8 2 (7 - 2) ∧
      [5, 6] = slice (ofList [1, 2, 3, 4, 1, 5, 6, 1]) (7 - 2) 2 ∧
      [8, 8] = slice (ofList [1, 9, 9, 9, 1, 8, 8, 1]) (7 - 2) 2)) ∧
    Tools.FindDifferencesOfLen (ofList [97, 98, 99, 100, 101, 102, 103])
        (ofList [104, 105, 106, 107, 108, 109, 110]) 7 0 7
      = ((some (slice (ofList [97, 98, 99, 100, 101, 102, 103]) 0 7),
          some (slice (ofList [104, 105, 106, 107, 108, 109, 110]) 0 7)), 7) :=
  ⟨⟨by decide,
    (C2_match_content (ofList [1, 2, 3, 4, 1, 5, 6, 1]) (ofList [1, 9, 9, 9, 1, 8, 8, 1]) 8 2 0).1
      [5, 6] [8, 8] 7 (by decide)⟩,
    (C2_match_content (ofList [97, 98, 99, 100, 101, 102, 103])
      (ofList [104, 105, 106, 107, 108, 109, 110]) 7 7 0).2 (by decide) (by decide)⟩

/-- C3: for buffers of length `N` and a target `0 < t ≤ N`, if `FindDifferencesOfLen`
reports no match (one of the two arrays is null) then both arrays are null and the
final `done` equals `N`. -/
theorem C3_no_match_scans_all (o n : Ptr) (N t done : Nat) (ht : 0 < t) (htN : t ≤ N)
    (h : ¬ ((Tools.FindDifferencesOfLen o n N done t).1.1.isSome ∧
        (Tools.FindDifferencesOfLen o n N done t).1.2.isSome)) :
    (Tools.FindDifferencesOfLen o n N done t).1 = (none, none) ∧
    (Tools.FindDifferencesOfLen o n N done t).2 = N := by
  rcases FindDifferencesOfLen_spec o n N t done ht htN with ⟨p, _, _, hout⟩ | ⟨_, hout⟩
  · rw [hout] at h
    simp at h
  · rw [hout]
    exact ⟨rfl, rfl⟩

/-- C3 at the buffers "abcdefg" / "hijklmn" with target 6 and a caller's `done` of 3. -/
theorem C3_no_match_scans_all_witness :
    (0 < 6 ∧ 6 ≤ 7) ∧
    (Tools.FindDifferencesOfLen (ofList [97, 98, 99, 100, 101, 102, 103])
        (ofList [104, 105, 106, 107, 108, 109, 110]) 7 3 6).1 = (none, none) ∧
    (Tools.FindDifferencesOfLen (ofList [97, 98, 99, 100, 101, 102, 103])
        (ofList [104, 105, 106, 107, 108, 109, 110]) 7 3 6).2 = 7 :=
  ⟨⟨by decide, by decide⟩,
    C3_no_match_scans_all (ofList [97, 98, 99, 100, 101, 102, 103])
      (ofList [104, 105, 106, 107, 108, 109, 110]) 7 6 3 (by decide) (by decide) (by decide)⟩

/-- C4: if the target length is 0, or the buffer length is 0, or the buffer length is
smaller than the target length, `FindDifferencesOfLen` returns two null arrays and the
caller's `done` unchanged, and this result is the same for all buffer contents (the
buffers are not read). -/
theorem C4_guard_leaves_done (o n o2 n2 : Ptr) (N t done : Nat)
    (h : t = 0 ∨ N = 0 ∨ N < t) :
    Tools.FindDifferencesOfLen o n N done t = ((none, none), done) ∧
    Tools.FindDifferencesOfLen o n N done t = Tools.FindDifferencesOfLen o2 n2 N done t := by
  have hg : N = 0 ∨ t = 0 ∨ N < t := by omega
  unfold Tools.FindDifferencesOfLen
  simp [hg]

/-- C4 at buffer length 1, target 2 and a caller's `done` of 5. -/
theorem C4_guard_leaves_done_witness :
    (2 = 0 ∨ 1 = 0 ∨ 1 < 2) ∧
    (Tools.FindDifferencesOfLen (ofList [7]) (ofList [8]) 1 5 2 = ((none, none), 5) ∧
      Tools.FindDifferencesOfLen (ofList [7]) (ofList [8]) 1 5 2
        = Tools.FindDifferencesOfLen (ofList []) (ofList []) 1 5 2) :=
  ⟨by decide, C4_guard_leaves_done (ofList [7]) (ofList [8]) (ofList []) (ofList []) 1 2 5
    (by decide)⟩

/-! ### Repeated calls over the suffixes -/

theorem slice_ptrAdd (p : Ptr) (k s t : Nat) : slice (ptrAdd p k) s t = slice p (k + s) t := by
  simp [slice, ptrAdd, Nat.add_assoc]

theorem Differs_ptrAdd (o n : Ptr) (k i : Nat) :
    Differs (ptrAdd o k) (ptrAdd n k) i ↔ Differs o n (k + i) := by
  simp [Differs, ptrAdd]

/-- Maximal runs of a suffix are the maximal runs of the whole buffers that start in
it, provided the suffix starts at the beginning, at an equal position or at the end. -/
theorem IsMaxRun_suffix (o n : Ptr) (N t off p : Nat) (ht : 0 < t) (hoff : off ≤ N)
    (hB : off = 0 ∨ ¬ Differs o n off ∨ N ≤ off) :
    IsMaxRun (ptrAdd o off) (ptrAdd n off) (N - off) t p ↔ IsMaxRun o n N t (off + p) := by
  unfold IsMaxRun
  simp only [Differs_ptrAdd]
  constructor
  · rintro ⟨h1, h2, h3, h4⟩
    refine ⟨by omega, fun i hi => by rw [Nat.add_assoc]; exact h2 i hi, ?_, ?_⟩
    · by_cases hp : p = 0
      · subst hp
        rcases hB with hB | hB | hB
        · left; omega
        · have := h2 0 ht
          rw [Nat.add_zero] at this
          exact absurd this hB
        · omega
      · right
        rcases h3 with h3 | h3
        · exact absurd h3 hp
        · rwa [show off + p - 1 = off + (p - 1) by omega]
    · rcases h4 with h4 | h4
      · left; omega
      · right; rwa [Nat.add_assoc]
  · rintro ⟨h1, h2, h3, h4⟩
    refine ⟨by omega, fun i hi => by rw [← Nat.add_assoc]; exact h2 i hi, ?_, ?_⟩
    · by_cases hp : p = 0
      · left; exact hp
      · right
        rcases h3 with h3 | h3
        · omega
        · rwa [show off + p - 1 = off + (p - 1) by omega] at h3
    · rcases h4 with h4 | h4
      · left; omega
      · right; rwa [Nat.add_assoc] at h4

/-- What the repeated calls report from offset `off` on. -/
theorem findAllRuns_spec (o n : Ptr) (N t : Nat) (ht : 0 < t) :
    ∀ (fuel off done : Nat), N - off < fuel → off ≤ N →
      (off = 0 ∨ ¬ Differs o n off ∨ N ≤ off) →
      (∀ p, p ∈ (findAllRuns o n N t fuel off done).map Prod.fst ↔
        (off ≤ p ∧ IsMaxRun o n N t p)) ∧
      ((findAllRuns o n N t fuel off done).map Prod.fst).Pairwise (fun a b => a < b) ∧
      (∀ x, x ∈ findAllRuns o n N t fuel off done →
        x.2.1 = slice o x.1 t ∧ x.2.2 = slice n x.1 t) := by
  intro fuel
  induction fuel with
  | zero => intro off done h; omega
  | succ fuel ih =>
    intro off done hfuel hoff hB
    unfold findAllRuns
    by_cases hrem : N - off < t
    · simp only [hrem, if_true, List.map_nil, List.not_mem_nil, false_iff, List.Pairwise.nil,
        true_and, not_and, false_imp_iff, implies_true, and_true]
      intro p hp hrun
      have := hrun.1
      omega
    · simp only [hrem, if_false]
      rcases FindDifferencesOfLen_spec (ptrAdd o off) (ptrAdd n off) (N - off) t done ht
        (by omega) with ⟨q, hq, hmin, hout⟩ | ⟨hno, hout⟩
      · rw [hout]
        simp only
        have hqabs := (IsMaxRun_suffix o n N t off q ht hoff hB).mp hq
        have hB2 : off + (q + t) = 0 ∨ ¬ Differs o n (off + (q + t)) ∨ N ≤ off + (q + t) := by
          rcases hq.2.2.2 with h | h
          · right; right; omega
          · right; left; exact (Differs_ptrAdd o n off (q + t)).not.mp h
        have hle : off + (q + t) ≤ N := by have := hq.1; omega
        obtain ⟨ih1, ih2, ih3⟩ := ih (off + (q + t)) (q + t) (by omega) hle hB2
        rw [show off + (q + t) - t = off + q by omega]
        refine ⟨fun p => ?_, ?_, ?_⟩
        · simp only [List.map_cons, List.mem_cons]
          constructor
          · rintro (h | h)
            · subst h; exact ⟨by omega, hqabs⟩
            · have := (ih1 p).mp h
              exact ⟨by omega, this.2⟩
          · rintro ⟨h1, h2⟩
            have hrel : IsMaxRun (ptrAdd o off) (ptrAdd n off) (N - off) t (p - off) := by
              rw [IsMaxRun_suffix o n N t off (p - off) ht hoff hB,
                show off + (p - off) = p by omega]
              exact h2
            have hge : q ≤ p - off := by
              by_contra hlt
              exact hmin (p - off) (by omega) hrel
            by_cases heq : p = off + q
            · left; exact heq
            · right
              refine (ih1 p).mpr ⟨?_, h2⟩
              by_contra hlt
              -- p lies strictly inside the reported run, so position p - 1 differs
              have hd := hqabs.2.1 (p - 1 - (off + q)) (by omega)
              rw [show off + q + (p - 1 - (off + q)) = p - 1 by omega] at hd
              rcases h2.2.2.1 with h3 | h3
              · omega
              · exact h3 hd
        · simp only [List.map_cons, List.pairwise_cons]
          refine ⟨fun p hp => ?_, ih2⟩
          have := (ih1 p).mp hp
          omega
        · intro x hx
          simp only [List.mem_cons] at hx
          rcases hx with hx | hx
          · subst hx
            simp only [slice_ptrAdd, and_self]
          · exact ih3 x hx
      · rw [hout]
        simp only [List.map_nil, List.not_mem_nil, false_iff, List.Pairwise.nil,
          true_and, not_and, false_imp_iff, implies_true, and_true]
        intro p hp hrun
        apply hno (p - off)
        rw [IsMaxRun_suffix o n N t off (p - off) ht hoff hB, show off + (p - off) = p by omega]
        exact hrun

/-- Two strictly ascending lists of numbers with the same members are equal. -/
theorem eq_of_ascending_of_mem_iff (l1 l2 : List Nat)
    (h1 : l1.Pairwise (fun a b => a < b)) (h2 : l2.Pairwise (fun a b => a < b))
    (h : ∀ p, p ∈ l1 ↔ p ∈ l2) : l1 = l2 := by
  have n1 : l1.Nodup := h1.imp (fun hab => Nat.ne_of_lt hab)
  have n2 : l2.Nodup := h2.imp (fun hab => Nat.ne_of_lt hab)
  have hperm : l1.Perm l2 := (List.perm_ext_iff_of_nodup n1 n2).mpr h
  exact List.eq_of_perm_of_sorted hperm h1 h2

/-- C5: for buffers of length `N` and every target `t > 0`, calling
`FindDifferencesOfLen` repeatedly on the suffixes that start at the accumulated `done`
offset (stopping when the remainder is shorter than `t` or a call reports no match)
reports exactly the maximal differing runs of length `t` of the whole buffers: the
reported positions are the positions `p < N` with `IsMaxRun o n N t p`, each once and in
ascending order, and each report carries the old and new bytes of its run. -/
theorem C5_repeated_calls_find_all (o n : Ptr) (N t fuel done : Nat) (ht : 0 < t)
    (hfuel : N < fuel) :
    (findAllRuns o n N t fuel 0 done).map Prod.fst
      = (List.range N).filter (fun p => decide (IsMaxRun o n N t p)) ∧
    (∀ x, x ∈ findAllRuns o n N t fuel 0 done →
      x.2.1 = slice o x.1 t ∧ x.2.2 = slice n x.1 t) := by
  obtain ⟨h1, h2, h3⟩ := findAllRuns_spec o n N t ht fuel 0 done (by omega) (Nat.zero_le N)
    (Or.inl rfl)
  refine ⟨eq_of_ascending_of_mem_iff _ _ h2 ?_ (fun p => ?_), h3⟩
  · exact List.Pairwise.filter _ (List.pairwise_lt_range N)
  · rw [h1 p, List.mem_filter, List.mem_range, decide_eq_true_iff]
    constructor
    · rintro ⟨_, hr⟩
      have := hr.1
      exact ⟨by omega, hr⟩
    · rintro ⟨_, hr⟩
      exact ⟨Nat.zero_le p, hr⟩

/-- C5 at the buffers "1abc2def3" / "1fed2cba3" with target 3. -/
theorem C5_repeated_calls_find_all_witness :
    (0 < 3 ∧ 9 < 10) ∧
    (findAllRuns (ofList [49, 97, 98, 99, 50, 100, 101, 102, 51])
        (ofList [49, 102, 101, 100, 50, 99, 98, 97, 51]) 9 3 10 0 0
      = [(1, [97, 98, 99], [102, 101, 100]), (5, [100, 101, 102], [99, 98, 97])]) ∧
    ((findAllRuns (ofList [49, 97, 98, 99, 50, 100, 101, 102, 51])
        (ofList [49, 102, 101, 100, 50, 99, 98, 97, 51]) 9 3 10 0 0).map Prod.fst
      = (List.range 9).filter (fun p => decide (IsMaxRun
          (ofList [49, 97, 98, 99, 50, 100, 101, 102, 51])
          (ofList [49, 102, 101, 100, 50, 99, 98, 97, 51]) 9 3 p)) ∧
    (∀ x, x ∈ findAllRuns (ofList [49, 97, 98, 99, 50, 100, 101, 102, 51])
        (ofList [49, 102, 101, 100, 50, 99, 98, 97, 51]) 9 3 10 0 0 →
      x.2.1 = slice (ofList [49, 97, 98, 99, 50, 100, 101, 102, 51]) x.1 3 ∧
      x.2.2 = slice (ofList [49, 102, 101, 100, 50, 99, 98, 97, 51]) x.1 3)) :=
  ⟨⟨by decide, by decide⟩, by decide,
    C5_repeated_calls_find_all (ofList [49, 97, 98, 99, 50, 100, 101, 102, 51])
      (ofList [49, 102, 101, 100, 50, 99, 98, 97, 51]) 9 3 10 0 (by decide) (by decide)⟩

/-! ## MemoryAccessor: basic facts -/

theorem sub64_eq (a b : Nat) (hb : b ≤ a) (ha : a < SIZE) : sub64 a b = a - b := by
  unfold sub64
  simp only [SIZE] at *
  omega

theorem sub64_wrap (a b : Nat) (hb : a < b) (hb2 : b < SIZE) : sub64 a b = a + SIZE - b := by
  unfold sub64
  simp only [SIZE] at *
  omega

theorem add64_eq (a b : Nat) (h : a + b < SIZE) : add64 a b = a + b := by
  unfold add64
  exact Nat.mod_eq_of_lt h

theorem blit_inside (buf : Ptr) (dst : Nat) (src : Ptr) (amount i : Nat) (h : i < amount) :
    blit buf dst src amount (dst + i) = src i := by
  unfold blit
  have h1 : dst ≤ dst + i ∧ dst + i < dst + amount := ⟨by omega, by omega⟩
  simp only [h1, and_self, if_true, Nat.add_sub_cancel_left]

theorem blit_outside (buf : Ptr) (dst : Nat) (src : Ptr) (amount j : Nat)
    (h : j < dst ∨ dst + amount ≤ j) : blit buf dst src amount j = buf j := by
  unfold blit
  have h1 : ¬ (dst ≤ j ∧ j < dst + amount) := by omega
  simp only [h1, if_false]

namespace MemoryAccessor

theorem CheckPid_ok (m : MemoryAccessor) (hpid : m.pid_set_ = true) : CheckPid m = .ok () := by
  simp [CheckPid, hpid]

theorem CheckPid_unset (m : MemoryAccessor) (hpid : m.pid_set_ = false) :
    CheckPid m = .error Ex.PidNotSetEx := by
  simp [CheckPid, hpid]

/-- With a PID set and an image that can be opened, `CheckMem` succeeds and touches
only the stream. -/
theorem CheckMem_ok (m : MemoryAccessor) (img : MemImage) (hpid : m.pid_set_ = true)
    (hopen : img.openable = true) :
    ∃ m1, CheckMem m img = (.ok (), m1) ∧ m1.pid_set_ = true ∧
      m1.segment_infos_ = m.segment_infos_ := by
  unfold CheckMem
  split
  · refine ⟨{ m with mem_is_open := true, mem_good := true, mem_pos := 0 }, ?_, hpid, rfl⟩
    simp [OpenMem, CheckPid, hpid, hopen]
  · exact ⟨m, rfl, hpid, rfl⟩

theorem CheckSegBoundaries_congr (m m1 : MemoryAccessor) (h1 : m1.pid_set_ = m.pid_set_)
    (h2 : m1.segment_infos_ = m.segment_infos_) (num start amount : Nat) :
    CheckSegBoundaries m1 num start amount = CheckSegBoundaries m num start amount := by
  simp [CheckSegBoundaries, CheckSegNum, CheckPid, h1, h2]

theorem CheckSegBoundaries_no_segment (m : MemoryAccessor) (num start amount : Nat)
    (hpid : m.pid_set_ = true) (hnum : m.segment_infos_.length ≤ num) :
    CheckSegBoundaries m num start amount = .error Ex.SegmentNotExistEx := by
  simp [CheckSegBoundaries, CheckSegNum, CheckPid, hpid, hnum]

theorem CheckSegBoundaries_segment (m : MemoryAccessor) (num start amount : Nat)
    (seg : SegmentInfo) (hpid : m.pid_set_ = true) (hseg : m.segment_infos_[num]? = some seg) :
    CheckSegBoundaries m num start amount =
      if start ≥ sub64 seg.end_ seg.start then .error Ex.AddressNotInSegmentEx
      else if amount > sub64 seg.end_ seg.start ∨ add64 start amount > sub64 seg.end_ seg.start
        then .ok (sub64 (sub64 seg.end_ seg.start) start)
      else .ok amount := by
  have hlt : num < m.segment_infos_.length := by
    by_contra h
    rw [List.getElem?_eq_none (by omega)] at hseg
    cases hseg
  have hnot : ¬ (m.segment_infos_.length ≤ num) := by omega
  simp [CheckSegBoundaries, CheckSegNum, CheckPid, hpid, hseg, hnot]

/-- The clamp of `CheckSegBoundaries` is exact whenever `start + amount` does not
wrap around or `amount` exceeds the segment length. -/
theorem CheckSegBoundaries_clamp (m : MemoryAccessor) (num start amount : Nat)
    (seg : SegmentInfo) (hpid : m.pid_set_ = true) (hseg : m.segment_infos_[num]? = some seg)
    (hse : seg.start ≤ seg.end_) (he : seg.end_ < SIZE)
    (hstart : start < seg.end_ - seg.start)
    (hnowrap : seg.end_ - seg.start < amount ∨ start + amount < SIZE) :
    CheckSegBoundaries m num start amount
      = .ok (min amount (seg.end_ - seg.start - start)) := by
  rw [CheckSegBoundaries_segment m num start amount seg hpid hseg, sub64_eq _ _ hse he]
  have h1 : ¬ (start ≥ seg.end_ - seg.start) := by omega
  simp only [h1, if_false]
  by_cases h2 : amount > seg.end_ - seg.start
  · simp only [h2, true_or, if_true]
    rw [sub64_eq _ _ (by omega) (by omega)]
    congr 1
    omega
  · have h3 : start + amount < SIZE := by omega
    rw [add64_eq _ _ h3]
    by_cases h4 : start + amount > seg.end_ - seg.start
    · simp only [h4, or_true, if_true]
      rw [sub64_eq _ _ (by omega) (by omega)]
      congr 1
      omega
    · simp only [h2, h4, or_self, if_false]
      congr 1
      omega

theorem PrepareMemSegment_unset (m : MemoryAccessor) (img : MemImage) (num start amount : Nat)
    (hpid : m.pid_set_ = false) :
    PrepareMemSegment m img num start amount = (.error Ex.PidNotSetEx, m) := by
  simp [PrepareMemSegment, CheckPid, hpid]

theorem PrepareMemSegment_error (m : MemoryAccessor) (img : MemImage) (num start amount : Nat)
    (e : Ex) (hpid : m.pid_set_ = true) (hopen : img.openable = true)
    (hb : CheckSegBoundaries m num start amount = .error e) :
    ∃ m1, PrepareMemSegment m img num start amount = (.error e, m1) ∧ m1.pid_set_ = true ∧
      m1.segment_infos_ = m.segment_infos_ := by
  obtain ⟨m1, hm1, hp1, hs1⟩ := CheckMem_ok m img hpid hopen
  refine ⟨m1, ?_, hp1, hs1⟩
  have hb1 := CheckSegBoundaries_congr m m1 (by rw [hp1, hpid]) hs1 num start amount
  rw [hb] at hb1
  simp [PrepareMemSegment, CheckPid, hpid, hm1, hb1]

theorem PrepareMemSegment_ok (m : MemoryAccessor) (img : MemImage) (num start amount a : Nat)
    (seg : SegmentInfo) (hpid : m.pid_set_ = true) (hopen : img.openable = true)
    (hseg : m.segment_infos_[num]? = some seg)
    (hb : CheckSegBoundaries m num start amount = .ok a) :
    ∃ m1, PrepareMemSegment m img num start amount = (.ok a, m1) ∧ m1.pid_set_ = true ∧
      m1.segment_infos_ = m.segment_infos_ ∧ m1.mem_pos = add64 seg.start start := by
  obtain ⟨m1, hm1, hp1, hs1⟩ := CheckMem_ok m img hpid hopen
  refine ⟨{ m1 with mem_pos := add64 seg.start start }, ?_, hp1, hs1, rfl⟩
  have hb1 := CheckSegBoundaries_congr m m1 (by rw [hp1, hpid]) hs1 num start amount
  rw [hb] at hb1
  have hseg1 : m1.segment_infos_[num]? = some seg := by rw [hs1]; exact hseg
  simp [PrepareMemSegment, CheckPid, hpid, hm1, hb1, hseg1]

theorem ReadSegment_unset (m : MemoryAccessor) (img : MemImage) (buf : Ptr)
    (dst num start amount : Nat) (hpid : m.pid_set_ = false) :
    ReadSegment m img buf dst num start amount = (.error Ex.PidNotSetEx, buf, m) := by
  simp [ReadSegment, PrepareMemSegment_unset m img num start amount hpid]

theorem WriteSegment_unset (m : MemoryAccessor) (img : MemImage) (src : Ptr)
    (num start amount : Nat) (hpid : m.pid_set_ = false) :
    WriteSegment m img src num start amount = (.error Ex.PidNotSetEx, img, m) := by
  simp [WriteSegment, PrepareMemSegment_unset m img num start amount hpid]

/-- A failure of the boundary check is the failure of `ReadSegment`, and nothing is
copied. -/
theorem ReadSegment_error (m : MemoryAccessor) (img : MemImage) (buf : Ptr)
    (dst num start amount : Nat) (e : Ex) (hpid : m.pid_set_ = true)
    (hopen : img.openable = true) (hb : CheckSegBoundaries m num start amount = .error e) :
    ∃ m1, ReadSegment m img buf dst num start amount = (.error e, buf, m1) ∧
      m1.pid_set_ = true ∧ m1.segment_infos_ = m.segment_infos_ := by
  obtain ⟨m1, hm1, hp1, hs1⟩ := PrepareMemSegment_error m img num start amount e hpid hopen hb
  exact ⟨m1, by simp [ReadSegment, hm1], hp1, hs1⟩

theorem WriteSegment_error (m : MemoryAccessor) (img : MemImage) (src : Ptr)
    (num start amount : Nat) (e : Ex) (hpid : m.pid_set_ = true)
    (hopen : img.openable = true) (hb : CheckSegBoundaries m num start amount = .error e) :
    ∃ m1, WriteSegment m img src num start amount = (.error e, img, m1) ∧
      m1.pid_set_ = true ∧ m1.segment_infos_ = m.segment_infos_ := by
  obtain ⟨m1, hm1, hp1, hs1⟩ := PrepareMemSegment_error m img num start amount e hpid hopen hb
  exact ⟨m1, by simp [WriteSegment, hm1], hp1, hs1⟩

/-- Once the boundary check passes with `a` bytes, `ReadSegment` either copies exactly
the `a` bytes at the sought position or is refused by the kernel. -/
theorem ReadSegment_checked (m : MemoryAccessor) (img : MemImage) (buf : Ptr)
    (dst num start amount a : Nat) (seg : SegmentInfo) (hpid : m.pid_set_ = true)
    (hopen : img.openable = true) (hseg : m.segment_infos_[num]? = some seg)
    (hb : CheckSegBoundaries m num start amount = .ok a) :
    ∃ m1 m2, m1.pid_set_ = true ∧ m1.segment_infos_ = m.segment_infos_ ∧
      m2.pid_set_ = true ∧ m2.segment_infos_ = m.segment_infos_ ∧
      ReadSegment m img buf dst num start amount =
        if ∀ i, i < a → img.readable (add64 seg.start start + i) = true then
          (.ok a, blit buf dst (ptrAdd img.bytes (add64 seg.start start)) a, m1)
        else (.error Ex.SegmentAccessDeniedEx, buf, m2) := by
  obtain ⟨m1, hm1, hp1, hs1, hpos⟩ :=
    PrepareMemSegment_ok m img num start amount a seg hpid hopen hseg hb
  refine ⟨{ m1 with mem_pos := m1.mem_pos + a }, { m1 with mem_good := false },
    hp1, hs1, hp1, hs1, ?_⟩
  simp only [ReadSegment, hm1, hpos]

theorem WriteSegment_checked (m : MemoryAccessor) (img : MemImage) (src : Ptr)
    (num start amount a : Nat) (seg : SegmentInfo) (hpid : m.pid_set_ = true)
    (hopen : img.openable = true) (hseg : m.segment_infos_[num]? = some seg)
    (hb : CheckSegBoundaries m num start amount = .ok a) :
    ∃ m1 m2, m1.pid_set_ = true ∧ m1.segment_infos_ = m.segment_infos_ ∧
      m2.pid_set_ = true ∧ m2.segment_infos_ = m.segment_infos_ ∧
      WriteSegment m img src num start amount =
        if ∀ i, i < a → img.writable (add64 seg.start start + i) = true then
          (.ok a, { img with bytes := blit img.bytes (add64 seg.start start) src a }, m1)
        else (.error Ex.SegmentAccessDeniedEx, img, m2) := by
  obtain ⟨m1, hm1, hp1, hs1, hpos⟩ :=
    PrepareMemSegment_ok m img num start amount a seg hpid hopen hseg hb
  refine ⟨{ m1 with mem_pos := 0 }, { m1 with mem_good := false, mem_pos := 0 },
    hp1, hs1, hp1, hs1, ?_⟩
  simp only [WriteSegment, hm1, hpos]

/-- The three ways `CheckSegBoundaries` can end when a PID is set. -/
theorem CheckSegBoundaries_cases (m : MemoryAccessor) (num start amount : Nat)
    (hpid : m.pid_set_ = true) :
    (m.segment_infos_.length ≤ num ∧
      CheckSegBoundaries m num start amount = .error Ex.SegmentNotExistEx) ∨
    (∃ seg, m.segment_infos_[num]? = some seg ∧ sub64 seg.end_ seg.start ≤ start ∧
      CheckSegBoundaries m num start amount = .error Ex.AddressNotInSegmentEx) ∨
    (∃ seg a, m.segment_infos_[num]? = some seg ∧ start < sub64 seg.end_ seg.start ∧
      CheckSegBoundaries m num start amount = .ok a) := by
  by_cases hnum : m.segment_infos_.length ≤ num
  · exact Or.inl ⟨hnum, CheckSegBoundaries_no_segment m num start amount hpid hnum⟩
  · right
    have hlt : num < m.segment_infos_.length := by omega
    have hseg : m.segment_infos_[num]? = some m.segment_infos_[num] :=
      List.getElem?_eq_getElem hlt
    have hb := CheckSegBoundaries_segment m num start amount _ hpid hseg
    by_cases hs : sub64 m.segment_infos_[num].end_ m.segment_infos_[num].start ≤ start
    · left
      refine ⟨_, hseg, hs, ?_⟩
      rw [hb]
      simp [hs]
    · right
      have hs2 : ¬ (start ≥ sub64 m.segment_infos_[num].end_ m.segment_infos_[num].start) := hs
      simp only [hs2, if_false] at hb
      split at hb
      · exact ⟨_, _, hseg, by omega, hb⟩
      · exact ⟨_, _, hseg, by omega, hb⟩

/-- The ways `ReadSegment` can end when a PID is set and the image can be opened. -/
theorem ReadSegment_cases (m : MemoryAccessor) (img : MemImage) (buf : Ptr)
    (dst num start amount : Nat) (hpid : m.pid_set_ = true) (hopen : img.openable = true) :
    (ReadSegment m img buf dst num start amount).2.2.segment_infos_ = m.segment_infos_ ∧
    ((m.segment_infos_.length ≤ num ∧
        (ReadSegment m img buf dst num start amount).1 = .error Ex.SegmentNotExistEx ∧
        (ReadSegment m img buf dst num start amount).2.1 = buf) ∨
      (∃ seg, m.segment_infos_[num]? = some seg ∧ sub64 seg.end_ seg.start ≤ start ∧
        (ReadSegment m img buf dst num start amount).1 = .error Ex.AddressNotInSegmentEx ∧
        (ReadSegment m img buf dst num start amount).2.1 = buf) ∨
      (∃ seg, m.segment_infos_[num]? = some seg ∧ start < sub64 seg.end_ seg.start ∧
        ((ReadSegment m img buf dst num start amount).1 = .error Ex.SegmentAccessDeniedEx ∨
          ∃ a, (ReadSegment m img buf dst num start amount).1 = .ok a))) := by
  rcases CheckSegBoundaries_cases m num start amount hpid with
    ⟨h1, hb⟩ | ⟨seg, hseg, h1, hb⟩ | ⟨seg, a, hseg, h1, hb⟩
  · obtain ⟨m1, hr, _, hs1⟩ := ReadSegment_error m img buf dst num start amount _ hpid hopen hb
    rw [hr]
    exact ⟨hs1, Or.inl ⟨h1, rfl, rfl⟩⟩
  · obtain ⟨m1, hr, _, hs1⟩ := ReadSegment_error m img buf dst num start amount _ hpid hopen hb
    rw [hr]
    exact ⟨hs1, Or.inr (Or.inl ⟨seg, hseg, h1, rfl, rfl⟩)⟩
  · obtain ⟨m1, m2, _, hs1, _, hs2, hr⟩ :=
      ReadSegment_checked m img buf dst num start amount a seg hpid hopen hseg hb
    rw [hr]
    split
    · exact ⟨hs1, Or.inr (Or.inr ⟨seg, hseg, h1, Or.inr ⟨a, rfl⟩⟩)⟩
    · exact ⟨hs2, Or.inr (Or.inr ⟨seg, hseg, h1, Or.inl rfl⟩)⟩

/-- The ways `WriteSegment` can end when a PID is set and the image can be opened. -/
theorem WriteSegment_cases (m : MemoryAccessor) (img : MemImage) (src : Ptr)
    (num start amount : Nat) (hpid : m.pid_set_ = true) (hopen : img.openable = true) :
    (WriteSegment m img src num start amount).2.2.segment_infos_ = m.segment_infos_ ∧
    ((m.segment_infos_.length ≤ num ∧
        (WriteSegment m img src num start amount).1 = .error Ex.SegmentNotExistEx ∧
        (WriteSegment m img src num start amount).2.1 = img) ∨
      (∃ seg, m.segment_infos_[num]? = some seg ∧ sub64 seg.end_ seg.start ≤ start ∧
        (WriteSegment m img src num start amount).1 = .error Ex.AddressNotInSegmentEx ∧
        (WriteSegment m img src num start amount).2.1 = img) ∨
      (∃ seg, m.segment_infos_[num]? = some seg ∧ start < sub64 seg.end_ seg.start ∧
        ((WriteSegment m img src num start amount).1 = .error Ex.SegmentAccessDeniedEx ∨
          ∃ a, (WriteSegment m img src num start amount).1 = .ok a))) := by
  rcases CheckSegBoundaries_cases m num start amount hpid with
    ⟨h1, hb⟩ | ⟨seg, hseg, h1, hb⟩ | ⟨seg, a, hseg, h1, hb⟩
  · obtain ⟨m1, hr, _, hs1⟩ := WriteSegment_error m img src num start amount _ hpid hopen hb
    rw [hr]
    exact ⟨hs1, Or.inl ⟨h1, rfl, rfl⟩⟩
  · obtain ⟨m1, hr, _, hs1⟩ := WriteSegment_error m img src num start amount _ hpid hopen hb
    rw [hr]
    exact ⟨hs1, Or.inr (Or.inl ⟨seg, hseg, h1, rfl, rfl⟩)⟩
  · obtain ⟨m1, m2, _, hs1, _, hs2, hr⟩ :=
      WriteSegment_checked m img src num start amount a seg hpid hopen hseg hb
    rw [hr]
    split
    · exact ⟨hs1, Or.inr (Or.inr ⟨seg, hseg, h1, Or.inr ⟨a, rfl⟩⟩)⟩
    · exact ⟨hs2, Or.inr (Or.inr ⟨seg, hseg, h1, Or.inl rfl⟩)⟩

/-! ### AddressInSegment -/

theorem AddressInSegment_loop_eq (address : Nat) :
    ∀ (segs : List SegmentInfo) (i k : Nat) (sk : SegmentInfo), segs[k]? = some sk →
      address < sk.end_ → (∀ j s, j < k → segs[j]? = some s → s.end_ ≤ address) →
      AddressInSegment.loop address segs i = .ok (i + k) := by
  intro segs
  induction segs with
  | nil => intro i k sk h; simp at h
  | cons s rest ih =>
    intro i k sk hk ha hbefore
    cases k with
    | zero =>
      simp only [List.getElem?_cons_zero, Option.some.injEq] at hk
      subst hk
      simp [AddressInSegment.loop, ha]
    | succ k =>
      have hs : s.end_ ≤ address := hbefore 0 s (by omega) (by simp)
      have hnot : ¬ (s.end_ > address) := by omega
      simp only [AddressInSegment.loop, hnot, if_false]
      rw [ih (i + 1) k sk (by simpa using hk) ha
        (fun j s2 hj hs2 => hbefore (j + 1) s2 (by omega) (by simpa using hs2))]
      congr 1
      omega

theorem AddressInSegment_loop_sound (address : Nat) :
    ∀ (segs : List SegmentInfo) (i r : Nat), AddressInSegment.loop address segs i = .ok r →
      ∃ k sk, r = i + k ∧ segs[k]? = some sk ∧ address < sk.end_ := by
  intro segs
  induction segs with
  | nil => intro i r h; simp [AddressInSegment.loop] at h
  | cons s rest ih =>
    intro i r h
    by_cases hs : s.end_ > address
    · simp only [AddressInSegment.loop, hs, if_true, Except.ok.injEq] at h
      exact ⟨0, s, by omega, by simp, hs⟩
    · simp only [AddressInSegment.loop, hs, if_false] at h
      obtain ⟨k, sk, hr, hk, ha⟩ := ih (i + 1) r h
      exact ⟨k + 1, sk, by omega, by simpa using hk, ha⟩

theorem AddressInSegment_loop_error (address : Nat) :
    ∀ (segs : List SegmentInfo) (i : Nat) (e : Ex),
      AddressInSegment.loop address segs i = .error e →
      e = Ex.AddressNotInSegmentEx ∧ ∀ s, s ∈ segs → s.end_ ≤ address := by
  intro segs
  induction segs with
  | nil =>
    intro i e h
    simp only [AddressInSegment.loop, Except.error.injEq] at h
    exact ⟨h.symm, fun s hs => by simp at hs⟩
  | cons s rest ih =>
    intro i e h
    by_cases hs : s.end_ > address
    · simp [AddressInSegment.loop, hs] at h
    · simp only [AddressInSegment.loop, hs, if_false] at h
      obtain ⟨he, hall⟩ := ih (i + 1) e h
      refine ⟨he, fun s2 hs2 => ?_⟩
      rcases List.mem_cons.mp hs2 with h2 | h2
      · subst h2; omega
      · exact hall s2 h2

/-- In a segment map that meets its invariants, the lookup of an address inside
segment `k` yields `k`. -/
theorem AddressInSegment_inside (m : MemoryAccessor) (a k : Nat) (sk : SegmentInfo)
    (hok : SegmentMapOk m.segment_infos_) (hk : m.segment_infos_[k]? = some sk)
    (h1 : sk.start ≤ a) (h2 : a < sk.end_) : AddressInSegment m a = .ok k := by
  unfold AddressInSegment
  rw [AddressInSegment_loop_eq a m.segment_infos_ 0 k sk hk h2, Nat.zero_add]
  intro j s hj hs
  obtain ⟨hjl, hjs⟩ := List.getElem?_eq_some_iff.mp hs
  obtain ⟨hkl, hks⟩ := List.getElem?_eq_some_iff.mp hk
  have := List.pairwise_iff_getElem.mp hok.2 j k hjl hkl hj
  rw [hjs, hks] at this
  omega

/-! ### Read and Write, step by step -/

theorem Read_start (m : MemoryAccessor) (img : MemImage) (buf : Ptr)
    (dst address amount done_amount k : Nat) (sk : SegmentInfo) (hpid : m.pid_set_ = true)
    (ha : AddressInSegment m address = .ok k) (hk : m.segment_infos_[k]? = some sk) :
    Read m img buf dst address amount done_amount =
      match ReadSegment m img buf dst k (sub64 address sk.start) amount with
      | (.error e, buf1, m1) => (.error e, buf1, 0, m1)
      | (.ok ret_size, buf1, m1) =>
        Read.loop img dst (m.segment_infos_.length - (k + 1)) m1 buf1 (k + 1)
          (sub64 amount ret_size) (add64 0 ret_size) := by
  simp only [Read, CheckPid_ok m hpid, ha, hk]

theorem Write_start (m : MemoryAccessor) (img : MemImage) (src : Ptr)
    (address amount done_amount k : Nat) (sk : SegmentInfo) (hpid : m.pid_set_ = true)
    (ha : AddressInSegment m address = .ok k) (hk : m.segment_infos_[k]? = some sk) :
    Write m img src address amount done_amount =
      match WriteSegment m img src k (sub64 address sk.start) amount with
      | (.error e, img1, m1) => (.error e, img1, 0, m1)
      | (.ok ret_size, img1, m1) =>
        Write.loop src (m.segment_infos_.length - (k + 1)) m1 img1 (k + 1)
          (sub64 amount ret_size) (add64 0 ret_size) := by
  simp only [Write, CheckPid_ok m hpid, ha, hk]

theorem Read_loop_done (img : MemImage) (dst fuel : Nat) (m : MemoryAccessor) (buf : Ptr)
    (cur done_amount : Nat) :
    Read.loop img dst fuel m buf cur 0 done_amount = (.ok (), buf, done_amount, m) := by
  cases fuel <;> simp [Read.loop]

theorem Write_loop_done (src : Ptr) (fuel : Nat) (m : MemoryAccessor) (img : MemImage)
    (cur done_amount : Nat) :
    Write.loop src fuel m img cur 0 done_amount = (.ok (), img, done_amount, m) := by
  cases fuel <;> simp [Write.loop]

theorem Read_loop_gap (img : MemImage) (dst fuel : Nat) (m : MemoryAccessor) (buf : Ptr)
    (cur amount done_amount : Nat) (sp sc : SegmentInfo) (hfuel : 0 < fuel)
    (hamount : amount ≠ 0) (hp : m.segment_infos_[cur - 1]? = some sp)
    (hc : m.segment_infos_[cur]? = some sc) (hgap : sp.end_ ≠ sc.start) :
    Read.loop img dst fuel m buf cur amount done_amount
      = (.error Ex.AddressNotInSegmentEx, buf, done_amount, m) := by
  cases fuel with
  | zero => omega
  | succ fuel => simp [Read.loop, hamount, hp, hc, hgap]

theorem Write_loop_gap (src : Ptr) (fuel : Nat) (m : MemoryAccessor) (img : MemImage)
    (cur amount done_amount : Nat) (sp sc : SegmentInfo) (hfuel : 0 < fuel)
    (hamount : amount ≠ 0) (hp : m.segment_infos_[cur - 1]? = some sp)
    (hc : m.segment_infos_[cur]? = some sc) (hgap : sp.end_ ≠ sc.start) :
    Write.loop src fuel m img cur amount done_amount
      = (.error Ex.AddressNotInSegmentEx, img, done_amount, m) := by
  cases fuel with
  | zero => omega
  | succ fuel => simp [Write.loop, hamount, hp, hc, hgap]

theorem Read_loop_step (img : MemImage) (dst fuel : Nat) (m : MemoryAccessor) (buf : Ptr)
    (cur amount done_amount : Nat) (sp sc : SegmentInfo)
    (hamount : amount ≠ 0) (hp : m.segment_infos_[cur - 1]? = some sp)
    (hc : m.segment_infos_[cur]? = some sc) (hcont : sp.end_ = sc.start) :
    Read.loop img dst (fuel + 1) m buf cur amount done_amount =
      match ReadSegment m img buf (dst + done_amount) cur 0 amount with
      | (.error e, buf1, m1) => (.error e, buf1, done_amount, m1)
      | (.ok ret_size, buf1, m1) =>
        Read.loop img dst fuel m1 buf1 (cur + 1) (sub64 amount ret_size)
          (add64 done_amount ret_size) := by
  simp [Read.loop, hamount, hp, hc, hcont]

theorem Write_loop_step (src : Ptr) (fuel : Nat) (m : MemoryAccessor) (img : MemImage)
    (cur amount done_amount : Nat) (sp sc : SegmentInfo)
    (hamount : amount ≠ 0) (hp : m.segment_infos_[cur - 1]? = some sp)
    (hc : m.segment_infos_[cur]? = some sc) (hcont : sp.end_ = sc.start) :
    Write.loop src (fuel + 1) m img cur amount done_amount =
      match WriteSegment m img (ptrAdd src done_amount) cur 0 amount with
      | (.error e, img1, m1) => (.error e, img1, done_amount, m1)
      | (.ok ret_size, img1, m1) =>
        Write.loop src fuel m1 img1 (cur + 1) (sub64 amount ret_size)
          (add64 done_amount ret_size) := by
  simp [Write.loop, hamount, hp, hc, hcont]

/-- `ReadSegment` on a well-formed segment, with a request that does not wrap around
and a readable range: exactly the clamped number of bytes is copied. -/
theorem ReadSegment_ok (m : MemoryAccessor) (img : MemImage) (buf : Ptr)
    (dst num start amount : Nat) (seg : SegmentInfo) (hpid : m.pid_set_ = true)
    (hopen : img.openable = true) (hseg : m.segment_infos_[num]? = some seg)
    (hse : seg.start ≤ seg.end_) (he : seg.end_ < SIZE) (hstart : start < seg.end_ - seg.start)
    (hnowrap : seg.end_ - seg.start < amount ∨ start + amount < SIZE)
    (hread : ∀ i, i < min amount (seg.end_ - seg.start - start) →
      img.readable (seg.start + start + i) = true) :
    ∃ m1, ReadSegment m img buf dst num start amount =
        (.ok (min amount (seg.end_ - seg.start - start)),
          blit buf dst (ptrAdd img.bytes (seg.start + start))
            (min amount (seg.end_ - seg.start - start)), m1) ∧
      m1.pid_set_ = true ∧ m1.segment_infos_ = m.segment_infos_ := by
  have hb := CheckSegBoundaries_clamp m num start amount seg hpid hseg hse he hstart hnowrap
  obtain ⟨m1, m2, hp1, hs1, _, _, hr⟩ :=
    ReadSegment_checked m img buf dst num start amount _ seg hpid hopen hseg hb
  rw [add64_eq _ _ (by omega)] at hr
  rw [if_pos hread] at hr
  exact ⟨m1, hr, hp1, hs1⟩

/-- `WriteSegment` on a well-formed segment, with a request that does not wrap around
and a writable range: exactly the clamped number of bytes is written. -/
theorem WriteSegment_ok (m : MemoryAccessor) (img : MemImage) (src : Ptr)
    (num start amount : Nat) (seg : SegmentInfo) (hpid : m.pid_set_ = true)
    (hopen : img.openable = true) (hseg : m.segment_infos_[num]? = some seg)
    (hse : seg.start ≤ seg.end_) (he : seg.end_ < SIZE) (hstart : start < seg.end_ - seg.start)
    (hnowrap : seg.end_ - seg.start < amount ∨ start + amount < SIZE)
    (hwrite : ∀ i, i < min amount (seg.end_ - seg.start - start) →
      img.writable (seg.start + start + i) = true) :
    ∃ m1, WriteSegment m img src num start amount =
        (.ok (min amount (seg.end_ - seg.start - start)),
          { img with bytes := (blit img.bytes (seg.start + start) src
              (min amount (seg.end_ - seg.start - start))) }, m1) ∧
      m1.pid_set_ = true ∧ m1.segment_infos_ = m.segment_infos_ := by
  have hb := CheckSegBoundaries_clamp m num start amount seg hpid hseg hse he hstart hnowrap
  obtain ⟨m1, m2, hp1, hs1, _, _, hr⟩ :=
    WriteSegment_checked m img src num start amount _ seg hpid hopen hseg hb
  rw [add64_eq _ _ (by omega)] at hr
  rw [if_pos hwrite] at hr
  exact ⟨m1, hr, hp1, hs1⟩

end MemoryAccessor

/-! ## MemoryAccessor: evaluations -/

example : (MemoryAccessor.Read demoAccessor demoImage (fun _ => 0) 0 4098 4 7).1 = .ok () := by
  decide

example : (MemoryAccessor.Read demoAccessor demoImage (fun _ => 0) 0 4098 4 7).2.2.1 = 4 := by
  decide

example : slice (MemoryAccessor.Read demoAccessor demoImage (fun _ => 0) 0 4098 4 7).2.1 0 5
    = [2, 3, 4, 5, 0] := by
  decide

example : (MemoryAccessor.Read demoAccessor demoImage (fun _ => 0) 0 4102 4 7).1
    = .error Ex.AddressNotInSegmentEx := by
  decide

example : (MemoryAccessor.Read demoAccessor demoImage (fun _ => 0) 0 4102 4 7).2.2.1 = 2 := by
  decide

example : (MemoryAccessor.Read demoAccessor demoImage (fun _ => 0) 0 8194 4 7).1
    = .error Ex.OutOfRange := by
  decide

/-! ## Claims about Read and Write -/

/-- C6: in a segment map (meeting the data-model invariants) in which segment `k` ends
where segment `k+1` starts, for every address `a` inside segment `k` and every length
`n` such that `a + n` reaches into but not past segment `k+1`, `Read` (PID set, memory
image openable, the range readable) succeeds, sets `done_amount` to `n`, and delivers
the `n` memory bytes at `[a, a+n)` in order to `dst[0..n)`, leaving the rest of the
caller's memory and the segment map untouched. -/
theorem C6_read_across_contiguous (m : MemoryAccessor) (img : MemImage) (buf : Ptr)
    (dst a n done_amount k : Nat) (sk sk1 : SegmentInfo)
    (hpid : m.pid_set_ = true) (hopen : img.openable = true)
    (hok : SegmentMapOk m.segment_infos_)
    (hk : m.segment_infos_[k]? = some sk) (hk1 : m.segment_infos_[k + 1]? = some sk1)
    (hcont : sk.end_ = sk1.start)
    (ha1 : sk.start ≤ a) (ha2 : a < sk.end_)
    (hn1 : sk1.start < a + n) (hn2 : a + n ≤ sk1.end_)
    (hread : ∀ i, i < n → img.readable (a + i) = true) :
    ∃ buf2 m2, m.Read img buf dst a n done_amount = (.ok (), buf2, n, m2) ∧
      (∀ i, i < n → buf2 (dst + i) = img.bytes (a + i)) ∧
      (∀ j, j < dst ∨ dst + n ≤ j → buf2 j = buf j) ∧
      m2.segment_infos_ = m.segment_infos_ := by
  have hA := MemoryAccessor.AddressInSegment_inside m a k sk hok hk ha1 ha2
  obtain ⟨hsk, hske⟩ := hok.1 sk (List.getElem?_mem hk)
  obtain ⟨hsk1, hsk1e⟩ := hok.1 sk1 (List.getElem?_mem hk1)
  have hlen : k + 1 < m.segment_infos_.length := (List.getElem?_eq_some_iff.mp hk1).1
  -- first segment
  obtain ⟨m1, hr1, hp1, hs1⟩ := MemoryAccessor.ReadSegment_ok m img buf dst k (a - sk.start) n sk
    hpid hopen hk (by omega) hske (by omega) (Or.inr (by omega))
    (fun i hi => by
      rw [show sk.start + (a - sk.start) + i = a + i by omega]
      exact hread i (by omega))
  rw [show min n (sk.end_ - sk.start - (a - sk.start)) = sk.end_ - a by omega,
    show sk.start + (a - sk.start) = a by omega] at hr1
  -- second segment
  have hk1b : m1.segment_infos_[k + 1]? = some sk1 := by rw [hs1]; exact hk1
  have hkb : m1.segment_infos_[k + 1 - 1]? = some sk := by
    rw [hs1, Nat.add_sub_cancel]; exact hk
  obtain ⟨m2, hr2, hp2, hs2⟩ := MemoryAccessor.ReadSegment_ok m1 img
    (blit buf dst (ptrAdd img.bytes a) (sk.end_ - a)) (dst + (sk.end_ - a)) (k + 1) 0
    (n - (sk.end_ - a)) sk1 hp1 hopen hk1b (by omega) hsk1e (by omega) (Or.inr (by omega))
    (fun i hi => by
      rw [show sk1.start + 0 + i = a + (sk.end_ - a + i) by omega]
      exact hread _ (by omega))
  rw [show min (n - (sk.end_ - a)) (sk1.end_ - sk1.start - 0) = n - (sk.end_ - a) by omega,
    show sk1.start + 0 = sk.end_ by omega] at hr2
  obtain ⟨f, hf⟩ : ∃ f, m.segment_infos_.length - (k + 1) = f + 1 :=
    ⟨m.segment_infos_.length - (k + 1) - 1, by omega⟩
  refine ⟨blit (blit buf dst (ptrAdd img.bytes a) (sk.end_ - a)) (dst + (sk.end_ - a))
    (ptrAdd img.bytes sk.end_) (n - (sk.end_ - a)), m2, ?_, ?_, ?_, by rw [hs2, hs1]⟩
  · rw [MemoryAccessor.Read_start m img buf dst a n done_amount k sk hpid hA hk,
      sub64_eq a sk.start ha1 (by omega), hr1]
    simp only
    rw [sub64_eq n (sk.end_ - a) (by omega) (by omega), add64_eq 0 (sk.end_ - a) (by omega),
      Nat.zero_add, hf,
      MemoryAccessor.Read_loop_step img dst f m1 _ (k + 1) (n - (sk.end_ - a)) (sk.end_ - a)
        sk sk1 (by omega) hkb hk1b hcont, hr2]
    simp only
    rw [sub64_eq _ _ (Nat.le_refl _) (by omega), Nat.sub_self, MemoryAccessor.Read_loop_done,
      add64_eq _ _ (by omega), show sk.end_ - a + (n - (sk.end_ - a)) = n by omega]
  · intro i hi
    by_cases h : i < sk.end_ - a
    · rw [blit_outside _ _ _ _ _ (Or.inl (by omega)), blit_inside _ _ _ _ _ h]
      simp [ptrAdd]
    · rw [show dst + i = dst + (sk.end_ - a) + (i - (sk.end_ - a)) by omega,
        blit_inside _ _ _ _ _ (by omega)]
      simp only [ptrAdd]
      congr 1
      omega
  · intro j hj
    rw [blit_outside _ _ _ _ _ (by omega), blit_outside _ _ _ _ _ (by omega)]

/-- C6 on `demoSegments`: four bytes from 0x1002 span the first two segments. -/
theorem C6_read_across_contiguous_witness :
    (demoAccessor.pid_set_ = true ∧ demoImage.openable = true ∧
      SegmentMapOk demoAccessor.segment_infos_) ∧
    ∃ buf2 m2, demoAccessor.Read demoImage (fun _ => 0) 0 4098 4 7 = (.ok (), buf2, 4, m2) ∧
      (∀ i, i < 4 → buf2 (0 + i) = demoImage.bytes (4098 + i)) ∧
      (∀ j, j < 0 ∨ 0 + 4 ≤ j → buf2 j = (fun _ => 0) j) ∧
      m2.segment_infos_ = demoAccessor.segment_infos_ :=
  ⟨⟨rfl, rfl, by decide⟩,
    C6_read_across_contiguous demoAccessor demoImage (fun _ => 0) 0 4098 4 7 0
      { start := 4096, end_ := 4100 } { start := 4100, end_ := 4104 }
      rfl rfl (by decide) (by decide) (by decide) (by decide) (by decide) (by decide)
      (by decide) (by decide) (fun _ _ => rfl)⟩

/-- Gap case, for requests whose clamp is exact: in a segment map in which segment `k`
ends below the start of segment `k+1`, for every address `a` inside segment `k` and
every length `n` with `a + n` beyond the end of segment `k`, provided `n` exceeds the
length of segment `k` or `offset + n` does not wrap around, `Read` and `Write` fail with
`AddressNotInSegmentEx` and leave `done_amount = end - a`: exactly the bytes of segment
`k` from `a` on were transferred. -/
theorem Read_Write_gap (m : MemoryAccessor) (img : MemImage) (buf src : Ptr)
    (dst a n done_amount k : Nat) (sk sk1 : SegmentInfo)
    (hpid : m.pid_set_ = true) (hopen : img.openable = true)
    (hok : SegmentMapOk m.segment_infos_)
    (hk : m.segment_infos_[k]? = some sk) (hk1 : m.segment_infos_[k + 1]? = some sk1)
    (hgap : sk.end_ < sk1.start) (ha1 : sk.start ≤ a) (ha2 : a < sk.end_)
    (hn : sk.end_ < a + n) (hn64 : n < SIZE)
    (hnowrap : sk.end_ - sk.start < n ∨ a - sk.start + n < SIZE)
    (hread : ∀ i, i < sk.end_ - a → img.readable (a + i) = true)
    (hwrite : ∀ i, i < sk.end_ - a → img.writable (a + i) = true) :
    (∃ m2, m.Read img buf dst a n done_amount =
        (.error Ex.AddressNotInSegmentEx, blit buf dst (ptrAdd img.bytes a) (sk.end_ - a),
          sk.end_ - a, m2) ∧ m2.segment_infos_ = m.segment_infos_) ∧
    (∃ m2, m.Write img src a n done_amount =
        (.error Ex.AddressNotInSegmentEx,
          { img with bytes := (blit img.bytes a src (sk.end_ - a)) }, sk.end_ - a, m2) ∧
        m2.segment_infos_ = m.segment_infos_) := by
  have hA := MemoryAccessor.AddressInSegment_inside m a k sk hok hk ha1 ha2
  obtain ⟨hsk, hske⟩ := hok.1 sk (List.getElem?_mem hk)
  have hlen : k + 1 < m.segment_infos_.length := (List.getElem?_eq_some_iff.mp hk1).1
  obtain ⟨f, hf⟩ : ∃ f, m.segment_infos_.length - (k + 1) = f + 1 :=
    ⟨m.segment_infos_.length - (k + 1) - 1, by omega⟩
  have hmin : min n (sk.end_ - sk.start - (a - sk.start)) = sk.end_ - a := by omega
  have hpos : sk.start + (a - sk.start) = a := by omega
  constructor
  · obtain ⟨m1, hr1, hp1, hs1⟩ := MemoryAccessor.ReadSegment_ok m img buf dst k (a - sk.start) n
      sk hpid hopen hk (by omega) hske (by omega) hnowrap
      (fun i hi => by rw [hpos]; exact hread i (by omega))
    rw [hmin, hpos] at hr1
    refine ⟨m1, ?_, hs1⟩
    rw [MemoryAccessor.Read_start m img buf dst a n done_amount k sk hpid hA hk,
      sub64_eq a sk.start ha1 (by omega), hr1]
    simp only
    rw [sub64_eq n (sk.end_ - a) (by omega) hn64, add64_eq 0 (sk.end_ - a) (by omega),
      Nat.zero_add, hf,
      MemoryAccessor.Read_loop_gap img dst (f + 1) m1 _ (k + 1) (n - (sk.end_ - a))
        (sk.end_ - a) sk sk1 (by omega) (by omega)
        (by rw [hs1, Nat.add_sub_cancel]; exact hk) (by rw [hs1]; exact hk1) (by omega)]
  · obtain ⟨m1, hr1, hp1, hs1⟩ := MemoryAccessor.WriteSegment_ok m img src k (a - sk.start) n
      sk hpid hopen hk (by omega) hske (by omega) hnowrap
      (fun i hi => by rw [hpos]; exact hwrite i (by omega))
    rw [hmin, hpos] at hr1
    refine ⟨m1, ?_, hs1⟩
    rw [MemoryAccessor.Write_start m img src a n done_amount k sk hpid hA hk,
      sub64_eq a sk.start ha1 (by omega), hr1]
    simp only
    rw [sub64_eq n (sk.end_ - a) (by omega) hn64, add64_eq 0 (sk.end_ - a) (by omega),
      Nat.zero_add, hf,
      MemoryAccessor.Write_loop_gap src (f + 1) m1 _ (k + 1) (n - (sk.end_ - a))
        (sk.end_ - a) sk sk1 (by omega) (by omega)
        (by rw [hs1, Nat.add_sub_cancel]; exact hk) (by rw [hs1]; exact hk1) (by omega)]

/-- C7: in a segment map in which segment `k` ends below the start of segment `k+1`
and is not longer than 2^63 bytes, for every address `a` inside segment `k` and every
length `n` with `a + n` beyond the end of segment `k`, `Read` and `Write` fail with
`AddressNotInSegmentEx` and leave `done_amount = end - a`: exactly the bytes of segment
`k` from `a` on were transferred, and nothing of any later segment. -/
theorem C7_gap_request (m : MemoryAccessor) (img : MemImage) (buf src : Ptr)
    (dst a n done_amount k : Nat) (sk sk1 : SegmentInfo)
    (hpid : m.pid_set_ = true) (hopen : img.openable = true)
    (hok : SegmentMapOk m.segment_infos_)
    (hk : m.segment_infos_[k]? = some sk) (hk1 : m.segment_infos_[k + 1]? = some sk1)
    (hgap : sk.end_ < sk1.start) (ha1 : sk.start ≤ a) (ha2 : a < sk.end_)
    (hn : sk.end_ < a + n) (hn64 : n < SIZE)
    (hlen : sk.end_ - sk.start ≤ SIZE / 2)
    (hread : ∀ i, i < sk.end_ - a → img.readable (a + i) = true)
    (hwrite : ∀ i, i < sk.end_ - a → img.writable (a + i) = true) :
    (∃ m2, m.Read img buf dst a n done_amount =
        (.error Ex.AddressNotInSegmentEx, blit buf dst (ptrAdd img.bytes a) (sk.end_ - a),
          sk.end_ - a, m2) ∧ m2.segment_infos_ = m.segment_infos_) ∧
    (∃ m2, m.Write img src a n done_amount =
        (.error Ex.AddressNotInSegmentEx,
          { img with bytes := (blit img.bytes a src (sk.end_ - a)) }, sk.end_ - a, m2) ∧
        m2.segment_infos_ = m.segment_infos_) := by
  have hnowrap : sk.end_ - sk.start < n ∨ a - sk.start + n < SIZE := by
    simp only [SIZE] at *
    omega
  exact Read_Write_gap m img buf src dst a n done_amount k sk sk1 hpid hopen hok hk hk1 hgap
    ha1 ha2 hn hn64 hnowrap hread hwrite

/-- C7 on `demoSegments`: ten bytes asked for at 0x1006, two bytes before the end of
the second segment, which is followed by a gap. -/
theorem C7_gap_request_witness :
    (demoAccessor.Read demoImage (fun _ => 0) 0 4102 10 7).1 = .error Ex.AddressNotInSegmentEx ∧
    (demoAccessor.Read demoImage (fun _ => 0) 0 4102 10 7).2.2.1 = 2 ∧
    (demoAccessor.Write demoImage (fun _ => 9) 4102 10 7).1 = .error Ex.AddressNotInSegmentEx ∧
    (demoAccessor.Write demoImage (fun _ => 9) 4102 10 7).2.2.1 = 2 ∧
    ((∃ m2, demoAccessor.Read demoImage (fun _ => 0) 0 4102 10 7 =
        (.error Ex.AddressNotInSegmentEx,
          blit (fun _ => 0) 0 (ptrAdd demoImage.bytes 4102) (4104 - 4102), 4104 - 4102, m2) ∧
        m2.segment_infos_ = demoAccessor.segment_infos_) ∧
      (∃ m2, demoAccessor.Write demoImage (fun _ => 9) 4102 10 7 =
        (.error Ex.AddressNotInSegmentEx,
          { demoImage with bytes := (blit demoImage.bytes 4102 (fun _ => 9) (4104 - 4102)) },
          4104 - 4102, m2) ∧ m2.segment_infos_ = demoAccessor.segment_infos_)) :=
  ⟨by decide, by decide, by decide, by decide,
   C7_gap_request demoAccessor demoImage (fun _ => 0) (fun _ => 9) 0 4102 10 7 1
     { start := 4100, end_ := 4104 } { start := 8192, end_ := 8196 } rfl rfl (by decide)
     (by decide) (by decide) (by decide) (by decide) (by decide) (by decide) (by decide)
     (by decide) (fun _ _ => rfl) (fun _ _ => rfl)⟩

/-- An address below the start of the segment that `AddressInSegment` selects never
passes the boundary check: `Read` and `Write` fail with `AddressNotInSegmentEx`,
`done_amount` is 0 and nothing is transferred (part of C8). -/
theorem Read_Write_below_segment (m : MemoryAccessor) (img : MemImage) (buf src : Ptr)
    (dst a n done_amount k : Nat)
    (hpid : m.pid_set_ = true) (hopen : img.openable = true)
    (hok : SegmentMapOk m.segment_infos_) (hno : InNoSegment m.segment_infos_ a)
    (hA : m.AddressInSegment a = .ok k) :
    (∃ m2, m.Read img buf dst a n done_amount = (.error Ex.AddressNotInSegmentEx, buf, 0, m2) ∧
      m2.segment_infos_ = m.segment_infos_) ∧
    (∃ m2, m.Write img src a n done_amount = (.error Ex.AddressNotInSegmentEx, img, 0, m2) ∧
      m2.segment_infos_ = m.segment_infos_) := by
  obtain ⟨k2, sk, hk2, hk, hlt⟩ := MemoryAccessor.AddressInSegment_loop_sound a _ 0 k hA
  rw [Nat.zero_add] at hk2
  subst hk2
  obtain ⟨hsk, hske⟩ := hok.1 sk (List.getElem?_mem hk)
  have hbelow : a < sk.start := by
    have := hno sk (List.getElem?_mem hk)
    omega
  have hb : m.CheckSegBoundaries k (sub64 a sk.start) n = .error Ex.AddressNotInSegmentEx := by
    rw [MemoryAccessor.CheckSegBoundaries_segment m k _ n sk hpid hk,
      sub64_wrap a sk.start hbelow (by omega), sub64_eq sk.end_ sk.start (by omega) hske]
    have : a + SIZE - sk.start ≥ sk.end_ - sk.start := by omega
    simp [this]
  constructor
  · obtain ⟨m1, hr, _, hs1⟩ := MemoryAccessor.ReadSegment_error m img buf dst k
      (sub64 a sk.start) n _ hpid hopen hb
    exact ⟨m1, by rw [MemoryAccessor.Read_start m img buf dst a n done_amount k sk hpid hA hk, hr],
      hs1⟩
  · obtain ⟨m1, hr, _, hs1⟩ := MemoryAccessor.WriteSegment_error m img src k
      (sub64 a sk.start) n _ hpid hopen hb
    exact ⟨m1, by rw [MemoryAccessor.Write_start m img src a n done_amount k sk hpid hA hk, hr],
      hs1⟩

/-- C8, a request on which the code departs from the claim: with a PID set and
`demoSegments` as the map, address 0x3000 lies beyond every segment; `Read` and `Write`
fail with `AddressNotInSegmentEx` out of `AddressInSegment`, before `done_amount = 0` is
executed, so the caller's `done_amount` (here 7) is left as it was although no byte was
transferred. -/
theorem C8_done_amount_not_reset :
    InNoSegment demoAccessor.segment_infos_ 12288 ∧
    (demoAccessor.Read demoImage (fun _ => 0) 0 12288 1 7).1 = .error Ex.AddressNotInSegmentEx ∧
    (demoAccessor.Read demoImage (fun _ => 0) 0 12288 1 7).2.2.1 = 7 ∧
    (demoAccessor.Write demoImage (fun _ => 0) 12288 1 7).1 = .error Ex.AddressNotInSegmentEx ∧
    (demoAccessor.Write demoImage (fun _ => 0) 12288 1 7).2.2.1 = 7 := by
  refine ⟨?_, by decide, by decide, by decide, by decide⟩
  intro s hs
  simp only [demoAccessor, demoSegments, List.mem_cons, List.mem_singleton, List.not_mem_nil,
    or_false] at hs
  rcases hs with h | h | h <;> subst h <;> simp

/-! ## Claims about the segment operations -/

/-- C9: for every valid segment index whose segment is not longer than 2^63 bytes,
every offset smaller than the segment length `end - start` and every requested length
(any 64-bit unsigned value, `SIZE_MAX` included), `ReadSegment` and `WriteSegment`
transfer and return exactly `min length (segLen - offset)` bytes, the bytes at
`[start + offset, start + offset + returned)` of the memory; `offset + returned` does
not exceed the segment length and nothing else is touched. -/
theorem C9_segment_clamp (m : MemoryAccessor) (img : MemImage) (buf src : Ptr)
    (dst num start amount : Nat) (seg : SegmentInfo) (hpid : m.pid_set_ = true)
    (hopen : img.openable = true) (hseg : m.segment_infos_[num]? = some seg)
    (hse : seg.start ≤ seg.end_) (he : seg.end_ < SIZE) (hstart : start < seg.end_ - seg.start)
    (hamount : amount < SIZE) (hlen : seg.end_ - seg.start ≤ SIZE / 2)
    (hread : ∀ i, i < min amount (seg.end_ - seg.start - start) →
      img.readable (seg.start + start + i) = true)
    (hwrite : ∀ i, i < min amount (seg.end_ - seg.start - start) →
      img.writable (seg.start + start + i) = true) :
    (∃ m1, m.ReadSegment img buf dst num start amount =
        (.ok (min amount (seg.end_ - seg.start - start)),
          blit buf dst (ptrAdd img.bytes (seg.start + start))
            (min amount (seg.end_ - seg.start - start)), m1) ∧
      m1.segment_infos_ = m.segment_infos_) ∧
    (∃ m1, m.WriteSegment img src num start amount =
        (.ok (min amount (seg.end_ - seg.start - start)),
          { img with bytes := (blit img.bytes (seg.start + start) src
              (min amount (seg.end_ - seg.start - start))) }, m1) ∧
      m1.segment_infos_ = m.segment_infos_) ∧
    start + min amount (seg.end_ - seg.start - start) ≤ seg.end_ - seg.start := by
  have hnowrap : seg.end_ - seg.start < amount ∨ start + amount < SIZE := by
    simp only [SIZE] at *
    omega
  obtain ⟨m1, hr, _, hs1⟩ := MemoryAccessor.ReadSegment_ok m img buf dst num start amount seg
    hpid hopen hseg hse he hstart hnowrap hread
  obtain ⟨m2, hw, _, hs2⟩ := MemoryAccessor.WriteSegment_ok m img src num start amount seg
    hpid hopen hseg hse he hstart hnowrap hwrite
  exact ⟨⟨m1, hr, hs1⟩, ⟨m2, hw, hs2⟩, by omega⟩

/-- C9 on `demoSegments`: the default length `SIZE_MAX` at offset 1 of the first
segment, which has four bytes, gives three bytes. -/
theorem C9_segment_clamp_witness :
    (demoAccessor.ReadSegment demoImage (fun _ => 0) 0 0 1 SIZE_MAX).1 = .ok 3 ∧
    slice (demoAccessor.ReadSegment demoImage (fun _ => 0) 0 0 1 SIZE_MAX).2.1 0 4
      = [1, 2, 3, 0] ∧
    (demoAccessor.WriteSegment demoImage (fun _ => 9) 0 1 SIZE_MAX).1 = .ok 3 ∧
    slice (demoAccessor.WriteSegment demoImage (fun _ => 9) 0 1 SIZE_MAX).2.1.bytes 4096 5
      = [0, 9, 9, 9, 4] ∧
    ((∃ m1, demoAccessor.ReadSegment demoImage (fun _ => 0) 0 0 1 SIZE_MAX =
        (.ok (min SIZE_MAX (4100 - 4096 - 1)),
          blit (fun _ => 0) 0 (ptrAdd demoImage.bytes (4096 + 1))
            (min SIZE_MAX (4100 - 4096 - 1)), m1) ∧
      m1.segment_infos_ = demoAccessor.segment_infos_) ∧
    (∃ m1, demoAccessor.WriteSegment demoImage (fun _ => 9) 0 1 SIZE_MAX =
        (.ok (min SIZE_MAX (4100 - 4096 - 1)),
          { demoImage with bytes := (blit demoImage.bytes (4096 + 1) (fun _ => 9)
              (min SIZE_MAX (4100 - 4096 - 1))) }, m1) ∧
      m1.segment_infos_ = demoAccessor.segment_infos_) ∧
    1 + min SIZE_MAX (4100 - 4096 - 1) ≤ 4100 - 4096) :=
  ⟨by decide, by decide, by decide, by decide,
   C9_segment_clamp demoAccessor demoImage (fun _ => 0) (fun _ => 9) 0 0 1 SIZE_MAX
     { start := 4096, end_ := 4100 } rfl rfl rfl (by decide) (by decide) (by decide)
     (by decide) (by decide) (fun _ _ => rfl) (fun _ _ => rfl)⟩

/-- C10: with the memory image openable, `ReadSegment` and `WriteSegment` fail with
`PidNotSetEx` if no PID is set; otherwise with `SegmentNotExistEx` exactly when the index
is not below the number of segments; otherwise with `AddressNotInSegmentEx` exactly when
the offset is not below the segment length `end - start`; in each of these failures no
byte is transferred and the segment map is unchanged.  `CheckSegNum` fails with
`PidNotSetEx` when no PID is set and otherwise with `SegmentNotExistEx` exactly when
`num` is not below the segment count. -/
theorem C10_segment_errors (m : MemoryAccessor) (img : MemImage) (buf src : Ptr)
    (dst num start amount : Nat) (hopen : img.openable = true) :
    (m.pid_set_ = false →
      (m.ReadSegment img buf dst num start amount).1 = .error Ex.PidNotSetEx ∧
      (m.WriteSegment img src num start amount).1 = .error Ex.PidNotSetEx ∧
      m.CheckSegNum num = .error Ex.PidNotSetEx) ∧
    (m.pid_set_ = true →
      ((m.ReadSegment img buf dst num start amount).1 = .error Ex.SegmentNotExistEx ↔
        m.segment_infos_.length ≤ num) ∧
      ((m.WriteSegment img src num start amount).1 = .error Ex.SegmentNotExistEx ↔
        m.segment_infos_.length ≤ num) ∧
      (m.CheckSegNum num = .error Ex.SegmentNotExistEx ↔ m.segment_infos_.length ≤ num) ∧
      (num < m.segment_infos_.length → m.CheckSegNum num = .ok ()) ∧
      (∀ seg, m.segment_infos_[num]? = some seg →
        ((m.ReadSegment img buf dst num start amount).1 = .error Ex.AddressNotInSegmentEx ↔
          sub64 seg.end_ seg.start ≤ start) ∧
        ((m.WriteSegment img src num start amount).1 = .error Ex.AddressNotInSegmentEx ↔
          sub64 seg.end_ seg.start ≤ start))) ∧
    (∀ e, e = Ex.PidNotSetEx ∨ e = Ex.SegmentNotExistEx ∨ e = Ex.AddressNotInSegmentEx →
      ((m.ReadSegment img buf dst num start amount).1 = .error e →
        (m.ReadSegment img buf dst num start amount).2.1 = buf ∧
        (m.ReadSegment img buf dst num start amount).2.2.segment_infos_ = m.segment_infos_) ∧
      ((m.WriteSegment img src num start amount).1 = .error e →
        (m.WriteSegment img src num start amount).2.1 = img ∧
        (m.WriteSegment img src num start amount).2.2.segment_infos_ = m.segment_infos_)) := by
  cases hpid : m.pid_set_
  · have hr := MemoryAccessor.ReadSegment_unset m img buf dst num start amount hpid
    have hw := MemoryAccessor.WriteSegment_unset m img src num start amount hpid
    rw [hr, hw]
    refine ⟨fun _ => ⟨rfl, rfl, ?_⟩, fun h => (by cases h), fun e _ => ⟨fun _ => ⟨rfl, rfl⟩,
      fun _ => ⟨rfl, rfl⟩⟩⟩
    simp [MemoryAccessor.CheckSegNum, MemoryAccessor.CheckPid, hpid]
  · obtain ⟨hrs, hr⟩ := MemoryAccessor.ReadSegment_cases m img buf dst num start amount hpid hopen
    obtain ⟨hws, hw⟩ := MemoryAccessor.WriteSegment_cases m img src num start amount hpid hopen
    refine ⟨fun h => (by cases h), fun _ => ⟨?_, ?_, ?_, ?_, ?_⟩, fun e he => ⟨?_, ?_⟩⟩
    · rcases hr with ⟨h1, h2, _⟩ | ⟨seg, hseg, _, h2, _⟩ | ⟨seg, hseg, _, h2 | ⟨a, h2⟩⟩
      · rw [h2]; simp [h1]
      all_goals
        have hlt : ¬ (m.segment_infos_.length ≤ num) := by
          intro hle
          rw [List.getElem?_eq_none hle] at hseg
          cases hseg
        rw [h2]
        simp [hlt]
    · rcases hw with ⟨h1, h2, _⟩ | ⟨seg, hseg, _, h2, _⟩ | ⟨seg, hseg, _, h2 | ⟨a, h2⟩⟩
      · rw [h2]; simp [h1]
      all_goals
        have hlt : ¬ (m.segment_infos_.length ≤ num) := by
          intro hle
          rw [List.getElem?_eq_none hle] at hseg
          cases hseg
        rw [h2]
        simp [hlt]
    · by_cases h : m.segment_infos_.length ≤ num <;>
        simp [MemoryAccessor.CheckSegNum, MemoryAccessor.CheckPid, hpid, h]
    · intro h
      have h2 : ¬ (m.segment_infos_.length ≤ num) := by omega
      simp [MemoryAccessor.CheckSegNum, MemoryAccessor.CheckPid, hpid, h2]
    · intro seg0 hseg0
      constructor
      · rcases hr with ⟨h1, _, _⟩ | ⟨seg, hseg, h1, h2, _⟩ | ⟨seg, hseg, h1, h2 | ⟨a, h2⟩⟩
        · rw [List.getElem?_eq_none h1] at hseg0
          cases hseg0
        all_goals
          rw [hseg0] at hseg
          cases hseg
          rw [h2]
          simp only [Except.error.injEq, reduceCtorEq, true_iff, false_iff]
          omega
      · rcases hw with ⟨h1, _, _⟩ | ⟨seg, hseg, h1, h2, _⟩ | ⟨seg, hseg, h1, h2 | ⟨a, h2⟩⟩
        · rw [List.getElem?_eq_none h1] at hseg0
          cases hseg0
        all_goals
          rw [hseg0] at hseg
          cases hseg
          rw [h2]
          simp only [Except.error.injEq, reduceCtorEq, true_iff, false_iff]
          omega
    · intro herr
      refine ⟨?_, hrs⟩
      rcases hr with ⟨_, _, h3⟩ | ⟨seg, _, _, _, h3⟩ | ⟨seg, _, _, h2 | ⟨a, h2⟩⟩
      · exact h3
      · exact h3
      · rw [h2] at herr
        rcases he with he | he | he <;> subst he <;> cases herr
      · rw [h2] at herr
        cases herr
    · intro herr
      refine ⟨?_, hws⟩
      rcases hw with ⟨_, _, h3⟩ | ⟨seg, _, _, _, h3⟩ | ⟨seg, _, _, h2 | ⟨a, h2⟩⟩
      · exact h3
      · exact h3
      · rw [h2] at herr
        rcases he with he | he | he <;> subst he <;> cases herr
      · rw [h2] at herr
        cases herr

/-- C10 on `demoAccessor`: index 3 is not a segment, offset 4 is not inside segment 0. -/
theorem C10_segment_errors_witness :
    demoImage.openable = true ∧
    ((demoAccessor.ReadSegment demoImage (fun _ => 0) 0 3 0 1).1 = .error Ex.SegmentNotExistEx ↔
      demoAccessor.segment_infos_.length ≤ 3) ∧
    ((demoAccessor.ReadSegment demoImage (fun _ => 0) 0 3 0 1).1 = .error Ex.SegmentNotExistEx →
      (demoAccessor.ReadSegment demoImage (fun _ => 0) 0 3 0 1).2.1 = (fun _ => 0) ∧
      (demoAccessor.ReadSegment demoImage (fun _ => 0) 0 3 0 1).2.2.segment_infos_
        = demoAccessor.segment_infos_) :=
  ⟨rfl,
    ((C10_segment_errors demoAccessor demoImage (fun _ => 0) (fun _ => 0) 0 3 0 1 rfl).2.1 rfl).1,
    ((C10_segment_errors demoAccessor demoImage (fun _ => 0) (fun _ => 0) 0 3 0 1 rfl).2.2
      Ex.SegmentNotExistEx (Or.inr (Or.inl rfl))).1⟩

/-! ## Claims about AddressInSegment -/

/-- The two ways the lookup loop can end. -/
theorem AddressInSegment_loop_spec (address : Nat) :
    ∀ (segs : List SegmentInfo) (i : Nat),
      (∃ k sk, MemoryAccessor.AddressInSegment.loop address segs i = .ok (i + k) ∧
        segs[k]? = some sk ∧ address < sk.end_ ∧
        ∀ j s, j < k → segs[j]? = some s → s.end_ ≤ address) ∨
      (MemoryAccessor.AddressInSegment.loop address segs i = .error Ex.AddressNotInSegmentEx ∧
        ∀ s, s ∈ segs → s.end_ ≤ address) := by
  intro segs
  induction segs with
  | nil =>
    intro i
    right
    exact ⟨rfl, fun s hs => by simp at hs⟩
  | cons s rest ih =>
    intro i
    by_cases hs : s.end_ > address
    · left
      refine ⟨0, s, by simp [MemoryAccessor.AddressInSegment.loop, hs], by simp, hs, ?_⟩
      intro j s2 hj
      omega
    · rcases ih (i + 1) with ⟨k, sk, h1, h2, h3, h4⟩ | ⟨h1, h2⟩
      · left
        refine ⟨k + 1, sk, ?_, by simpa using h2, h3, ?_⟩
        · simp only [MemoryAccessor.AddressInSegment.loop, hs, if_false, h1]
          congr 1
          omega
        · intro j s2 hj hs2
          cases j with
          | zero =>
            simp only [List.getElem?_cons_zero, Option.some.injEq] at hs2
            subst hs2
            omega
          | succ j => exact h4 j s2 (by omega) (by simpa using hs2)
      · right
        refine ⟨by simp only [MemoryAccessor.AddressInSegment.loop, hs, if_false, h1], ?_⟩
        intro s2 hs2
        rcases List.mem_cons.mp hs2 with h | h
        · subst h; omega
        · exact h2 s2 h

/-- C12: for every segment list and every address, `AddressInSegment` returns the
smallest index `i` such that `segments[i].end > address` (the start of the segment is
not looked at, so an address below the first segment's start yields index 0 as soon as
it is below that segment's end), and it fails with `AddressNotInSegmentEx`, and with no
other exception, if and only if no segment's end exceeds the address, in particular for
the empty map. -/
theorem C12_lookup_first_end_above (m : MemoryAccessor) (a : Nat) :
    (∀ i, m.AddressInSegment a = .ok i ↔
      ((∃ s, m.segment_infos_[i]? = some s ∧ a < s.end_) ∧
        ∀ j s, j < i → m.segment_infos_[j]? = some s → s.end_ ≤ a)) ∧
    (m.AddressInSegment a = .error Ex.AddressNotInSegmentEx ↔
      ∀ s, s ∈ m.segment_infos_ → s.end_ ≤ a) ∧
    (∀ e, m.AddressInSegment a = .error e → e = Ex.AddressNotInSegmentEx) ∧
    (m.segment_infos_ = [] → m.AddressInSegment a = .error Ex.AddressNotInSegmentEx) ∧
    (∀ s0, m.segment_infos_[0]? = some s0 → a < s0.end_ → m.AddressInSegment a = .ok 0) := by
  have hspec := AddressInSegment_loop_spec a m.segment_infos_ 0
  have hfirst : ∀ i, ((∃ s, m.segment_infos_[i]? = some s ∧ a < s.end_) ∧
      ∀ j s, j < i → m.segment_infos_[j]? = some s → s.end_ ≤ a) →
      m.AddressInSegment a = .ok i := by
    rintro i ⟨⟨s, hs, hlt⟩, hmin⟩
    unfold MemoryAccessor.AddressInSegment
    rw [MemoryAccessor.AddressInSegment_loop_eq a m.segment_infos_ 0 i s hs hlt hmin,
      Nat.zero_add]
  refine ⟨fun i => ⟨fun h => ?_, hfirst i⟩, ⟨fun h => ?_, fun h => ?_⟩, fun e h => ?_,
    fun h => ?_, fun s0 h0 hlt => ?_⟩
  · rcases hspec with ⟨k, sk, h1, h2, h3, h4⟩ | ⟨h1, _⟩
    · unfold MemoryAccessor.AddressInSegment at h
      rw [h1, Nat.zero_add] at h
      cases h
      exact ⟨⟨sk, h2, h3⟩, h4⟩
    · unfold MemoryAccessor.AddressInSegment at h
      rw [h1] at h
      cases h
  · rcases hspec with ⟨k, sk, h1, _, _, _⟩ | ⟨_, h2⟩
    · unfold MemoryAccessor.AddressInSegment at h
      rw [h1] at h
      cases h
    · exact h2
  · rcases hspec with ⟨k, sk, _, h2, h3, _⟩ | ⟨h1, _⟩
    · have := h sk (List.getElem?_mem h2)
      omega
    · exact h1
  · exact (MemoryAccessor.AddressInSegment_loop_error a m.segment_infos_ 0 e h).1
  · unfold MemoryAccessor.AddressInSegment
    rw [h]
    rfl
  · exact hfirst 0 ⟨⟨s0, h0, hlt⟩, fun j s hj => by omega⟩

/-- C13: in a segment map in which every segment has `end > start`, the starts are
ascending and the segments are mutually non-overlapping, for every index `k` the lookup
of `segments[k].start` succeeds and returns exactly `k`; the returned segment's end
exceeds the address and the segment contains it.  For `k = 0` the result is 0. -/
theorem C13_lookup_of_start (m : MemoryAccessor) (k : Nat) (sk : SegmentInfo)
    (hpos : ∀ s, s ∈ m.segment_infos_ → s.start < s.end_)
    (hasc : m.segment_infos_.Pairwise (fun s1 s2 => s1.start < s2.start))
    (hdisj : m.segment_infos_.Pairwise
      (fun s1 s2 => s1.end_ ≤ s2.start ∨ s2.end_ ≤ s1.start))
    (hk : m.segment_infos_[k]? = some sk) :
    m.AddressInSegment sk.start = .ok k ∧ sk.start < sk.end_ ∧
    (k = 0 → m.AddressInSegment sk.start = .ok 0) := by
  have hskpos := hpos sk (List.getElem?_mem hk)
  have hres : m.AddressInSegment sk.start = .ok k := by
    unfold MemoryAccessor.AddressInSegment
    rw [MemoryAccessor.AddressInSegment_loop_eq sk.start m.segment_infos_ 0 k sk hk hskpos,
      Nat.zero_add]
    intro j s hj hs
    obtain ⟨hjl, hjs⟩ := List.getElem?_eq_some_iff.mp hs
    obtain ⟨hkl, hks⟩ := List.getElem?_eq_some_iff.mp hk
    have h1 := List.pairwise_iff_getElem.mp hasc j k hjl hkl hj
    have h2 := List.pairwise_iff_getElem.mp hdisj j k hjl hkl hj
    rw [hjs, hks] at h1 h2
    rcases h2 with h2 | h2
    · exact h2
    · omega
  exact ⟨hres, hskpos, fun h0 => by rw [← h0]; exact hres⟩

/-- C13 on `demoSegments`, at the third segment. -/
theorem C13_lookup_of_start_witness :
    demoAccessor.AddressInSegment 8192 = .ok 2 ∧ 8192 < 8196 ∧
    (2 = 0 → demoAccessor.AddressInSegment 8192 = .ok 0) :=
  C13_lookup_of_start demoAccessor 2 { start := 8192, end_ := 8196 }
    (by decide) (by decide) (by decide) (by decide)

/-! ## Write followed by Read -/

/-- A successful `CheckSegBoundaries` returns the requested amount or, clamped, the
rest of the segment, which is then smaller than the request. -/
theorem CheckSegBoundaries_ok_shape (m : MemoryAccessor) (num start amount a : Nat)
    (seg : SegmentInfo) (hpid : m.pid_set_ = true) (hseg : m.segment_infos_[num]? = some seg)
    (hamount : amount < SIZE) (hb : m.CheckSegBoundaries num start amount = .ok a) :
    start < sub64 seg.end_ seg.start ∧
    (a = amount ∨ (a = sub64 seg.end_ seg.start - start ∧ a < amount)) := by
  rw [MemoryAccessor.CheckSegBoundaries_segment m num start amount seg hpid hseg] at hb
  have hsz : sub64 seg.end_ seg.start < SIZE := by
    unfold sub64
    exact Nat.mod_lt _ (by decide)
  by_cases h1 : start ≥ sub64 seg.end_ seg.start
  · simp [h1] at hb
  · simp only [h1, if_false] at hb
    refine ⟨by omega, ?_⟩
    split at hb
    · rename_i hc
      simp only [Except.ok.injEq] at hb
      rw [sub64_eq _ _ (by omega) hsz] at hb
      right
      refine ⟨hb.symm, ?_⟩
      rcases hc with hc | hc
      · omega
      · unfold add64 at hc
        simp only [SIZE] at *
        omega
    · simp only [Except.ok.injEq] at hb
      left
      exact hb.symm

/-- One `WriteSegment` that succeeds, and the `ReadSegment` with the same arguments. -/
theorem WriteSegment_then_ReadSegment (m : MemoryAccessor) (img : MemImage) (srcp : Ptr)
    (num start amount r : Nat) (img1 : MemImage) (m1 : MemoryAccessor)
    (hpid : m.pid_set_ = true) (hacc : AllAccess img) (hamount : amount < SIZE)
    (hw : m.WriteSegment img srcp num start amount = (.ok r, img1, m1)) :
    ∃ seg, m.segment_infos_[num]? = some seg ∧ start < sub64 seg.end_ seg.start ∧
      (r = amount ∨ (r = sub64 seg.end_ seg.start - start ∧ r < amount)) ∧
      img1 = { img with bytes := (blit img.bytes (add64 seg.start start) srcp r) } ∧
      m1.pid_set_ = true ∧ m1.segment_infos_ = m.segment_infos_ ∧
      ∀ (mR : MemoryAccessor) (imgR : MemImage) (buf : Ptr) (dstp : Nat),
        mR.pid_set_ = true → mR.segment_infos_ = m.segment_infos_ → AllAccess imgR →
        ∃ mR1, mR.ReadSegment imgR buf dstp num start amount =
            (.ok r, blit buf dstp (ptrAdd imgR.bytes (add64 seg.start start)) r, mR1) ∧
          mR1.pid_set_ = true ∧ mR1.segment_infos_ = mR.segment_infos_ := by
  rcases MemoryAccessor.CheckSegBoundaries_cases m num start amount hpid with
    ⟨_, hb⟩ | ⟨seg, _, _, hb⟩ | ⟨seg, a, hseg, hlt, hb⟩
  · obtain ⟨m2, he, _, _⟩ :=
      MemoryAccessor.WriteSegment_error m img srcp num start amount _ hpid hacc.1 hb
    rw [he] at hw
    cases hw
  · obtain ⟨m2, he, _, _⟩ :=
      MemoryAccessor.WriteSegment_error m img srcp num start amount _ hpid hacc.1 hb
    rw [he] at hw
    cases hw
  · obtain ⟨m2, m3, hp2, hs2, _, _, hr⟩ :=
      MemoryAccessor.WriteSegment_checked m img srcp num start amount a seg hpid hacc.1 hseg hb
    rw [if_pos (fun i _ => hacc.2.2 _)] at hr
    rw [hr] at hw
    simp only [Prod.mk.injEq, Except.ok.injEq] at hw
    obtain ⟨ha, himg, hm⟩ := hw
    subst ha
    subst hm
    refine ⟨seg, hseg, hlt,
      (CheckSegBoundaries_ok_shape m num start amount a seg hpid hseg hamount hb).2,
      himg.symm, hp2, hs2, ?_⟩
    intro mR imgR buf dstp hpR hsR haccR
    have hbR : mR.CheckSegBoundaries num start amount = .ok a := by
      rw [MemoryAccessor.CheckSegBoundaries_congr m mR (by rw [hpR, hpid]) hsR]
      exact hb
    obtain ⟨mR1, mR2, hp1, hs1, _, _, hrR⟩ :=
      MemoryAccessor.ReadSegment_checked mR imgR buf dstp num start amount a seg hpR haccR.1
        (by rw [hsR]; exact hseg) hbR
    rw [if_pos (fun i _ => haccR.2.1 _)] at hrR
    exact ⟨mR1, hrR, hp1, hs1⟩

theorem AllAccess_blit (img : MemImage) (pos : Nat) (srcp : Ptr) (r : Nat)
    (h : AllAccess img) : AllAccess { img with bytes := (blit img.bytes pos srcp r) } :=
  ⟨h.1, h.2.1, h.2.2⟩

/-- In a well-formed map the segment after index `cur` starts at or after the end of
segment `cur`. -/
theorem SegmentMapOk.next_start (segs : List SegmentInfo) (hok : SegmentMapOk segs)
    (cur : Nat) (sc s : SegmentInfo) (hc : segs[cur]? = some sc)
    (hn : segs[cur + 1]? = some s) : sc.end_ ≤ s.start := by
  obtain ⟨hcl, hcs⟩ := List.getElem?_eq_some_iff.mp hc
  obtain ⟨hnl, hns⟩ := List.getElem?_eq_some_iff.mp hn
  have := List.pairwise_iff_getElem.mp hok.2 cur (cur + 1) hcl hnl (by omega)
  rw [hcs, hns] at this
  exact this

/-- The loops of `Write` and `Read` run in lockstep: when the loop of `Write` ends
normally from a state, the loop of `Read`, run from the same state on the image `Write`
left, ends normally with the same `done_amount` and has copied back the source bytes. -/
theorem Write_then_Read_loop (src : Ptr) (dst : Nat) :
    ∀ (fuel : Nat) (m : MemoryAccessor) (img : MemImage) (cur amount done : Nat)
      (img2 : MemImage) (d2 : Nat) (m2 : MemoryAccessor),
      m.pid_set_ = true → SegmentMapOk m.segment_infos_ → AllAccess img →
      amount + done < SIZE →
      MemoryAccessor.Write.loop src fuel m img cur amount done = (.ok (), img2, d2, m2) →
      d2 = done + amount ∧ AllAccess img2 ∧
      m2.pid_set_ = true ∧ m2.segment_infos_ = m.segment_infos_ ∧
      (∀ x, (∀ s, m.segment_infos_[cur]? = some s → x < s.start) →
        img2.bytes x = img.bytes x) ∧
      ∀ (mR : MemoryAccessor) (buf : Ptr), mR.pid_set_ = true →
        mR.segment_infos_ = m.segment_infos_ →
        ∃ buf2 mR2, MemoryAccessor.Read.loop img2 dst fuel mR buf cur amount done
            = (.ok (), buf2, d2, mR2) ∧
          (∀ i, done ≤ i → i < d2 → buf2 (dst + i) = src i) ∧
          (∀ j, j < dst + done ∨ dst + d2 ≤ j → buf2 j = buf j) := by
  intro fuel
  induction fuel with
  | zero =>
    intro m img cur amount done img2 d2 m2 hpid hok hacc hsum hw
    by_cases h0 : amount = 0
    · subst h0
      rw [MemoryAccessor.Write_loop_done] at hw
      simp only [Prod.mk.injEq, true_and] at hw
      obtain ⟨h1, h2, h3⟩ := hw
      subst h1 h2 h3
      refine ⟨rfl, hacc, hpid, rfl, fun _ _ => rfl,
        fun mR buf _ _ => ⟨buf, mR, ?_, ?_, fun _ _ => rfl⟩⟩
      · rw [MemoryAccessor.Read_loop_done]
      · intro i h1 h2; omega
    · simp [MemoryAccessor.Write.loop, h0] at hw
  | succ fuel ih =>
    intro m img cur amount done img2 d2 m2 hpid hok hacc hsum hw
    by_cases h0 : amount = 0
    · subst h0
      rw [MemoryAccessor.Write_loop_done] at hw
      simp only [Prod.mk.injEq, true_and] at hw
      obtain ⟨h1, h2, h3⟩ := hw
      subst h1 h2 h3
      refine ⟨rfl, hacc, hpid, rfl, fun _ _ => rfl,
        fun mR buf _ _ => ⟨buf, mR, ?_, ?_, fun _ _ => rfl⟩⟩
      · rw [MemoryAccessor.Read_loop_done]
      · intro i h1 h2; omega
    · cases hp : m.segment_infos_[cur - 1]? with
      | none => simp [MemoryAccessor.Write.loop, h0, hp] at hw
      | some sp =>
        cases hc : m.segment_infos_[cur]? with
        | none => simp [MemoryAccessor.Write.loop, h0, hp, hc] at hw
        | some sc =>
          by_cases hcont : sp.end_ = sc.start
          · rw [MemoryAccessor.Write_loop_step src fuel m img cur amount done sp sc h0 hp hc
              hcont] at hw
            rcases hws : m.WriteSegment img (ptrAdd src done) cur 0 amount with ⟨res, img1, m1⟩
            rw [hws] at hw
            cases res with
            | error e => simp at hw
            | ok ret =>
              simp only at hw
              obtain ⟨seg, hseg, hlt, hshape, himg1, hp1, hs1, hread⟩ :=
                WriteSegment_then_ReadSegment m img (ptrAdd src done) cur 0 amount ret img1 m1
                  hpid hacc (by omega) hws
              rw [hc] at hseg
              cases hseg
              obtain ⟨hsc, hsce⟩ := hok.1 sc (List.getElem?_mem hc)
              rw [sub64_eq sc.end_ sc.start (by omega) hsce] at hshape hlt
              rw [add64_eq sc.start 0 (by omega), Nat.add_zero] at himg1
              have hret : ret ≤ amount := by omega
              rw [sub64_eq amount ret hret (by omega), add64_eq done ret (by omega)] at hw
              have hacc1 : AllAccess img1 := by
                rw [himg1]; exact AllAccess_blit img _ _ _ hacc
              obtain ⟨hd2, hacc2, hp2, hs2, hframe2, hrd⟩ := ih m1 img1 (cur + 1) (amount - ret)
                (done + ret) img2 d2 m2 hp1 (by rw [hs1]; exact hok) hacc1 (by omega) hw
              have hnext : ∀ s, m1.segment_infos_[cur + 1]? = some s → sc.end_ ≤ s.start := by
                intro s hs
                rw [hs1] at hs
                exact SegmentMapOk.next_start _ hok cur sc s hc hs
              -- the bytes written in this step are still there at the end
              have hkeep : ∀ t, t < ret → img2.bytes (sc.start + t) = src (done + t) := by
                intro t ht
                have h1 : img2.bytes (sc.start + t) = img1.bytes (sc.start + t) := by
                  rcases hshape with he | ⟨he, hlt2⟩
                  · subst he
                    rw [Nat.sub_self, MemoryAccessor.Write_loop_done] at hw
                    simp only [Prod.mk.injEq, true_and] at hw
                    rw [← hw.1]
                  · apply hframe2
                    intro s hs
                    have := hnext s hs
                    omega
                rw [h1, himg1]
                simp only
                rw [blit_inside _ _ _ _ _ ht]
                simp [ptrAdd]
              refine ⟨by omega, hacc2, hp2, by rw [hs2, hs1], ?_, ?_⟩
              · intro x hx
                have hxs := hx sc rfl
                rw [hframe2 x (fun s hs => by have := hnext s hs; omega), himg1]
                simp only
                rw [blit_outside _ _ _ _ _ (Or.inl hxs)]
              · intro mR buf hpR hsR
                obtain ⟨mR1, hrs, hpR1, hsR1⟩ := hread mR img2 buf (dst + done) hpR hsR hacc2
                rw [add64_eq sc.start 0 (by omega), Nat.add_zero] at hrs
                obtain ⟨buf2, mR2, hrl, hb1, hb2⟩ := hrd mR1 _ hpR1 (by rw [hsR1, hsR, hs1])
                refine ⟨buf2, mR2, ?_, ?_, ?_⟩
                · rw [MemoryAccessor.Read_loop_step img2 dst fuel mR buf cur amount done sp sc h0
                    (by rw [hsR]; exact hp) (by rw [hsR]; exact hc) hcont, hrs]
                  simp only
                  rw [sub64_eq amount ret hret (by omega), add64_eq done ret (by omega)]
                  exact hrl
                · intro i hi1 hi2
                  by_cases hi : done + ret ≤ i
                  · exact hb1 i hi hi2
                  · rw [hb2 (dst + i) (Or.inl (by omega)),
                      show dst + i = dst + done + (i - done) by omega,
                      blit_inside _ _ _ _ _ (by omega)]
                    simp only [ptrAdd]
                    rw [hkeep (i - done) (by omega)]
                    congr 1
                    omega
                · intro j hj
                  rw [hb2 j (by omega), blit_outside _ _ _ _ _ (by omega)]
          · simp [MemoryAccessor.Write.loop, h0, hp, hc, hcont] at hw

/-- C11: over a memory image in which every access is permitted, if
`Write(src, a, n, done)` completes with `done == n`, then the immediately following
`Read(dst, a, n, done2)` on the same object (same segment map, meeting the data-model
invariants) completes with `done2 == n` and `dst[0..n)` equal to `src[0..n)` byte for
byte, within one segment and across contiguous segments; and if
`WriteSegment(src, num, start, amount)` returns `r`, the following
`ReadSegment(dst, num, start, amount)` returns `r` and delivers `src[0..r)`. -/
theorem C11_write_then_read (m : MemoryAccessor) (img : MemImage) (src buf : Ptr) (dst : Nat)
    (hacc : AllAccess img) :
    (∀ (a n d0 d1 dW : Nat) (img2 : MemImage) (mW : MemoryAccessor),
      SegmentMapOk m.segment_infos_ → n < SIZE →
      m.Write img src a n d0 = (.ok (), img2, dW, mW) → dW = n →
      ∃ buf2 mR, mW.Read img2 buf dst a n d1 = (.ok (), buf2, n, mR) ∧
        ∀ i, i < n → buf2 (dst + i) = src i) ∧
    (∀ (num start amount r : Nat) (imgS : MemImage) (mS : MemoryAccessor),
      amount < SIZE → m.WriteSegment img src num start amount = (.ok r, imgS, mS) →
      ∃ bufS mS2, mS.ReadSegment imgS buf dst num start amount = (.ok r, bufS, mS2) ∧
        ∀ i, i < r → bufS (dst + i) = src i) := by
  constructor
  · intro a n d0 d1 dW img2 mW hok hn hw hdW
    have hpid : m.pid_set_ = true := by
      cases h : m.pid_set_
      · simp [MemoryAccessor.Write, MemoryAccessor.CheckPid, h] at hw
      · rfl
    cases hA : m.AddressInSegment a with
    | error e => simp [MemoryAccessor.Write, MemoryAccessor.CheckPid, hpid, hA] at hw
    | ok k =>
      obtain ⟨k2, sk, hk2, hk, hlt⟩ := MemoryAccessor.AddressInSegment_loop_sound a _ 0 k hA
      rw [Nat.zero_add] at hk2
      subst hk2
      rw [MemoryAccessor.Write_start m img src a n d0 k sk hpid hA hk] at hw
      rcases hws : m.WriteSegment img src k (sub64 a sk.start) n with ⟨res, img1, m1⟩
      rw [hws] at hw
      cases res with
      | error e => simp at hw
      | ok ret =>
        simp only at hw
        obtain ⟨seg, hseg, hoff, hshape, himg1, hp1, hs1, hread⟩ :=
          WriteSegment_then_ReadSegment m img src k (sub64 a sk.start) n ret img1 m1
            hpid hacc hn hws
        rw [hk] at hseg
        cases hseg
        obtain ⟨hsk, hske⟩ := hok.1 sk (List.getElem?_mem hk)
        rw [sub64_eq sk.end_ sk.start (by omega) hske] at hshape hoff
        rw [add64_eq sk.start _ (by omega)] at himg1
        have hret : ret ≤ n := by omega
        rw [sub64_eq n ret hret hn, add64_eq 0 ret (by omega), Nat.zero_add] at hw
        have hacc1 : AllAccess img1 := by
          rw [himg1]; exact AllAccess_blit img _ _ _ hacc
        obtain ⟨hd2, hacc2, hp2, hs2, hframe2, hrd⟩ := Write_then_Read_loop src dst
          (m.segment_infos_.length - (k + 1)) m1 img1 (k + 1) (n - ret) ret img2 dW mW hp1
          (by rw [hs1]; exact hok) hacc1 (by omega) hw
        have hkeep : ∀ t, t < ret →
            img2.bytes (sk.start + sub64 a sk.start + t) = src t := by
          intro t ht
          have h1 : img2.bytes (sk.start + sub64 a sk.start + t)
              = img1.bytes (sk.start + sub64 a sk.start + t) := by
            rcases hshape with he | ⟨he, hlt2⟩
            · subst he
              rw [Nat.sub_self, MemoryAccessor.Write_loop_done] at hw
              simp only [Prod.mk.injEq, true_and] at hw
              rw [← hw.1]
            · apply hframe2
              intro s hs
              rw [hs1] at hs
              have := SegmentMapOk.next_start _ hok k sk s hk hs
              omega
          rw [h1, himg1]
          simp only
          rw [blit_inside _ _ _ _ _ ht]
        have hsW : mW.segment_infos_ = m.segment_infos_ := by rw [hs2, hs1]
        have hAW : mW.AddressInSegment a = .ok k := by
          unfold MemoryAccessor.AddressInSegment at hA ⊢
          rw [hsW]
          exact hA
        obtain ⟨mR1, hrs, hpR1, hsR1⟩ := hread mW img2 buf dst hp2 hsW hacc2
        rw [add64_eq sk.start _ (by omega)] at hrs
        obtain ⟨buf2, mR2, hrl, hb1, hb2⟩ := hrd mR1 _ hpR1 (by rw [hsR1, hsW, hs1])
        refine ⟨buf2, mR2, ?_, ?_⟩
        · rw [MemoryAccessor.Read_start mW img2 buf dst a n d1 k sk hp2 hAW
            (by rw [hsW]; exact hk), hrs]
          simp only
          rw [sub64_eq n ret hret hn, add64_eq 0 ret (by omega), Nat.zero_add, hsW, hrl, hdW]
        · intro i hi
          by_cases hir : ret ≤ i
          · exact hb1 i hir (by omega)
          · rw [hb2 (dst + i) (Or.inl (by omega)), blit_inside _ _ _ _ _ (by omega)]
            simp only [ptrAdd]
            exact hkeep i (by omega)
  · intro num start amount r imgS mS hamount hw
    have hpid : m.pid_set_ = true := by
      cases h : m.pid_set_
      · rw [MemoryAccessor.WriteSegment_unset m img src num start amount h] at hw
        cases hw
      · rfl
    obtain ⟨seg, hseg, hoff, hshape, himg1, hp1, hs1, hread⟩ :=
      WriteSegment_then_ReadSegment m img src num start amount r imgS mS hpid hacc hamount hw
    have haccS : AllAccess imgS := by
      rw [himg1]; exact AllAccess_blit img _ _ _ hacc
    obtain ⟨mR1, hrs, _, _⟩ := hread mS imgS buf dst hp1 hs1 haccS
    refine ⟨_, mR1, hrs, ?_⟩
    intro i hi
    rw [blit_inside _ _ _ _ _ hi, himg1]
    simp only [ptrAdd]
    rw [blit_inside _ _ _ _ _ hi]

/-! ## Permissions -/

example : Tools.DecodePermissions "---p".toList = 0 := by decide
example : Tools.DecodePermissions "rwxs".toList = 15 := by decide
example : Tools.DecodePermissions "rwxp123456".toList = 14 := by decide
example : Tools.DecodePermissions "r".toList = 255 := by decide
example : Tools.DecodePermissions "rwxa".toList = 255 := by decide
example : Tools.EncodePermissions 20 = "-w-p".toList := by decide
example : Tools.EncodePermissions 13 = "rw-s".toList := by decide

/-- C17: for every mask `m` in 0..15, `DecodePermissions(EncodePermissions(m)) = m`. -/
theorem C17_permissions_round_trip (m : Nat) (hm : m < 16) :
    Tools.DecodePermissions (Tools.EncodePermissions m) = m := by
  interval_cases m <;> decide

/-- C17 at the mask 11 ("r-xs"). -/
theorem C17_permissions_round_trip_witness :
    11 < 16 ∧ Tools.DecodePermissions (Tools.EncodePermissions 11) = 11 :=
  ⟨by decide, C17_permissions_round_trip 11 (by decide)⟩

set_option maxRecDepth 20000 in
/-- C19: for every 8-bit value `m`, `EncodePermissions(m) = EncodePermissions(m mod 16)`
and the result has exactly four characters. -/
theorem C19_encode_low_bits (m : Nat) (hm : m < 256) :
    Tools.EncodePermissions m = Tools.EncodePermissions (m % 16) ∧
    (Tools.EncodePermissions m).length = 4 := by
  revert m
  decide

/-- C19 at the value 20, which encodes as "-w-p" like 4. -/
theorem C19_encode_low_bits_witness :
    20 < 256 ∧ Tools.EncodePermissions 20 = ['-', 'w', '-', 'p'] ∧
    (Tools.EncodePermissions 20 = Tools.EncodePermissions (20 % 16) ∧
      (Tools.EncodePermissions 20).length = 4) :=
  ⟨by decide, by decide, C19_encode_low_bits 20 (by decide)⟩

/-- Closed form of `DecodePermissions` on a token of at least four characters. -/
theorem DecodePermissions_four (a b c d : Char) (rest : List Char) :
    Tools.DecodePermissions (a :: b :: c :: d :: rest) =
      if (a = 'r' ∨ a = '-') ∧ (b = 'w' ∨ b = '-') ∧ (c = 'x' ∨ c = '-') ∧ (d = 's' ∨ d = 'p')
      then (if a = 'r' then 8 else 0) + (if b = 'w' then 4 else 0) + (if c = 'x' then 2 else 0)
        + (if d = 's' then 1 else 0)
      else 255 := by
  have hlen : ¬ (Tools.kModesLength > (a :: b :: c :: d :: rest).length) := by
    simp [Tools.kModesLength]
  unfold Tools.DecodePermissions
  rw [if_neg hlen]
  simp only [Tools.kModesLength, Tools.DecodePermissions.loop, charAt, Tools.kModes,
    List.getD_cons_zero, List.getD_cons_succ]
  by_cases ha : a = 'r' <;> by_cases ha2 : a = '-' <;> by_cases hb : b = 'w' <;>
    by_cases hb2 : b = '-' <;> by_cases hc : c = 'x' <;> by_cases hc2 : c = '-' <;>
    by_cases hd : d = 's' <;> by_cases hd2 : d = 'p' <;>
    simp [ha, ha2, hb, hb2, hc, hc2, hd, hd2]

theorem DecodePermissions_short (s : List Char) (h : s.length < 4) :
    Tools.DecodePermissions s = 255 := by
  unfold Tools.DecodePermissions
  simp [Tools.kModesLength, h]

/-- C18: for every string `s`, `DecodePermissions(s)` returns the sentinel 255 exactly
when `s` has fewer than 4 characters, or `s[0]` is not in {r,-}, or `s[1]` is not in
{w,-}, or `s[2]` is not in {x,-}, or `s[3]` is not in {s,p}; otherwise it returns a value
in 0..15 whose bits 8, 4, 2, 1 are set exactly when `s[0]='r'`, `s[1]='w'`, `s[2]='x'`,
`s[3]='s'`, whatever characters follow the fourth.  "---p" gives 0, "rwxs" 15,
"rwxp123456" 14, "r" and "rwxa" give 255. -/
theorem C18_decode_permissions (s : List Char) :
    (Tools.DecodePermissions s = 255 ↔
      (s.length < 4 ∨ ¬ (charAt s 0 = 'r' ∨ charAt s 0 = '-') ∨
        ¬ (charAt s 1 = 'w' ∨ charAt s 1 = '-') ∨ ¬ (charAt s 2 = 'x' ∨ charAt s 2 = '-') ∨
        ¬ (charAt s 3 = 's' ∨ charAt s 3 = 'p'))) ∧
    (Tools.DecodePermissions s ≠ 255 →
      Tools.DecodePermissions s < 16 ∧
      Tools.DecodePermissions s =
        (if charAt s 0 = 'r' then 8 else 0) + (if charAt s 1 = 'w' then 4 else 0) +
        (if charAt s 2 = 'x' then 2 else 0) + (if charAt s 3 = 's' then 1 else 0)) ∧
    Tools.DecodePermissions s = Tools.DecodePermissions (s.take 4) ∧
    (Tools.DecodePermissions ['-', '-', '-', 'p'] = 0 ∧
      Tools.DecodePermissions ['r', 'w', 'x', 's'] = 15 ∧
      Tools.DecodePermissions ['r', 'w', 'x', 'p', '1', '2', '3', '4', '5', '6'] = 14 ∧
      Tools.DecodePermissions ['r'] = 255 ∧
      Tools.DecodePermissions ['r', 'w', 'x', 'a'] = 255) := by
  refine ⟨?_, ?_, ?_, by decide⟩
  · match s with
    | [] => simp [DecodePermissions_short]
    | [a] => simp [DecodePermissions_short]
    | [a, b] => simp [DecodePermissions_short]
    | [a, b, c] => simp [DecodePermissions_short]
    | a :: b :: c :: d :: rest =>
      rw [DecodePermissions_four a b c d rest]
      simp only [charAt, List.getD_cons_zero, List.getD_cons_succ, List.length_cons]
      by_cases h : (a = 'r' ∨ a = '-') ∧ (b = 'w' ∨ b = '-') ∧ (c = 'x' ∨ c = '-') ∧
          (d = 's' ∨ d = 'p')
      · rw [if_pos h]
        obtain ⟨h1, h2, h3, h4⟩ := h
        constructor
        · intro h255
          exfalso
          split_ifs at h255 <;> omega
        · intro hor
          exfalso
          rcases hor with h5 | h5 | h5 | h5 | h5
          · omega
          · exact h5 h1
          · exact h5 h2
          · exact h5 h3
          · exact h5 h4
      · rw [if_neg h]
        simp only [true_iff]
        right
        simpa only [not_and_or] using h
  · match s with
    | [] => simp [DecodePermissions_short]
    | [a] => simp [DecodePermissions_short]
    | [a, b] => simp [DecodePermissions_short]
    | [a, b, c] => simp [DecodePermissions_short]
    | a :: b :: c :: d :: rest =>
      rw [DecodePermissions_four a b c d rest]
      simp only [charAt, List.getD_cons_zero, List.getD_cons_succ]
      intro hne
      by_cases h : (a = 'r' ∨ a = '-') ∧ (b = 'w' ∨ b = '-') ∧ (c = 'x' ∨ c = '-') ∧
          (d = 's' ∨ d = 'p')
      · rw [if_pos h]
        refine ⟨?_, rfl⟩
        split_ifs <;> omega
      · rw [if_neg h] at hne
        exact absurd rfl hne
  · match s with
    | [] => rfl
    | [a] => rfl
    | [a, b] => rfl
    | [a, b, c] => rfl
    | a :: b :: c :: d :: rest =>
      have htake : (a :: b :: c :: d :: rest).take 4 = [a, b, c, d] := by simp
      rw [htake, DecodePermissions_four a b c d rest, DecodePermissions_four a b c d []]

/-- C11 on `demoSegments`: four bytes written at 0x1002 across the first two segments
are read back unchanged. -/
theorem C11_write_then_read_witness :
    AllAccess demoImage ∧
    (demoAccessor.Write demoImage (ofList [9, 8, 7, 6]) 4098 4 0).1 = .ok () ∧
    ∃ buf2 mR, (demoAccessor.Write demoImage (ofList [9, 8, 7, 6]) 4098 4 0).2.2.2.Read
        (demoAccessor.Write demoImage (ofList [9, 8, 7, 6]) 4098 4 0).2.1 (fun _ => 0) 0 4098 4 0
          = (.ok (), buf2, 4, mR) ∧
      ∀ i, i < 4 → buf2 (0 + i) = ofList [9, 8, 7, 6] i :=
  ⟨⟨rfl, fun _ => rfl, fun _ => rfl⟩, by decide,
    (C11_write_then_read demoAccessor demoImage (ofList [9, 8, 7, 6]) (fun _ => 0) 0
      ⟨rfl, fun _ => rfl, fun _ => rfl⟩).1 4098 4 0 0 4 _ _ (by decide) (by decide)
      (Prod.ext (by decide) (Prod.ext rfl (Prod.ext (by decide) rfl))) rfl⟩

/-! ## ParseMaps: evaluations -/

example : (freshAccessor.ParseMaps
    (some ["00400000-00452000 r-xp 00000000 08:02 173521      /usr/bin/dbus-daemon".toList,
           "7ffc1000-7ffc2000 rw-p 00000000 00:00 0 [stack]".toList,
           "7ffd0000-7ffd1000 r--s 0000a000 fd:01 12".toList])).2.segment_infos_
    = [{ start := 4194304, end_ := 4530176, offset := 0, mode := 10, major_id := 8,
         minor_id := 2, inode_id := 173521, path := "/usr/bin/dbus-daemon" },
       { start := 2147225600, end_ := 2147229696, offset := 0, mode := 12, major_id := 0,
         minor_id := 0, inode_id := 0, path := "[stack]" },
       { start := 2147287040, end_ := 2147291136, offset := 40960, mode := 9, major_id := 253,
         minor_id := 1, inode_id := 12, path := "[stack]" }] := by
  decide

/-! ## The stream model: extractions refused after a failure -/

namespace IStream

theorem sentry_refused (s : IStream) (noskipws : Bool) (h : (s.sentry noskipws).2 = false) :
    (s.sentry noskipws).1.failbit = true := by
  unfold sentry at h ⊢
  by_cases hg : (!s.good) = true
  · simp [hg]
  · simp only [hg, if_false] at h ⊢
    by_cases hn : noskipws = true
    · simp [hn] at h
    · simp only [hn, if_false] at h ⊢
      cases hd : s.rest.dropWhile isspace with
      | nil => simp
      | cons c cs => rw [hd] at h; simp at h

theorem sentry_of_failed (s : IStream) (noskipws : Bool) (h : s.failbit = true) :
    s.sentry noskipws = ({ s with failbit := true }, false) := by
  simp [sentry, good, h]

theorem extractUnsigned_stream (s : IStream) (bits old old2 : Nat) :
    (s.extractUnsigned bits old).1 = (s.extractUnsigned bits old2).1 := by
  unfold extractUnsigned
  rcases h : s.sentry false with ⟨s1, ok⟩
  cases ok <;> rfl

theorem extractUnsigned_value (s : IStream) (bits old old2 : Nat)
    (h : (s.extractUnsigned bits old).1.failbit = false) :
    (s.extractUnsigned bits old).2 = (s.extractUnsigned bits old2).2 := by
  unfold extractUnsigned at h ⊢
  have hr := sentry_refused s false
  rcases hs : s.sentry false with ⟨s1, ok⟩
  rw [hs] at h hr
  cases ok
  · simp only [forall_const] at h hr
    rw [hr] at h
    cases h
  · rfl

theorem extractUnsigned_sticky (s : IStream) (bits old : Nat) (h : s.failbit = true) :
    (s.extractUnsigned bits old).1.failbit = true := by
  unfold extractUnsigned
  rw [sentry_of_failed s false h]

theorem extractChar_stream (s : IStream) (old old2 : Char) :
    (s.extractChar old).1 = (s.extractChar old2).1 := by
  unfold extractChar
  rcases h : s.sentry false with ⟨s1, ok⟩
  cases ok
  · rfl
  · simp only
    cases s1.rest <;> rfl

theorem extractChar_value (s : IStream) (old old2 : Char)
    (h : (s.extractChar old).1.failbit = false) :
    (s.extractChar old).2 = (s.extractChar old2).2 := by
  unfold extractChar at h ⊢
  have hr := sentry_refused s false
  rcases hs : s.sentry false with ⟨s1, ok⟩
  rw [hs] at h hr
  cases ok
  · simp only [forall_const] at h hr
    rw [hr] at h
    cases h
  · simp only at h ⊢
    cases hrest : s1.rest with
    | nil =>
      rw [hrest] at h
      simp at h
    | cons c cs => rfl

theorem extractChar_sticky (s : IStream) (old : Char) (h : s.failbit = true) :
    (s.extractChar old).1.failbit = true := by
  unfold extractChar
  rw [sentry_of_failed s false h]

theorem extractString_stream (s : IStream) (old old2 : List Char) :
    (s.extractString old).1 = (s.extractString old2).1 := by
  unfold extractString
  rcases h : s.sentry false with ⟨s1, ok⟩
  cases ok <;> rfl

theorem extractString_value (s : IStream) (old old2 : List Char)
    (h : (s.extractString old).1.failbit = false) :
    (s.extractString old).2 = (s.extractString old2).2 := by
  unfold extractString at h ⊢
  have hr := sentry_refused s false
  rcases hs : s.sentry false with ⟨s1, ok⟩
  rw [hs] at h hr
  cases ok
  · simp only [forall_const] at h hr
    rw [hr] at h
    cases h
  · rfl

theorem extractString_sticky (s : IStream) (old : List Char) (h : s.failbit = true) :
    (s.extractString old).1.failbit = true := by
  unfold extractString
  rw [sentry_of_failed s false h]

end IStream

/-! ## ParseMaps: the extraction chain and the loop -/

namespace MemoryAccessor

/-- What the extraction chain leaves in the stream does not depend on the previous
values of the variables, and when it ends without `failbit` neither do the values it
stored: every extraction succeeded. -/
theorem ParseMaps_extract_indep (loc loc2 : ParseLocals) (line : List Char) :
    (ParseMaps.extract loc line).1 = (ParseMaps.extract loc2 line).1 ∧
    ((ParseMaps.extract loc line).1.failbit = false →
      (ParseMaps.extract loc line).2.segmentInfo.start
          = (ParseMaps.extract loc2 line).2.segmentInfo.start ∧
      (ParseMaps.extract loc line).2.segmentInfo.end_
          = (ParseMaps.extract loc2 line).2.segmentInfo.end_ ∧
      (ParseMaps.extract loc line).2.segmentInfo.offset
          = (ParseMaps.extract loc2 line).2.segmentInfo.offset ∧
      (ParseMaps.extract loc line).2.segmentInfo.major_id
          = (ParseMaps.extract loc2 line).2.segmentInfo.major_id ∧
      (ParseMaps.extract loc line).2.segmentInfo.minor_id
          = (ParseMaps.extract loc2 line).2.segmentInfo.minor_id ∧
      (ParseMaps.extract loc line).2.segmentInfo.inode_id
          = (ParseMaps.extract loc2 line).2.segmentInfo.inode_id ∧
      (ParseMaps.extract loc line).2.trash = (ParseMaps.extract loc2 line).2.trash ∧
      (ParseMaps.extract loc line).2.permissions
          = (ParseMaps.extract loc2 line).2.permissions) := by
  unfold ParseMaps.extract
  simp only
  generalize ({ rest := line, base := 16 } : IStream) = iss
  have h1 := IStream.extractUnsigned_stream iss 64 loc.segmentInfo.start loc2.segmentInfo.start
  have v1 := IStream.extractUnsigned_value iss 64 loc.segmentInfo.start loc2.segmentInfo.start
  have k1 := IStream.extractUnsigned_sticky iss 64 loc.segmentInfo.start
  generalize IStream.extractUnsigned iss 64 loc.segmentInfo.start = A1 at *
  generalize IStream.extractUnsigned iss 64 loc2.segmentInfo.start = B1 at *
  simp only [h1] at v1 k1 ⊢
  have h2 := IStream.extractChar_stream B1.1 loc.trash loc2.trash
  have v2 := IStream.extractChar_value B1.1 loc.trash loc2.trash
  have k2 := IStream.extractChar_sticky B1.1 loc.trash
  generalize IStream.extractChar B1.1 loc.trash = A2 at *
  generalize IStream.extractChar B1.1 loc2.trash = B2 at *
  simp only [h2] at v2 k2 ⊢
  have h3 := IStream.extractUnsigned_stream B2.1 64 loc.segmentInfo.end_ loc2.segmentInfo.end_
  have v3 := IStream.extractUnsigned_value B2.1 64 loc.segmentInfo.end_ loc2.segmentInfo.end_
  have k3 := IStream.extractUnsigned_sticky B2.1 64 loc.segmentInfo.end_
  generalize IStream.extractUnsigned B2.1 64 loc.segmentInfo.end_ = A3 at *
  generalize IStream.extractUnsigned B2.1 64 loc2.segmentInfo.end_ = B3 at *
  simp only [h3] at v3 k3 ⊢
  have h4 := IStream.extractString_stream B3.1 loc.permissions loc2.permissions
  have v4 := IStream.extractString_value B3.1 loc.permissions loc2.permissions
  have k4 := IStream.extractString_sticky B3.1 loc.permissions
  generalize IStream.extractString B3.1 loc.permissions = A4 at *
  generalize IStream.extractString B3.1 loc2.permissions = B4 at *
  simp only [h4] at v4 k4 ⊢
  have h5 := IStream.extractUnsigned_stream B4.1 64 loc.segmentInfo.offset loc2.segmentInfo.offset
  have v5 := IStream.extractUnsigned_value B4.1 64 loc.segmentInfo.offset loc2.segmentInfo.offset
  have k5 := IStream.extractUnsigned_sticky B4.1 64 loc.segmentInfo.offset
  generalize IStream.extractUnsigned B4.1 64 loc.segmentInfo.offset = A5 at *
  generalize IStream.extractUnsigned B4.1 64 loc2.segmentInfo.offset = B5 at *
  simp only [h5] at v5 k5 ⊢
  have h6 := IStream.extractUnsigned_stream B5.1 32 loc.segmentInfo.major_id loc2.segmentInfo.major_id
  have v6 := IStream.extractUnsigned_value B5.1 32 loc.segmentInfo.major_id loc2.segmentInfo.major_id
  have k6 := IStream.extractUnsigned_sticky B5.1 32 loc.segmentInfo.major_id
  generalize IStream.extractUnsigned B5.1 32 loc.segmentInfo.major_id = A6 at *
  generalize IStream.extractUnsigned B5.1 32 loc2.segmentInfo.major_id = B6 at *
  simp only [h6] at v6 k6 ⊢
  have h7 := IStream.extractChar_stream B6.1 A2.2 B2.2
  have v7 := IStream.extractChar_value B6.1 A2.2 B2.2
  have k7 := IStream.extractChar_sticky B6.1 A2.2
  generalize IStream.extractChar B6.1 A2.2 = A7 at *
  generalize IStream.extractChar B6.1 B2.2 = B7 at *
  simp only [h7] at v7 k7 ⊢
  have h8 := IStream.extractUnsigned_stream B7.1 32 loc.segmentInfo.minor_id loc2.segmentInfo.minor_id
  have v8 := IStream.extractUnsigned_value B7.1 32 loc.segmentInfo.minor_id loc2.segmentInfo.minor_id
  have k8 := IStream.extractUnsigned_sticky B7.1 32 loc.segmentInfo.minor_id
  generalize IStream.extractUnsigned B7.1 32 loc.segmentInfo.minor_id = A8 at *
  generalize IStream.extractUnsigned B7.1 32 loc2.segmentInfo.minor_id = B8 at *
  simp only [h8] at v8 k8 ⊢
  have h9 := IStream.extractUnsigned_stream ({ B8.1 with base := 10 } : IStream) 64 loc.segmentInfo.inode_id loc2.segmentInfo.inode_id
  have v9 := IStream.extractUnsigned_value ({ B8.1 with base := 10 } : IStream) 64 loc.segmentInfo.inode_id loc2.segmentInfo.inode_id
  have k9 := IStream.extractUnsigned_sticky ({ B8.1 with base := 10 } : IStream) 64 loc.segmentInfo.inode_id
  generalize IStream.extractUnsigned ({ B8.1 with base := 10 } : IStream) 64 loc.segmentInfo.inode_id = A9 at *
  generalize IStream.extractUnsigned ({ B8.1 with base := 10 } : IStream) 64 loc2.segmentInfo.inode_id = B9 at *
  refine ⟨h9, fun hf => ?_⟩
  have f8 : B8.1.failbit = false := by
    cases h : B8.1.failbit
    · rfl
    · rw [k9 h] at hf; cases hf
  have f7 : B7.1.failbit = false := by
    cases h : B7.1.failbit
    · rfl
    · rw [k8 h] at f8; cases f8
  have f6 : B6.1.failbit = false := by
    cases h : B6.1.failbit
    · rfl
    · rw [k7 h] at f7; cases f7
  have f5 : B5.1.failbit = false := by
    cases h : B5.1.failbit
    · rfl
    · rw [k6 h] at f6; cases f6
  have f4 : B4.1.failbit = false := by
    cases h : B4.1.failbit
    · rfl
    · rw [k5 h] at f5; cases f5
  have f3 : B3.1.failbit = false := by
    cases h : B3.1.failbit
    · rfl
    · rw [k4 h] at f4; cases f4
  have f2 : B2.1.failbit = false := by
    cases h : B2.1.failbit
    · rfl
    · rw [k3 h] at f3; cases f3
  have f1 : B1.1.failbit = false := by
    cases h : B1.1.failbit
    · rfl
    · rw [k2 h] at f2; cases f2
  exact ⟨v1 f1, v3 f3, v5 f5, v6 f6, v8 f8, v9 hf, v7 f7, v4 f4⟩

end MemoryAccessor

namespace MemoryAccessor

theorem ParseMaps_push_segments (m : MemoryAccessor) (seg : SegmentInfo) :
    (ParseMaps.push m seg).segment_infos_ = m.segment_infos_ ++ [seg] := by
  unfold ParseMaps.push
  split <;> rfl

/-- A line is turned into a segment exactly when it is not rejected, and the segment
then carries the start and end values of the line. -/
theorem ParseMaps_line_spec (loc : ParseLocals) (line : List Char) :
    (LineRejected line → ParseMaps.line loc line = none) ∧
    (¬ LineRejected line → ∃ loc1, ParseMaps.line loc line = some loc1 ∧
      loc1.segmentInfo.start = lineStart line ∧ loc1.segmentInfo.end_ = lineEnd line) := by
  obtain ⟨hs, hv⟩ := ParseMaps_extract_indep loc {} line
  unfold LineRejected lineStart lineEnd
  constructor
  · intro hrej
    unfold ParseMaps.line
    simp only
    by_cases hf : (ParseMaps.extract loc line).1.failbit = true
    · simp [hf]
    · have hf2 : (ParseMaps.extract loc line).1.failbit = false := by
        simpa using hf
      have hp := (hv hf2).2.2.2.2.2.2.2
      rw [hs] at hf2
      rcases hrej with h | h
      · rw [h] at hf2; cases hf2
      · simp [hp, h]
  · intro hrej
    have hf2 : (ParseMaps.extract loc line).1.failbit = false := by
      rw [hs]
      cases h : (ParseMaps.extract {} line).1.failbit
      · rfl
      · exact absurd (Or.inl h) hrej
    have hall := hv hf2
    have hmode : ¬ (Tools.DecodePermissions (ParseMaps.extract loc line).2.permissions
        = INVALID_MODE) := by
      rw [hall.2.2.2.2.2.2.2]
      exact fun h => hrej (Or.inr h)
    unfold ParseMaps.line
    simp only [hf2, hmode, Bool.false_eq_true, or_self, if_false]
    split
    · exact ⟨_, rfl, hall.1, hall.2.1⟩
    · exact ⟨_, rfl, hall.1, hall.2.1⟩

theorem ParseMaps_loop_nil (loc : ParseLocals) (m : MemoryAccessor) :
    ParseMaps.loop [] loc m = (.ok (), m) := rfl

theorem ParseMaps_loop_cons (line : List Char) (lines : List (List Char)) (loc : ParseLocals)
    (m : MemoryAccessor) :
    ParseMaps.loop (line :: lines) loc m =
      match ParseMaps.line loc line with
      | none => (.error Ex.BadMapsEx, ResetSegments m)
      | some loc1 => ParseMaps.loop lines loc1 (ParseMaps.push m loc1.segmentInfo) := rfl

/-- The loop of `ParseMaps`: it ends normally exactly when no line is rejected, the
segments appended are those of the lines in order, and when it throws it throws
`BadMapsEx` and leaves both tables empty. -/
theorem ParseMaps_loop_spec :
    ∀ (lines : List (List Char)) (loc : ParseLocals) (m : MemoryAccessor),
      ((∃ l, l ∈ lines ∧ LineRejected l) →
        (ParseMaps.loop lines loc m).1 = .error Ex.BadMapsEx ∧
        (ParseMaps.loop lines loc m).2.segment_infos_ = [] ∧
        (ParseMaps.loop lines loc m).2.special_segment_found_ = []) ∧
      ((∀ l, l ∈ lines → ¬ LineRejected l) →
        (ParseMaps.loop lines loc m).1 = .ok () ∧
        (ParseMaps.loop lines loc m).2.segment_infos_.map (fun s => (s.start, s.end_))
          = m.segment_infos_.map (fun s => (s.start, s.end_))
            ++ lines.map (fun l => (lineStart l, lineEnd l))) := by
  intro lines
  induction lines with
  | nil =>
    intro loc m
    constructor
    · rintro ⟨l, hl, _⟩
      exact absurd hl (List.not_mem_nil l)
    · intro _
      rw [ParseMaps_loop_nil]
      simp
  | cons line lines ih =>
    intro loc m
    obtain ⟨hrej, hacc⟩ := ParseMaps_line_spec loc line
    by_cases hl : LineRejected line
    · have hnone := hrej hl
      refine ⟨fun _ => ?_, fun hall => absurd hl (hall line (by simp))⟩
      rw [ParseMaps_loop_cons, hnone]
      simp [ResetSegments]
    · obtain ⟨loc1, hsome, hst, hen⟩ := hacc hl
      obtain ⟨ih1, ih2⟩ := ih loc1 (ParseMaps.push m loc1.segmentInfo)
      constructor
      · rintro ⟨l, hmem, hr⟩
        have hmem2 : l ∈ lines := by
          rcases List.mem_cons.mp hmem with h | h
          · subst h; exact absurd hr hl
          · exact h
        rw [ParseMaps_loop_cons, hsome]
        simp only
        exact ih1 ⟨l, hmem2, hr⟩
      · intro hall
        rw [ParseMaps_loop_cons, hsome]
        simp only
        obtain ⟨h1, h2⟩ := ih2 (fun l hm => hall l (List.mem_cons_of_mem _ hm))
        refine ⟨h1, ?_⟩
        rw [h2, ParseMaps_push_segments]
        simp [hst, hen]

end MemoryAccessor

/-! ## C14, C15, C16: what ParseMaps accepts, rejects and publishes -/

/-- C14 (counterexample): ParseMaps succeeds on a listing whose only line has its end
below its start, and on a listing whose lines come in descending order; the segments are
stored as read, so the list is neither ascending nor made of segments with
`end > start`. -/
theorem C14_listing_not_checked :
    (freshAccessor.ParseMaps (some ["2000-1000 r--p 00000000 00:00 0".toList])).1 = .ok () ∧
    (freshAccessor.ParseMaps (some ["2000-1000 r--p 00000000 00:00 0".toList])).2.segment_infos_
      = [{ start := 8192, end_ := 4096, mode := 8 }] ∧
    (freshAccessor.ParseMaps (some ["3000-4000 r--p 00000000 00:00 0".toList,
        "1000-2000 r--p 00000000 00:00 0".toList])).1 = .ok () ∧
    ¬ (freshAccessor.ParseMaps (some ["3000-4000 r--p 00000000 00:00 0".toList,
        "1000-2000 r--p 00000000 00:00 0".toList])).2.segment_infos_.Pairwise
          (fun s1 s2 => s1.start < s2.start) := by
  decide

/-- C14 (amended): when ParseMaps succeeds, the segment list has one segment per line of
the listing, in line order, carrying the start and end read from that line; hence it is
strictly ascending by start with `end > start` everywhere exactly when the values read
from the lines are. -/
theorem C14_segments_follow_lines (m : MemoryAccessor) (lines : List (List Char))
    (h : (m.ParseMaps (some lines)).1 = .ok ()) :
    (m.ParseMaps (some lines)).2.segment_infos_.map (fun s => (s.start, s.end_))
      = lines.map (fun l => (lineStart l, lineEnd l)) ∧
    (((m.ParseMaps (some lines)).2.segment_infos_.Pairwise (fun s1 s2 => s1.start < s2.start) ∧
        ∀ s, s ∈ (m.ParseMaps (some lines)).2.segment_infos_ → s.start < s.end_) ↔
      (lines.Pairwise (fun l1 l2 => lineStart l1 < lineStart l2) ∧
        ∀ l, l ∈ lines → lineStart l < lineEnd l)) := by
  have hpid : m.pid_set_ = true := by
    cases hp : m.pid_set_
    · simp [MemoryAccessor.ParseMaps, MemoryAccessor.CheckPid, hp] at h
    · rfl
  simp only [MemoryAccessor.ParseMaps, MemoryAccessor.CheckPid, hpid, Bool.not_true,
    Bool.false_eq_true, if_false] at h ⊢
  generalize hm2 : (MemoryAccessor.ParseMaps.loop lines {} m.ResetSegments).2 = m2
  obtain ⟨hrej, hacc⟩ := MemoryAccessor.ParseMaps_loop_spec lines {} m.ResetSegments
  have hno : ∀ l, l ∈ lines → ¬ LineRejected l := by
    intro l hl hr
    have := (hrej ⟨l, hl, hr⟩).1
    rw [h] at this
    cases this
  have hmap := (hacc hno).2
  rw [hm2] at hmap
  simp only [MemoryAccessor.ResetSegments, List.map_nil, List.nil_append] at hmap
  refine ⟨hmap, ?_⟩
  have hp1 : m2.segment_infos_.Pairwise (fun s1 s2 => s1.start < s2.start) ↔
      (m2.segment_infos_.map (fun s => (s.start, s.end_))).Pairwise (fun a b => a.1 < b.1) := by
    rw [List.pairwise_map]
  have hp2 : lines.Pairwise (fun l1 l2 => lineStart l1 < lineStart l2) ↔
      (lines.map (fun l => (lineStart l, lineEnd l))).Pairwise (fun a b => a.1 < b.1) := by
    rw [List.pairwise_map]
  have ha1 : (∀ s, s ∈ m2.segment_infos_ → s.start < s.end_) ↔
      ∀ a, a ∈ m2.segment_infos_.map (fun s => (s.start, s.end_)) → a.1 < a.2 := by
    simp [List.mem_map]
  have ha2 : (∀ l, l ∈ lines → lineStart l < lineEnd l) ↔
      ∀ a, a ∈ lines.map (fun l => (lineStart l, lineEnd l)) → a.1 < a.2 := by
    simp [List.mem_map]
  rw [hp1, hp2, ha1, ha2, hmap]

theorem C14_segments_follow_lines_witness :
    (freshAccessor.ParseMaps (some ["1000-2000 r-xp 00000000 08:01 17 /bin/cat".toList,
        "2000-3000 rw-p 00001000 08:01 17 /bin/cat".toList])).1 = .ok () ∧
    (freshAccessor.ParseMaps (some ["1000-2000 r-xp 00000000 08:01 17 /bin/cat".toList,
        "2000-3000 rw-p 00001000 08:01 17 /bin/cat".toList])).2.segment_infos_.map
          (fun s => (s.start, s.end_)) = [(4096, 8192), (8192, 12288)] :=
  ⟨by decide,
   (C14_segments_follow_lines freshAccessor
      ["1000-2000 r-xp 00000000 08:01 17 /bin/cat".toList,
        "2000-3000 rw-p 00001000 08:01 17 /bin/cat".toList] (by decide)).1.trans (by decide)⟩

/-- C15 (counterexample): a line with `+` between start and end and `;` between major
and minor is accepted; the separator characters are read and never compared. -/
theorem C15_separators_not_checked :
    (freshAccessor.ParseMaps (some ["1000+2000 r--p 00000000 00;00 0".toList])).1 = .ok () ∧
    (freshAccessor.ParseMaps (some ["1000+2000 r--p 00000000 00;00 0".toList])).2.segment_infos_
      = [{ start := 4096, end_ := 8192, mode := 8 }] := by
  decide

/-- C15 (amended): with the PID set, ParseMaps fails with BadMapsEx exactly when the
listing has a rejected line, that is a line on which the extraction chain leaves the
stream failed (a field is missing or a number or token cannot be extracted) or whose
permission token DecodePermissions rejects; whatever the earlier lines left in the
locals does not matter. -/
theorem C15_rejected_line_fails (m : MemoryAccessor) (lines : List (List Char))
    (hpid : m.pid_set_ = true) :
    (m.ParseMaps (some lines)).1 = .error Ex.BadMapsEx ↔ ∃ l, l ∈ lines ∧ LineRejected l := by
  simp only [MemoryAccessor.ParseMaps, MemoryAccessor.CheckPid, hpid, Bool.not_true,
    Bool.false_eq_true, if_false]
  obtain ⟨hrej, hacc⟩ := MemoryAccessor.ParseMaps_loop_spec lines {} m.ResetSegments
  constructor
  · intro h
    by_contra hex
    have := (hacc (fun l hl hr => hex ⟨l, hl, hr⟩)).1
    rw [h] at this
    cases this
  · intro hex
    exact (hrej hex).1

theorem C15_rejected_line_fails_witness :
    LineRejected "1000-2000 r--p 00000000 00:00".toList ∧
    LineRejected "zz-2000 r--p 00000000 00:00 0".toList ∧
    LineRejected "1000-2000 rwxa 00000000 00:00 0".toList ∧
    (freshAccessor.ParseMaps (some ["1000-2000 r--p 00000000 00:00 0".toList,
        "1000-2000 rwxa 00000000 00:00 0".toList])).1 = .error Ex.BadMapsEx :=
  ⟨by decide, by decide, by decide,
   (C15_rejected_line_fails freshAccessor ["1000-2000 r--p 00000000 00:00 0".toList,
        "1000-2000 rwxa 00000000 00:00 0".toList] rfl).mpr
     ⟨"1000-2000 rwxa 00000000 00:00 0".toList, by simp, by decide⟩⟩

/-- C16: whenever ParseMaps fails with BadMapsEx, the segment list and the
special-segment table of the accessor are empty afterwards, whatever earlier lines of
the listing had been parsed. -/
theorem C16_bad_maps_publishes_nothing (m : MemoryAccessor) (maps : Option (List (List Char)))
    (h : (m.ParseMaps maps).1 = .error Ex.BadMapsEx) :
    (m.ParseMaps maps).2.segment_infos_ = [] ∧
    (m.ParseMaps maps).2.special_segment_found_ = [] := by
  have hpid : m.pid_set_ = true := by
    cases hp : m.pid_set_
    · simp [MemoryAccessor.ParseMaps, MemoryAccessor.CheckPid, hp] at h
    · rfl
  cases maps with
  | none => simp [MemoryAccessor.ParseMaps, MemoryAccessor.CheckPid, hpid] at h
  | some lines =>
    simp only [MemoryAccessor.ParseMaps, MemoryAccessor.CheckPid, hpid, Bool.not_true,
      Bool.false_eq_true, if_false] at h ⊢
    obtain ⟨hrej, hacc⟩ := MemoryAccessor.ParseMaps_loop_spec lines {} m.ResetSegments
    by_cases hex : ∃ l, l ∈ lines ∧ LineRejected l
    · exact (hrej hex).2
    · have := (hacc (fun l hl hr => hex ⟨l, hl, hr⟩)).1
      rw [h] at this
      cases this

theorem C16_bad_maps_publishes_nothing_witness :
    (freshAccessor.ParseMaps (some ["1000-2000 r--p 00000000 00:00 0 [heap]".toList,
        "3000-4000 r--p 00000000 00:00".toList])).1 = .error Ex.BadMapsEx ∧
    (freshAccessor.ParseMaps (some ["1000-2000 r--p 00000000 00:00 0 [heap]".toList,
        "3000-4000 r--p 00000000 00:00".toList])).2.segment_infos_ = [] ∧
    (freshAccessor.ParseMaps (some ["1000-2000 r--p 00000000 00:00 0 [heap]".toList,
        "3000-4000 r--p 00000000 00:00".toList])).2.special_segment_found_ = [] :=
  ⟨by decide,
   C16_bad_maps_publishes_nothing freshAccessor
     (some ["1000-2000 r--p 00000000 00:00 0 [heap]".toList,
        "3000-4000 r--p 00000000 00:00".toList]) (by decide)⟩

/-! ## The diff command: the sweep keeps one dump per new segment -/

namespace MemoryAccessor

theorem CheckMem_segments (m : MemoryAccessor) (img : MemImage) :
    (CheckMem m img).2.segment_infos_ = m.segment_infos_ := by
  unfold CheckMem OpenMem
  split
  · split
    · rfl
    · split <;> rfl
  · rfl

theorem PrepareMemSegment_segments (m : MemoryAccessor) (img : MemImage) (num start amount : Nat) :
    (PrepareMemSegment m img num start amount).2.segment_infos_ = m.segment_infos_ := by
  have h := CheckMem_segments m img
  unfold PrepareMemSegment
  split
  · rfl
  · split
    · next e m1 heq => rw [heq] at h; exact h
    · next m1 heq =>
      rw [heq] at h
      split
      · exact h
      · split
        · exact h
        · exact h

theorem ReadSegment_segments (m : MemoryAccessor) (img : MemImage) (buf : Ptr)
    (dst num start amount : Nat) :
    (ReadSegment m img buf dst num start amount).2.2.segment_infos_ = m.segment_infos_ := by
  have h := PrepareMemSegment_segments m img num start amount
  unfold ReadSegment
  split
  · next e m1 heq => rw [heq] at h; exact h
  · next a m1 heq =>
    rw [heq] at h
    split
    · exact h
    · exact h

end MemoryAccessor

namespace MemoryAccessor

theorem WriteSegment_segments (m : MemoryAccessor) (img : MemImage) (src : Ptr)
    (num start amount : Nat) :
    (WriteSegment m img src num start amount).2.2.segment_infos_ = m.segment_infos_ := by
  have h := PrepareMemSegment_segments m img num start amount
  unfold WriteSegment
  split
  · next e m1 heq => rw [heq] at h; exact h
  · next a m1 heq =>
    rw [heq] at h
    split
    · exact h
    · exact h

theorem Write_loop_segments (src : Ptr) :
    ∀ (fuel : Nat) (m : MemoryAccessor) (img : MemImage) (cur amount done_amount : Nat),
      (Write.loop src fuel m img cur amount done_amount).2.2.2.segment_infos_
        = m.segment_infos_ := by
  intro fuel
  induction fuel with
  | zero =>
    intro m img cur amount done_amount
    unfold Write.loop
    split <;> rfl
  | succ fuel ih =>
    intro m img cur amount done_amount
    unfold Write.loop
    split
    · rfl
    · split
      · split
        · rfl
        · have h := WriteSegment_segments m img (ptrAdd src done_amount) cur 0 amount
          split
          · next heq => rw [heq] at h; exact h
          · next heq =>
            rw [heq] at h
            rw [ih]
            exact h
      · rfl

/-- `Write`, the only member function through which the patches of the diff command
reach the object, leaves the segment map as it is. -/
theorem Write_segments (m : MemoryAccessor) (img : MemImage) (src : Ptr)
    (address amount done_amount : Nat) :
    (Write m img src address amount done_amount).2.2.2.segment_infos_ = m.segment_infos_ := by
  unfold Write
  split
  · rfl
  · split
    · rfl
    · next cur _ =>
      split
      · rfl
      · next seg _ =>
        have h := WriteSegment_segments m img src cur (sub64 address seg.start) amount
        split
        · next heq => rw [heq] at h; exact h
        · next heq =>
          rw [heq] at h
          rw [Write_loop_segments]
          exact h

end MemoryAccessor

namespace Console

theorem ReadSegWrapper_segments (m : MemoryAccessor) (img : MemImage) (buf : Ptr)
    (dst num start amount : Nat) :
    (ReadSegWrapper m img buf dst num start amount).2.2.segment_infos_ = m.segment_infos_ := by
  have h := MemoryAccessor.ReadSegment_segments m img buf dst num start amount
  unfold ReadSegWrapper
  split <;> next heq => rw [heq] at h; exact h

theorem DiffReadSeg_segments (w : World) (num : Nat) :
    (DiffReadSeg w num).2.2.m.segment_infos_ = w.m.segment_infos_ := by
  have h := ReadSegWrapper_segments w.m w.img (fun _ => 0) 0 num 0 SIZE_MAX
  unfold DiffReadSeg
  simp only
  split <;> next heq => rw [heq] at h; exact h

end Console

namespace Console

/-- What holds of the variables throughout the sweep of a round: the segment map is
the new one, `it` stands at position `j`, the dumps of the new segments `0..j-1` taken
in this round come first in `full_dump`, in order, followed by the retained slots of
the old segments `i, i+1, ...`, and `mem_dump` is the dump of segment `j`. -/
structure SweepInv (R : List Dump) (NEW : List SegmentInfo) (st : DiffState) : Prop where
  segs : st.w.m.segment_infos_ = NEW
  it_eq : st.it = st.j
  shape : ∃ pre wj, st.reads = pre ++ [(st.j, wj)] ∧ pre.map Prod.fst = List.range st.j ∧
    st.mem_dump = dumpOf (st.j, wj) ∧ st.full_dump = pre.map dumpOf ++ R.drop st.i
  reads_segs : ∀ e, e ∈ st.reads → e.2.m.segment_infos_ = NEW

theorem SweepInv.of_eq {R : List Dump} {NEW : List SegmentInfo} {st : DiffState}
    (h : SweepInv R NEW st) (st1 : DiffState)
    (h1 : st1.w.m.segment_infos_ = st.w.m.segment_infos_) (h2 : st1.it = st.it)
    (h3 : st1.i = st.i) (h4 : st1.j = st.j) (h5 : st1.reads = st.reads)
    (h6 : st1.mem_dump = st.mem_dump) (h7 : st1.full_dump = st.full_dump) :
    SweepInv R NEW st1 := by
  obtain ⟨hs, hit, hshape, hrs⟩ := h
  refine ⟨h1.trans hs, by rw [h2, h4]; exact hit, ?_, by rw [h5]; exact hrs⟩
  rw [h3, h4, h5, h6, h7]
  exact hshape

theorem DiffOldNext_inv (R : List Dump) (NEW : List SegmentInfo) (osa : Nat) (st : DiffState)
    (h : SweepInv R NEW st) :
    SweepInv R NEW (DiffOldNext osa st).2 ∧ (DiffOldNext osa st).2.i = st.i + 1 ∧
    (DiffOldNext osa st).2.j = st.j ∧
    ((DiffOldNext osa st).1 = 0 ∧ st.i + 1 ≠ osa ∨ (DiffOldNext osa st).1 = 1 ∧ st.i + 1 = osa) := by
  obtain ⟨hs, hit, ⟨pre, wj, hr, hp, hm, hf⟩, hrs⟩ := h
  have hlen : (pre.map dumpOf).length = st.it := by
    rw [hit, List.length_map, ← List.length_map pre Prod.fst, hp, List.length_range]
  have hfull : st.full_dump.take st.it ++ st.full_dump.drop (st.it + 1)
      = pre.map dumpOf ++ R.drop (st.i + 1) := by
    rw [hf, List.take_left' hlen, ← List.drop_drop, List.drop_left' hlen, List.drop_drop,
      Nat.add_comm]
  unfold DiffOldNext
  simp only
  split
  · next heq =>
    exact ⟨⟨hs, hit, ⟨pre, wj, hr, hp, hm, hfull⟩, hrs⟩, rfl, rfl, Or.inr ⟨rfl, heq⟩⟩
  · next hne =>
    exact ⟨⟨hs, hit, ⟨pre, wj, hr, hp, hm, hfull⟩, hrs⟩, rfl, rfl, Or.inl ⟨rfl, hne⟩⟩

theorem DiffNewNext_inv (R : List Dump) (NEW : List SegmentInfo) (st : DiffState)
    (h : SweepInv R NEW st) :
    SweepInv R NEW (DiffNewNext st).2 ∧ (DiffNewNext st).2.i = st.i ∧
    (DiffNewNext st).2.j = st.j + 1 ∧
    ((DiffNewNext st).1 = 0 ∧ st.j + 1 ≠ NEW.length ∨
      (DiffNewNext st).1 = 1 ∧ st.j + 1 = NEW.length ∨ (DiffNewNext st).1 = 2) := by
  obtain ⟨hs, hit, ⟨pre, wj, hr, hp, hm, hf⟩, hrs⟩ := h
  have hlen : (pre.map dumpOf).length = st.it := by
    rw [hit, List.length_map, ← List.length_map pre Prod.fst, hp, List.length_range]
  have hfull : st.full_dump.take st.it ++ st.mem_dump :: st.full_dump.drop st.it
      = (pre ++ [(st.j, wj)]).map dumpOf ++ R.drop st.i := by
    rw [hf, List.take_left' hlen, List.drop_left' hlen, hm]
    simp
  have hsegs := DiffReadSeg_segments st.w (st.j + 1)
  have hinv : SweepInv R NEW
      { st with
        full_dump := st.full_dump.take st.it ++ st.mem_dump :: st.full_dump.drop st.it,
        mem_dump := (DiffReadSeg st.w (st.j + 1)).2.1,
        it := st.it + 1,
        j := st.j + 1,
        w := (DiffReadSeg st.w (st.j + 1)).2.2,
        reads := st.reads ++ [(st.j + 1, st.w)] } := by
    refine ⟨by simpa [hs] using hsegs, by simp [hit], ⟨pre ++ [(st.j, wj)], st.w, ?_, ?_, rfl, hfull⟩, ?_⟩
    · simp [hr]
    · simp [hp, List.range_succ]
    · intro e he
      simp only [List.mem_append, List.mem_singleton] at he
      rcases he with he | he
      · exact hrs e he
      · rw [he]; exact hs
  unfold DiffNewNext
  simp only
  split
  · exact ⟨hinv.of_eq _ rfl rfl rfl rfl rfl rfl rfl, rfl, rfl, Or.inr (Or.inr rfl)⟩
  · split
    · next heq =>
      refine ⟨hinv.of_eq _ rfl rfl rfl rfl rfl rfl rfl, rfl, rfl, Or.inr (Or.inl ⟨rfl, ?_⟩)⟩
      rw [heq, hsegs, hs]
    · next hne =>
      refine ⟨hinv.of_eq _ rfl rfl rfl rfl rfl rfl rfl, rfl, rfl, Or.inl ⟨rfl, ?_⟩⟩
      rw [hsegs, hs] at hne
      exact hne

end Console

namespace Console

/-- What an iteration of the sweep that started from `st` guarantees of the state it
leaves: on `continue` both numbers are still below the sizes and one of them grew, on
`break` they are at most the sizes. -/
def StepPost (osa n : Nat) (st : DiffState) (r : Option Flow × DiffState) : Prop :=
  (r.1 = none → r.2.i < osa ∧ r.2.j < n ∧ (osa - r.2.i) + (n - r.2.j) < (osa - st.i) + (n - st.j)) ∧
  (r.1 = some Flow.next → r.2.i ≤ osa ∧ r.2.j ≤ n)

theorem afterOldNext_spec (R : List Dump) (NEW : List SegmentInfo) (osa : Nat) (st : DiffState)
    (h : SweepInv R NEW st) (hi : st.i < osa) (hj : st.j < NEW.length) :
    SweepInv R NEW (afterOldNext (DiffOldNext osa st)).2 ∧
    StepPost osa NEW.length st (afterOldNext (DiffOldNext osa st)) := by
  obtain ⟨hinv, hi1, hj1, hc⟩ := DiffOldNext_inv R NEW osa st h
  rcases hres : DiffOldNext osa st with ⟨code, st1⟩
  rw [hres] at hinv hi1 hj1 hc
  simp only at hinv hi1 hj1 hc
  rcases hc with ⟨hc, hne⟩ | ⟨hc, heq⟩
  · subst hc
    refine ⟨hinv, fun _ => ⟨?_, ?_, ?_⟩, fun hx => ?_⟩
    · show st1.i < osa
      omega
    · show st1.j < NEW.length
      omega
    · show osa - st1.i + (NEW.length - st1.j) < osa - st.i + (NEW.length - st.j)
      omega
    · cases hx
  · subst hc
    refine ⟨hinv, fun hx => ?_, fun _ => ⟨?_, ?_⟩⟩
    · cases hx
    · show st1.i ≤ osa
      omega
    · show st1.j ≤ NEW.length
      omega

theorem afterNewNext_spec (R : List Dump) (NEW : List SegmentInfo) (osa : Nat) (st : DiffState)
    (h : SweepInv R NEW st) (hi : st.i < osa) (hj : st.j < NEW.length) :
    SweepInv R NEW (afterNewNext (DiffNewNext st)).2 ∧
    StepPost osa NEW.length st (afterNewNext (DiffNewNext st)) := by
  obtain ⟨hinv, hi1, hj1, hc⟩ := DiffNewNext_inv R NEW st h
  rcases hres : DiffNewNext st with ⟨code, st1⟩
  rw [hres] at hinv hi1 hj1 hc
  simp only at hinv hi1 hj1 hc
  rcases hc with ⟨hc, hne⟩ | ⟨hc, heq⟩ | hc
  · subst hc
    refine ⟨hinv, fun _ => ⟨?_, ?_, ?_⟩, fun hx => ?_⟩
    · show st1.i < osa
      omega
    · show st1.j < NEW.length
      omega
    · show osa - st1.i + (NEW.length - st1.j) < osa - st.i + (NEW.length - st.j)
      omega
    · cases hx
  · subst hc
    refine ⟨hinv, fun hx => ?_, fun _ => ⟨?_, ?_⟩⟩
    · cases hx
    · show st1.i ≤ osa
      omega
    · show st1.j ≤ NEW.length
      omega
  · subst hc
    refine ⟨hinv, fun hx => ?_, fun hx => ?_⟩
    · cases hx
    · cases hx

theorem callDiffCompare_inv (cmp : DiffCall → World → Option World)
    (hcmp : ∀ c w w1, cmp c w = some w1 → w1.m.segment_infos_ = w.m.segment_infos_)
    (R : List Dump) (NEW : List SegmentInfo) (st st3 : DiffState) (old_dump : Dump)
    (start_addr : Nat) (h : SweepInv R NEW st)
    (hcall : callDiffCompare cmp st old_dump start_addr = some st3) :
    SweepInv R NEW st3 ∧ st3.i = st.i ∧ st3.j = st.j := by
  unfold callDiffCompare at hcall
  simp only at hcall
  split at hcall
  · cases hcall
  · next w1 hw =>
    cases hcall
    exact ⟨h.of_eq _ (hcmp _ _ _ hw) rfl rfl rfl rfl rfl rfl, rfl, rfl⟩

theorem StepPost.transfer {osa n : Nat} {st st0 : DiffState} {r : Option Flow × DiffState}
    (h : StepPost osa n st r) (hi : st.i = st0.i) (hj : st.j = st0.j) : StepPost osa n st0 r := by
  unfold StepPost at h ⊢
  rw [hi, hj] at h
  exact h

/-- One iteration of the sweep keeps the invariant. -/
theorem step_inv (cmp : DiffCall → World → Option World)
    (hcmp : ∀ c w w1, cmp c w = some w1 → w1.m.segment_infos_ = w.m.segment_infos_)
    (R : List Dump) (NEW : List SegmentInfo) (old : List SegmentInfo) (osa : Nat)
    (st : DiffState) (r : Option Flow × DiffState)
    (h : SweepInv R NEW st) (hi : st.i < osa) (hj : st.j < NEW.length)
    (hstep : CommandDiff.step cmp old osa st = some r) :
    SweepInv R NEW r.2 ∧ StepPost osa NEW.length st r := by
  unfold CommandDiff.step at hstep
  split at hstep
  · next o n ho hn =>
    split at hstep
    · cases hstep
      exact afterOldNext_spec R NEW osa st h hi hj
    · split at hstep
      · cases hstep
        exact afterNewNext_spec R NEW osa st h hi hj
      · simp only at hstep
        have hinv1 : ∀ st1 : DiffState, st1 = (if n.start ≤ o.start then
              { st with n_offs := sub64 o.start n.start }
            else { st with o_offs := sub64 n.start o.start }) →
            SweepInv R NEW st1 ∧ st1.i = st.i ∧ st1.j = st.j := by
          intro st1 h1
          subst h1
          split
          · exact ⟨h.of_eq _ rfl rfl rfl rfl rfl rfl rfl, rfl, rfl⟩
          · exact ⟨h.of_eq _ rfl rfl rfl rfl rfl rfl rfl, rfl, rfl⟩
        generalize (if n.start ≤ o.start then
              ({ st with n_offs := sub64 o.start n.start } : DiffState)
            else { st with o_offs := sub64 n.start o.start }) = st1 at hstep hinv1
        obtain ⟨h1, hi1, hj1⟩ := hinv1 st1 rfl
        split at hstep
        · cases hstep
          refine ⟨h1, fun hx => ?_, fun hx => ?_⟩
          · cases hx
          · cases hx
        · next old_dump hd =>
          split at hstep
          · split at hstep
            · cases hstep
            · next st3 hcall =>
              cases hstep
              have h2 := h1.of_eq { st1 with amount := sub64 (sub64 n.end_ n.start) st1.n_offs }
                rfl rfl rfl rfl rfl rfl rfl
              obtain ⟨h3, hi3, hj3⟩ := callDiffCompare_inv cmp hcmp R NEW _ st3 _ _ h2 hcall
              have hi3a : st3.i = st.i := hi3.trans hi1
              have hj3a : st3.j = st.j := hj3.trans hj1
              obtain ⟨ha, hb⟩ := afterNewNext_spec R NEW osa st3 h3 (by omega) (by omega)
              exact ⟨ha, hb.transfer hi3a hj3a⟩
          · split at hstep
            · cases hstep
            · next st3 hcall =>
              cases hstep
              have h2 := h1.of_eq { st1 with amount := sub64 (sub64 o.end_ o.start) st1.o_offs }
                rfl rfl rfl rfl rfl rfl rfl
              obtain ⟨h3, hi3, hj3⟩ := callDiffCompare_inv cmp hcmp R NEW _ st3 _ _ h2 hcall
              have hi3a : st3.i = st.i := hi3.trans hi1
              have hj3a : st3.j = st.j := hj3.trans hj1
              obtain ⟨ha, hb⟩ := afterOldNext_spec R NEW osa st3 h3 (by omega) (by omega)
              exact ⟨ha, hb.transfer hi3a hj3a⟩
  · cases hstep
    refine ⟨h, fun hx => ?_, fun hx => ?_⟩
    · cases hx
    · cases hx

end Console

namespace Console

theorem callDiffCompare_returns (cmp : DiffCall → World → Option World)
    (htotal : ∀ c w, cmp c w ≠ none) (st : DiffState) (old_dump : Dump) (start_addr : Nat) :
    callDiffCompare cmp st old_dump start_addr ≠ none := by
  unfold callDiffCompare
  simp only
  split
  · next hw => exact absurd hw (htotal _ _)
  · exact fun hx => by cases hx

theorem step_returns (cmp : DiffCall → World → Option World)
    (htotal : ∀ c w, cmp c w ≠ none) (old : List SegmentInfo) (osa : Nat) (st : DiffState) :
    CommandDiff.step cmp old osa st ≠ none := by
  unfold CommandDiff.step
  split
  · split
    · exact fun hx => by cases hx
    · split
      · exact fun hx => by cases hx
      · simp only
        split
        · exact fun hx => by cases hx
        · split
          · split
            · next hc => exact absurd hc (callDiffCompare_returns cmp htotal _ _ _)
            · exact fun hx => by cases hx
          · split
            · next hc => exact absurd hc (callDiffCompare_returns cmp htotal _ _ _)
            · exact fun hx => by cases hx
  · exact fun hx => by cases hx

/-- The sweep keeps the invariant, and when it is left by `break` both numbers are at
most the sizes. -/
theorem sweep_inv (cmp : DiffCall → World → Option World)
    (hcmp : ∀ c w w1, cmp c w = some w1 → w1.m.segment_infos_ = w.m.segment_infos_)
    (R : List Dump) (NEW : List SegmentInfo) (old : List SegmentInfo) (osa : Nat) :
    ∀ (fuel : Nat) (st : DiffState) (flow : Flow) (st1 : DiffState),
      SweepInv R NEW st → st.i < osa → st.j < NEW.length →
      CommandDiff.sweep cmp old osa fuel st = some (flow, st1) →
      SweepInv R NEW st1 ∧ (flow = Flow.next → st1.i ≤ osa ∧ st1.j ≤ NEW.length) := by
  intro fuel
  induction fuel with
  | zero =>
    intro st flow st1 _ _ _ h
    cases h
  | succ fuel ih =>
    intro st flow st1 hinv hi hj h
    unfold CommandDiff.sweep at h
    split at h
    · cases h
    · next fl st2 hstep =>
      cases h
      obtain ⟨h1, h2⟩ := step_inv cmp hcmp R NEW old osa st _ hinv hi hj hstep
      exact ⟨h1, fun hx => h2.2 (by rw [hx])⟩
    · next st2 hstep =>
      obtain ⟨h1, h2⟩ := step_inv cmp hcmp R NEW old osa st _ hinv hi hj hstep
      obtain ⟨hi2, hj2, _⟩ := h2.1 rfl
      exact ih st2 flow st1 h1 hi2 hj2 h

/-- With as many iterations allowed as there are old and new segments left, the sweep
comes to an end whenever `DiffCompare` returns. -/
theorem sweep_returns (cmp : DiffCall → World → Option World)
    (hcmp : ∀ c w w1, cmp c w = some w1 → w1.m.segment_infos_ = w.m.segment_infos_)
    (htotal : ∀ c w, cmp c w ≠ none)
    (R : List Dump) (NEW : List SegmentInfo) (old : List SegmentInfo) (osa : Nat) :
    ∀ (fuel : Nat) (st : DiffState),
      SweepInv R NEW st → st.i < osa → st.j < NEW.length →
      (osa - st.i) + (NEW.length - st.j) ≤ fuel →
      CommandDiff.sweep cmp old osa fuel st ≠ none := by
  intro fuel
  induction fuel with
  | zero =>
    intro st _ hi hj hf
    omega
  | succ fuel ih =>
    intro st hinv hi hj hf
    unfold CommandDiff.sweep
    split
    · next hstep => exact absurd hstep (step_returns cmp htotal old osa st)
    · exact fun hx => by cases hx
    · next st2 hstep =>
      obtain ⟨h1, h2⟩ := step_inv cmp hcmp R NEW old osa st _ hinv hi hj hstep
      obtain ⟨hi2, hj2, hlt⟩ := h2.1 rfl
      exact ih st2 h1 hi2 hj2 (by simp only at hlt; omega)

theorem drainOld_inv (R : List Dump) (NEW : List SegmentInfo) (osa : Nat) :
    ∀ (fuel : Nat) (st st1 : DiffState), SweepInv R NEW st → st.i ≤ osa →
      CommandDiff.drainOld osa fuel st = some st1 →
      SweepInv R NEW st1 ∧ st1.i = osa ∧ st1.j = st.j := by
  intro fuel
  induction fuel with
  | zero =>
    intro st st1 hinv hi h
    unfold CommandDiff.drainOld at h
    split at h
    · cases h
    · cases h
      exact ⟨hinv, by omega, rfl⟩
  | succ fuel ih =>
    intro st st1 hinv hi h
    unfold CommandDiff.drainOld at h
    split at h
    · obtain ⟨h1, hi1, hj1, _⟩ := DiffOldNext_inv R NEW osa st hinv
      obtain ⟨ha, hb, hc⟩ := ih _ st1 h1 (by omega) h
      exact ⟨ha, hb, hc.trans hj1⟩
    · cases h
      exact ⟨hinv, by omega, rfl⟩

theorem drainOld_returns (R : List Dump) (NEW : List SegmentInfo) (osa : Nat) :
    ∀ (fuel : Nat) (st : DiffState), SweepInv R NEW st → osa - st.i ≤ fuel →
      CommandDiff.drainOld osa fuel st ≠ none := by
  intro fuel
  induction fuel with
  | zero =>
    intro st _ hf
    unfold CommandDiff.drainOld
    split
    · omega
    · exact fun hx => by cases hx
  | succ fuel ih =>
    intro st hinv hf
    unfold CommandDiff.drainOld
    split
    · obtain ⟨h1, hi1, _, _⟩ := DiffOldNext_inv R NEW osa st hinv
      exact ih _ h1 (by omega)
    · exact fun hx => by cases hx

theorem drainNew_inv (R : List Dump) (NEW : List SegmentInfo) :
    ∀ (fuel : Nat) (st st1 : DiffState), SweepInv R NEW st → st.j < NEW.length →
      CommandDiff.drainNew fuel st = some (Flow.next, st1) →
      SweepInv R NEW st1 ∧ st1.i = st.i ∧ st1.j = NEW.length := by
  intro fuel
  induction fuel with
  | zero =>
    intro st st1 _ _ h
    cases h
  | succ fuel ih =>
    intro st st1 hinv hj h
    obtain ⟨h1, hi1, hj1, hc⟩ := DiffNewNext_inv R NEW st hinv
    unfold CommandDiff.drainNew at h
    rcases hres : DiffNewNext st with ⟨code, st2⟩
    rw [hres] at h h1 hi1 hj1 hc
    simp only at h h1 hi1 hj1 hc
    rcases hc with ⟨hc, hne⟩ | ⟨hc, heq⟩ | hc
    · subst hc
      simp only at h
      obtain ⟨ha, hb, hd⟩ := ih st2 st1 h1 (by omega) h
      exact ⟨ha, hb.trans hi1, hd⟩
    · subst hc
      simp only at h
      cases h
      exact ⟨h1, hi1, by omega⟩
    · subst hc
      simp only at h
      cases h

theorem drainNew_returns (R : List Dump) (NEW : List SegmentInfo) :
    ∀ (fuel : Nat) (st : DiffState), SweepInv R NEW st → st.j < NEW.length →
      NEW.length - st.j ≤ fuel → CommandDiff.drainNew fuel st ≠ none := by
  intro fuel
  induction fuel with
  | zero =>
    intro st _ hj hf
    omega
  | succ fuel ih =>
    intro st hinv hj hf
    obtain ⟨h1, hi1, hj1, hc⟩ := DiffNewNext_inv R NEW st hinv
    unfold CommandDiff.drainNew
    rcases hres : DiffNewNext st with ⟨code, st2⟩
    rw [hres] at h1 hi1 hj1 hc
    simp only at h1 hi1 hj1 hc
    rcases hc with ⟨hc, hne⟩ | ⟨hc, heq⟩ | hc
    · subst hc
      simp only
      exact ih st2 h1 (by omega) (by omega)
    · subst hc
      simp only
      exact fun hx => by cases hx
    · subst hc
      simp only
      exact fun hx => by cases hx

end Console

namespace Console

/-- When the sweep and the two loops after it are through, `full_dump` holds the dumps
of this round and nothing else. -/
theorem SweepInv.final {R : List Dump} {NEW : List SegmentInfo} {st : DiffState}
    (h : SweepInv R NEW st) (hi : R.length ≤ st.i) (hj : st.j = NEW.length) :
    st.w.m.segment_infos_ = NEW ∧
    st.full_dump.length = NEW.length ∧
    st.reads.map Prod.fst = List.range (NEW.length + 1) ∧
    (∀ e, e ∈ st.reads → e.2.m.segment_infos_ = NEW) ∧
    st.full_dump = (st.reads.take NEW.length).map dumpOf := by
  obtain ⟨hs, _, ⟨pre, wj, hr, hp, _, hf⟩, hrs⟩ := h
  have hlen : pre.length = NEW.length := by
    rw [← List.length_map pre Prod.fst, hp, List.length_range, hj]
  have hdrop : R.drop st.i = [] := List.drop_eq_nil_of_le hi
  rw [hdrop, List.append_nil] at hf
  refine ⟨hs, ?_, ?_, hrs, ?_⟩
  · rw [hf, List.length_map, hlen]
  · rw [hr, List.map_append, hp, hj, List.range_succ]
    rfl
  · rw [hf, hr, List.take_left' hlen]

end Console

/-- What a round that runs to its end leaves behind, in the bookkeeping by positions
(whether an `insert` moved the array on the way is recorded in `undefined` and plays
no part here). -/
theorem round_result (cmp : Console.DiffCall → Console.World → Option Console.World)
    (maps : Option (List (List Char))) (st : Console.DiffState)
    (hcmp : ∀ c w w1, cmp c w = some w1 → w1.m.segment_infos_ = w.m.segment_infos_)
    (hold : st.w.m.segment_infos_ ≠ [])
    (hR : st.full_dump.length = st.w.m.segment_infos_.length)
    (hparse : (st.w.m.ParseMaps maps).1 = .ok ())
    (hnew : (st.w.m.ParseMaps maps).2.segment_infos_ ≠ []) :
    ((∀ c w, cmp c w ≠ none) → Console.CommandDiff.round cmp maps st ≠ none) ∧
    ∀ st1, Console.CommandDiff.round cmp maps st = some (Console.Flow.next, st1) →
      st1.w.m.segment_infos_ = (st.w.m.ParseMaps maps).2.segment_infos_ ∧
      st1.full_dump.length = (st.w.m.ParseMaps maps).2.segment_infos_.length ∧
      st1.reads.map Prod.fst
        = List.range ((st.w.m.ParseMaps maps).2.segment_infos_.length + 1) ∧
      (∀ e, e ∈ st1.reads →
        e.2.m.segment_infos_ = (st.w.m.ParseMaps maps).2.segment_infos_) ∧
      st1.full_dump
        = (st1.reads.take (st.w.m.ParseMaps maps).2.segment_infos_.length).map dumpOf := by
  rcases hpm : st.w.m.ParseMaps maps with ⟨res, m1⟩
  rw [hpm] at hparse hnew
  simp only at hparse hnew
  subst hparse
  have holdlen : st.w.m.segment_infos_.length ≠ 0 := fun h => hold (List.length_eq_zero.mp h)
  have hnewlen : m1.segment_infos_.length ≠ 0 := fun h => hnew (List.length_eq_zero.mp h)
  have hinv0 : Console.SweepInv st.full_dump m1.segment_infos_
      { st with
        w := (Console.DiffReadSeg { st.w with m := m1 } 0).2.2,
        it := 0, it_stale := false, i := 0, j := 0, o_offs := 0, n_offs := 0, amount := 0,
        mem_dump := (Console.DiffReadSeg { st.w with m := m1 } 0).2.1,
        reads := [(0, { st.w with m := m1 })], calls := [],
        undefined := st.undefined ++ Console.DiffReadSeg.undefined { st.w with m := m1 } 0 } := by
    refine ⟨Console.DiffReadSeg_segments _ 0, rfl, ⟨[], { st.w with m := m1 }, rfl, rfl, rfl, rfl⟩, ?_⟩
    intro e he
    simp only [List.mem_singleton] at he
    rw [he]
  unfold Console.CommandDiff.round Console.ParseMapsWrapper
  simp only [hpm, holdlen, hnewlen, or_self, if_false]
  constructor
  · intro htotal
    split
    · exact fun hx => by cases hx
    · have hsw := Console.sweep_returns cmp hcmp htotal st.full_dump m1.segment_infos_
        st.w.m.segment_infos_ st.w.m.segment_infos_.length
        (st.w.m.segment_infos_.length + m1.segment_infos_.length) _ hinv0
        (Nat.pos_of_ne_zero holdlen) (Nat.pos_of_ne_zero hnewlen) (by simp)
      split
      · next hx => exact absurd hx hsw
      · next st3 hs3 =>
        obtain ⟨h3, hb3⟩ := Console.sweep_inv cmp hcmp st.full_dump m1.segment_infos_
          st.w.m.segment_infos_ st.w.m.segment_infos_.length _ _ _ st3 hinv0
          (Nat.pos_of_ne_zero holdlen) (Nat.pos_of_ne_zero hnewlen) hs3
        have hdo := Console.drainOld_returns st.full_dump m1.segment_infos_
          st.w.m.segment_infos_.length (st.w.m.segment_infos_.length - st3.i) st3 h3 (le_refl _)
        split
        · next hx => exact absurd hx hdo
        · next st4 hs4 =>
          obtain ⟨h4, hi4, hj4⟩ := Console.drainOld_inv st.full_dump m1.segment_infos_
            st.w.m.segment_infos_.length _ st3 st4 h3 (hb3 rfl).1 hs4
          split
          · next hlt =>
            rw [h4.segs] at hlt ⊢
            exact Console.drainNew_returns st.full_dump m1.segment_infos_ _ st4 h4 hlt (le_refl _)
          · exact fun hx => by cases hx
      · exact fun hx => by cases hx
  · intro st1 hround
    split at hround
    · cases hround
    · split at hround
      · cases hround
      · next st3 hs3 =>
        obtain ⟨h3, hb3⟩ := Console.sweep_inv cmp hcmp st.full_dump m1.segment_infos_
          st.w.m.segment_infos_ st.w.m.segment_infos_.length _ _ _ st3 hinv0
          (Nat.pos_of_ne_zero holdlen) (Nat.pos_of_ne_zero hnewlen) hs3
        split at hround
        · cases hround
        · next st4 hs4 =>
          obtain ⟨h4, hi4, hj4⟩ := Console.drainOld_inv st.full_dump m1.segment_infos_
            st.w.m.segment_infos_.length _ st3 st4 h3 (hb3 rfl).1 hs4
          split at hround
          · next hlt =>
            rw [h4.segs] at hlt hround
            obtain ⟨h5, hi5, hj5⟩ := Console.drainNew_inv st.full_dump m1.segment_infos_ _ st4 st1
              h4 hlt hround
            exact h5.final (by omega) hj5
          · next hge =>
            cases hround
            rw [h4.segs] at hge
            exact h4.final (by omega) (by have := (hb3 rfl).2; omega)
      · next flow st3 hne hs3 =>
        cases hround
        exact absurd rfl hne

/-- C20 (refuted): `DiffNewNext` drops the iterator that `insert` returns and goes on
with `it`.  Whenever the call finds the array of `full_dump` full, the `insert` moves
the vector and the `it++` that follows works on a stale iterator.  After the priming
step over a map of one segment, `full_dump` has one slot in an array for one slot; the
round over the same map then makes three undefined operations: the `it++` after the
`insert` of the new dump, the read of `segment_infos_[1]` in `DiffReadSeg`, and the
`erase(it)` that is to remove the retained slot of the old segment.  The same happens
with two segments.  With three segments the array has room for four slots and the
read of `segment_infos_[3]` is the only undefined operation of the round. -/
theorem C20_insert_leaves_iterator_stale :
    (∀ st : Console.DiffState, st.it_stale = false → st.capacity ≤ st.full_dump.length →
      (Console.DiffNewNext st).2.it_stale = true ∧
      Console.Undefined.stale_iterator ∈ (Console.DiffNewNext st).2.undefined) ∧
    ((Console.CommandDiff.prime (some (demoOldMaps.take 1))
        (parsedWorld (demoOldMaps.take 1))).1 = Console.Flow.next ∧
      (primedState (demoOldMaps.take 1)).w.m.segment_infos_.length = 1 ∧
      (primedState (demoOldMaps.take 1)).full_dump = [some [0, 1, 2, 3]] ∧
      (primedState (demoOldMaps.take 1)).capacity = 1 ∧
      (primedState (demoOldMaps.take 1)).undefined = []) ∧
    (Console.CommandDiff.round (Console.diffCmp {} 10 2 []) (some (demoOldMaps.take 1))
        (primedState (demoOldMaps.take 1))).map (fun r => (r.1, r.2.undefined))
      = some (Console.Flow.next,
          [Console.Undefined.stale_iterator, Console.Undefined.segment_index 1,
           Console.Undefined.stale_iterator]) ∧
    ((primedState (demoOldMaps.take 2)).full_dump.length = 2 ∧
      (primedState (demoOldMaps.take 2)).capacity = 2 ∧
      (primedState (demoOldMaps.take 2)).undefined = []) ∧
    (Console.CommandDiff.round (Console.diffCmp {} 10 2 []) (some (demoOldMaps.take 2))
        (primedState (demoOldMaps.take 2))).map
        (fun r => (r.1, r.2.undefined.take 1, r.2.undefined.length))
      = some (Console.Flow.next, [Console.Undefined.stale_iterator], 7) ∧
    ((primedState demoOldMaps).full_dump.length = 3 ∧
      (primedState demoOldMaps).capacity = 4 ∧
      (primedState demoOldMaps).undefined = []) ∧
    (Console.CommandDiff.round (Console.diffCmp {} 10 2 []) (some demoOldMaps)
        (primedState demoOldMaps)).map (fun r => (r.1, r.2.undefined))
      = some (Console.Flow.next, [Console.Undefined.segment_index 3]) := by
  refine ⟨?_, by decide, by decide, by decide, by decide, by decide, by decide⟩
  intro st hstale hfull
  unfold Console.DiffNewNext
  simp only [hstale, hfull, Bool.false_or, decide_True, Console.staleUse, if_true]
  repeat' split
  all_goals exact ⟨rfl, by simp⟩

/-! ## The diff command: the priming step -/

namespace Console

theorem primeLoop_slots :
    ∀ (left num : Nat) (st st1 : DiffState),
      CommandDiff.primeLoop left num st = (Flow.next, st1) →
      st1.full_dump.length = st.full_dump.length + left ∧
      st1.w.m.segment_infos_ = st.w.m.segment_infos_ := by
  intro left
  induction left with
  | zero =>
    intro num st st1 h
    unfold CommandDiff.primeLoop at h
    cases h
    exact ⟨rfl, rfl⟩
  | succ left ih =>
    intro num st st1 h
    unfold CommandDiff.primeLoop at h
    simp only at h
    split at h
    · cases h
    · obtain ⟨h1, h2⟩ := ih _ _ _ h
      simp only [List.length_append, List.length_singleton] at h1
      exact ⟨by omega, h2.trans (DiffReadSeg_segments st.w num)⟩

end Console

/-- C21 (refuted): the priming step dumps as many segments as the segment list held
before the priming parse, not as many as the map this parse produced.  When the object
holds no map yet and the parse finds three segments, the retained list stays empty;
when the object holds three segments and the parse finds one, the retained list gets
three slots, two of them for the numbers 1 and 2 that the new map does not have. -/
theorem C21_priming_counts_old_map :
    (∀ maps w st, Console.CommandDiff.prime maps w = (Console.Flow.next, st) →
      st.full_dump.length = w.m.segment_infos_.length) ∧
    ((Console.CommandDiff.prime (some demoOldMaps) demoWorld).1 = Console.Flow.next ∧
      (Console.CommandDiff.prime (some demoOldMaps) demoWorld).2.full_dump = [] ∧
      (Console.CommandDiff.prime (some demoOldMaps) demoWorld).2.w.m.segment_infos_.length = 3) ∧
    ((Console.CommandDiff.prime (some (demoNewMaps.take 1)) demoDiffState.w).1
        = Console.Flow.next ∧
      (Console.CommandDiff.prime (some (demoNewMaps.take 1)) demoDiffState.w).2.full_dump
        = [some [240, 241], none, none] ∧
      (Console.CommandDiff.prime (some (demoNewMaps.take 1))
        demoDiffState.w).2.w.m.segment_infos_.length = 1) := by
  refine ⟨?_, by decide, by decide⟩
  intro maps w st h
  unfold Console.CommandDiff.prime at h
  simp only at h
  split at h
  · obtain ⟨h1, _⟩ := Console.primeLoop_slots _ _ _ _ h
    simpa using h1
  · cases h

/-! ## DiffCompare: the scan loop -/

namespace Console

theorem sub64_zero (a : Nat) (h : a < SIZE) : sub64 a 0 = a := by
  unfold sub64
  simp [Nat.mod_eq_of_lt h]

/-- When the guard of `FindDifferencesOfLen` returns at once and `done` is 0, an
iteration of the loop of `DiffCompare` changes neither `amount` nor `done`. -/
theorem DiffCompare_body_stuck (cfg : Setup) (length : Nat) (replacement : List Char)
    (s : CompareState) (ha : s.amount < SIZE) (hd : s.done = 0)
    (hl : length = 0 ∨ s.amount < length) :
    ∃ s1, DiffCompare.body cfg length replacement s = some s1 ∧ s1.amount = s.amount ∧
      s1.done = 0 ∧ s1.reports = s.reports := by
  have hguard : Tools.FindDifferencesOfLen s.old_dump s.new_dump s.amount s.done length
      = ((none, none), s.done) := by
    unfold Tools.FindDifferencesOfLen
    rw [if_pos]
    rcases hl with h | h
    · exact Or.inr (Or.inl h)
    · exact Or.inr (Or.inr h)
  rw [hd] at hguard
  unfold DiffCompare.body
  simp only [hd, hguard]
  exact ⟨_, rfl, sub64_zero _ ha, rfl, rfl⟩

theorem DiffCompare_iterate_stuck (cfg : Setup) (length : Nat) (replacement : List Char) :
    ∀ (n : Nat) (s : CompareState), s.amount < SIZE → s.done = 0 →
      (length = 0 ∨ s.amount < length) →
      ∃ s1, DiffCompare.iterate cfg length replacement n s = some s1 ∧ s1.amount = s.amount := by
  intro n
  induction n with
  | zero =>
    intro s _ _ _
    exact ⟨s, rfl, rfl⟩
  | succ n ih =>
    intro s ha hd hl
    unfold DiffCompare.iterate
    split
    · obtain ⟨s1, hb, h1, h2, _⟩ := DiffCompare_body_stuck cfg length replacement s ha hd hl
      rw [hb]
      simp only
      obtain ⟨s2, hi, h3⟩ := ih s1 (by rw [h1]; exact ha) h2 (by rw [h1]; exact hl)
      exact ⟨s2, hi, h3.trans h1⟩
    · exact ⟨s, rfl, rfl⟩

/-- With a target length of 0, or one above the size of the window, the loop of
`DiffCompare` over a window that is not empty never ends. -/
theorem DiffCompare_never_returns (cfg : Setup) (fuel : Nat) (o n : Ptr)
    (o_offs n_offs amount start_addr length : Nat) (replacement : List Char) (w : World)
    (ha : 0 < amount) (hs : amount < SIZE) (hl : length = 0 ∨ amount < length) :
    DiffCompare cfg fuel (some o) (some n) o_offs n_offs amount start_addr length replacement w
      = none := by
  unfold DiffCompare DiffCompare.loop
  simp only
  obtain ⟨s1, hi, h1⟩ := DiffCompare_iterate_stuck cfg length replacement fuel
    (DiffCompare.start o n o_offs n_offs amount start_addr length w) hs rfl hl
  rw [hi]
  have : s1.amount ≠ 0 := by
    rw [h1]
    show amount ≠ 0
    omega
  simp [this]

end Console

/-- C22 (refuted): the window is the five bytes at 0x1000 and the target length is 3.
The window differs in its first three bytes; the match at 0x1000 is printed, but the
two bytes left are fewer than the target length, `FindDifferencesOfLen` returns at
once and leaves `done` at 3, so that `amount -= done` wraps around and the scan goes on
behind the window: a second match is printed at 0x1006, for bytes that lie outside the
window, and after three iterations the loop is still running. -/
theorem C22_report_outside_window :
    (Console.DiffCompare.iterate {} 3 [] 3
        (Console.DiffCompare.start (ofList [1, 1, 1, 0, 0, 0, 5, 5, 5, 0])
          (ofList [2, 2, 2, 0, 0, 0, 6, 6, 6, 0]) 0 0 5 4096 3 demoWorld)).map
        (fun s => (s.amount, s.reports))
      = some (18446744073709551612,
          [(4096, [1, 1, 1], [2, 2, 2]), (4102, [5, 5, 5], [6, 6, 6])]) ∧
    ¬ IsMaxRun (ofList [1, 1, 1, 0, 0, 0, 5, 5, 5, 0]) (ofList [2, 2, 2, 0, 0, 0, 6, 6, 6, 0])
      5 3 (4102 - 4096) := by
  decide
namespace Console

theorem add64_sub64_cancel (W L p : Nat) (hW : W + p < SIZE) :
    add64 (sub64 W L) (p + L) = W + p := by
  unfold add64 sub64
  simp only [SIZE] at *
  omega

/-- The first call of `FindDifferencesOfLen` that `DiffCompare` makes, for a target
length between 1 and the size of the window and without replacement: when the window
has a maximal run of exactly `length` differing bytes, the first of them, at position
`p`, is printed with the address `start_addr + p` and the old and new bytes of the
window at `[p, p + length)`, and `amount - (p + length)` bytes are left; otherwise
nothing is printed and no byte is left. -/
theorem DiffCompare_first_call (cfg : Setup) (o n : Ptr)
    (o_offs n_offs amount start_addr length : Nat) (w : World)
    (hl : 0 < length) (hla : length ≤ amount) (ha : start_addr + amount < SIZE) :
    (∃ p, IsMaxRun (ptrAdd o o_offs) (ptrAdd n n_offs) amount length p ∧
      (∀ q, q < p → ¬ IsMaxRun (ptrAdd o o_offs) (ptrAdd n n_offs) amount length q) ∧
      ∃ s1, DiffCompare.body cfg length []
          (DiffCompare.start o n o_offs n_offs amount start_addr length w) = some s1 ∧
        s1.reports = [(start_addr + p, slice (ptrAdd o o_offs) p length,
          slice (ptrAdd n n_offs) p length)] ∧
        s1.amount = amount - (p + length) ∧ s1.done = p + length) ∨
    ((∀ p, ¬ IsMaxRun (ptrAdd o o_offs) (ptrAdd n n_offs) amount length p) ∧
      ∃ s1, DiffCompare.body cfg length []
          (DiffCompare.start o n o_offs n_offs amount start_addr length w) = some s1 ∧
        s1.reports = [] ∧ s1.amount = 0) := by
  have hasz : amount < SIZE := by omega
  rcases FindDifferencesOfLen_spec (ptrAdd o o_offs) (ptrAdd n n_offs) amount length 0 hl hla
    with ⟨p, hp, hmin, hout⟩ | ⟨hno, hout⟩
  · left
    refine ⟨p, hp, hmin, ?_⟩
    have hple : p + length ≤ amount := hp.1
    unfold DiffCompare.body DiffCompare.start
    simp only [hout, ne_eq, not_true_eq_false, if_false, List.nil_append]
    refine ⟨_, rfl, ?_, ?_, rfl⟩
    · simp only
      rw [add64_sub64_cancel start_addr length p (by omega)]
    · simp only
      exact sub64_eq _ _ hple hasz
  · right
    refine ⟨hno, ?_⟩
    unfold DiffCompare.body DiffCompare.start
    simp only [hout]
    refine ⟨_, rfl, rfl, ?_⟩
    simp only
    rw [sub64_eq _ _ (le_refl _) hasz]
    exact Nat.sub_self _

end Console
/-- C23 (refuted): with the replacement `a b` the line handed to `HandleCommand` is
split into five arguments, the string written is `a` alone and its length 1 replaces
the amount 3: of the match at 0x1001 only the first byte is patched, and a read of
`[0x1001, 0x1004)` returns `a` followed by the two bytes that were there.  A
replacement that starts with `-` is taken for an option and nothing is written.  The
replacement `abc` is written as it is. -/
theorem C23_replacement_reparsed :
    Console.ParseCmdline (Console.writeLine 4097 3 "a b".toList)
      = ["write".toList, "1001".toList, "3".toList, "a".toList, "b".toList] ∧
    "a b".toList.map Console.byteOf = [97, 32, 98] ∧
    (Console.DiffCompare {} 5 (some (ofList [0, 9, 9, 9])) (some (ofList [0, 1, 2, 3])) 0 0 4 4096
        3 "a b".toList { m := demoAccessor, img := demoImage }).map
        (fun r => (r.2, slice r.1.img.bytes 4097 3))
      = some ([(4097, [9, 9, 9], [1, 2, 3])], [97, 2, 3]) ∧
    (Console.DiffCompare {} 5 (some (ofList [0, 9, 9, 9])) (some (ofList [0, 1, 2, 3])) 0 0 4 4096
        3 "a b".toList { m := demoAccessor, img := demoImage }).map
        (fun r => ((r.1.m.Read r.1.img (fun _ => 0) 0 4097 3 0).1,
          slice (r.1.m.Read r.1.img (fun _ => 0) 0 4097 3 0).2.1 0 3))
      = some (.ok (), [97, 2, 3]) ∧
    (Console.DiffCompare {} 5 (some (ofList [0, 9, 9, 9])) (some (ofList [0, 1, 2, 3])) 0 0 4 4096
        3 "-ab".toList { m := demoAccessor, img := demoImage }).map
        (fun r => (r.2, slice r.1.img.bytes 4097 3))
      = some ([(4097, [9, 9, 9], [1, 2, 3])], [1, 2, 3]) ∧
    (Console.DiffCompare {} 5 (some (ofList [0, 9, 9, 9])) (some (ofList [0, 1, 2, 3])) 0 0 4 4096
        3 "abc".toList { m := demoAccessor, img := demoImage }).map
        (fun r => (r.2, slice r.1.img.bytes 4097 3))
      = some ([(4097, [9, 9, 9], [1, 2, 3])], [97, 98, 99]) :=
  ⟨by decide, by decide, by decide, by decide, by decide, by decide⟩

/-! ## SetPid -/

/-- C24: when `PidExists` gives 1, `SetPid` throws `PidNotExistEx`, when it gives 2,
`ErrCheckingPidEx`, and in both cases the object is left as it was: `GetPid` gives what
it gave before, a PID that was set is still returned, and the segment map is the same.
When `PidExists` gives 0, `SetPid` returns normally, the segment map and the table of
special segments are empty and `GetPid` returns the new PID. -/
theorem C24_set_pid (m : MemoryAccessor) (stat : Int → Option Int) (pid : Int) :
    (Tools.PidExists stat pid = 1 → m.SetPid stat pid = (.error Ex.PidNotExistEx, m)) ∧
    (Tools.PidExists stat pid = 2 → m.SetPid stat pid = (.error Ex.ErrCheckingPidEx, m)) ∧
    (Tools.PidExists stat pid ≠ 0 →
      (m.SetPid stat pid).1 ≠ .ok () ∧
      (m.SetPid stat pid).2.GetPid = m.GetPid ∧
      (m.pid_set_ = true → (m.SetPid stat pid).2.GetPid = .ok m.pid_) ∧
      (m.SetPid stat pid).2.segment_infos_ = m.segment_infos_) ∧
    (Tools.PidExists stat pid = 0 →
      (m.SetPid stat pid).1 = .ok () ∧
      (m.SetPid stat pid).2.segment_infos_ = [] ∧
      (m.SetPid stat pid).2.special_segment_found_ = [] ∧
      (m.SetPid stat pid).2.GetPid = .ok pid) ∧
    (Tools.PidExists stat pid = 0 ∨ Tools.PidExists stat pid = 1 ∨
      Tools.PidExists stat pid = 2) := by
  have hget : m.pid_set_ = true → m.GetPid = .ok m.pid_ := by
    intro h
    simp [MemoryAccessor.GetPid, MemoryAccessor.CheckPid, h]
  refine ⟨?_, ?_, ?_, ?_, ?_⟩
  · intro h
    simp [MemoryAccessor.SetPid, h]
  · intro h
    simp [MemoryAccessor.SetPid, h]
  · intro h
    have hs : (m.SetPid stat pid).1 ≠ .ok () ∧ (m.SetPid stat pid).2 = m := by
      unfold MemoryAccessor.SetPid
      split
      · next h0 => exact absurd h0 h
      · exact ⟨fun hx => (by cases hx), rfl⟩
      · exact ⟨fun hx => (by cases hx), rfl⟩
    refine ⟨hs.1, by rw [hs.2], fun hp => by rw [hs.2]; exact hget hp, by rw [hs.2]⟩
  · intro h
    simp [MemoryAccessor.SetPid, h, MemoryAccessor.Reset, MemoryAccessor.ResetSegments,
      MemoryAccessor.GetPid, MemoryAccessor.CheckPid]
  · unfold Tools.PidExists
    split
    · split
      · exact Or.inr (Or.inl rfl)
      · exact Or.inl rfl
    · exact Or.inr (Or.inr rfl)

example : (demoAccessor.SetPid (fun _ => some (-1)) 77).1 = .error Ex.PidNotExistEx := by decide
example : (demoAccessor.SetPid (fun _ => some (-1)) 77).2.GetPid = .ok 1 := by decide
example : (demoAccessor.SetPid (fun _ => some 0) 77).2.GetPid = .ok 77 := by decide
example : (demoAccessor.SetPid (fun _ => some 0) 77).2.segment_infos_ = [] := by decide

/-! ## The diff command: offsets, empty maps, indices -/

/-- C25 (refuted): in the round over `demoDiffState` and `demoNewMaps` (target length
2, no replacement) the first overlap, of the old segment `[0x1000, 0x1004)` with the
new segment `[0x1002, 0x100a)`, sets `o_offs = 2`.  The second overlap, of the old
segment `[0x1008, 0x100c)` with the same new segment, sets `n_offs = 6` and leaves
`o_offs` at 2: `DiffCompare` is called with the start address 0x100a and the old
offset 2, where the common address is 0x1008 and the old offset 0. -/
theorem C25_stale_offset :
    (Console.CommandDiff.round (Console.diffCmp {} 10 2 []) (some demoNewMaps)
        demoDiffState).map (fun r => (r.1, r.2.calls))
      = some (Console.Flow.next,
          [{ old_dump := some [1, 1, 1, 1], new_dump := some [2, 3, 4, 5, 6, 7, 8, 9],
             o_offs := 2, n_offs := 0, amount := 2, start_addr := 4098 },
           { old_dump := none, new_dump := some [2, 3, 4, 5, 6, 7, 8, 9],
             o_offs := 2, n_offs := 6, amount := 2, start_addr := 4106 }]) ∧
    demoDiffState.w.m.segment_infos_.map (fun s => (s.start, s.end_))
      = [(4096, 4100), (4104, 4108), (8192, 8196)] ∧
    (demoDiffState.w.m.ParseMaps (some demoNewMaps)).2.segment_infos_.map
        (fun s => (s.start, s.end_))
      = [(4080, 4082), (4098, 4106), (12288, 12290)] ∧
    4104 + 2 ≠ max 4104 4098 :=
  ⟨by decide, by decide, by decide, by decide⟩
/-- C26 (refuted): for a window that is not empty and a target length of 0, or one
above the size of the window, `FindDifferencesOfLen` returns at once without touching
`done`, which is still 0: the loop of `DiffCompare` makes no advance and never ends,
whatever number of iterations is allowed.  And for the window of five bytes of which
the first three differ and the target length 3, the second call returns at once with
`done` still 3 from the first call: `amount` goes from 2 to 2^64 - 1. -/
theorem C26_scan_loop_stalls_or_wraps :
    (∀ (cfg : Console.Setup) (fuel : Nat) (o n : Ptr) (o_offs n_offs amount start_addr length : Nat)
        (replacement : List Char) (w : Console.World),
      0 < amount → amount < SIZE → (length = 0 ∨ amount < length) →
      Console.DiffCompare cfg fuel (some o) (some n) o_offs n_offs amount start_addr length
        replacement w = none) ∧
    (Console.DiffCompare.iterate {} 3 [] 1
        (Console.DiffCompare.start (ofList [1, 1, 1, 0, 0]) (ofList [2, 2, 2, 0, 0]) 0 0 5 4096 3
          demoWorld)).map (fun s => (s.amount, s.done)) = some (2, 3) ∧
    (Console.DiffCompare.iterate {} 3 [] 2
        (Console.DiffCompare.start (ofList [1, 1, 1, 0, 0]) (ofList [2, 2, 2, 0, 0]) 0 0 5 4096 3
          demoWorld)).map (fun s => (s.amount, s.done)) = some (18446744073709551615, 3) :=
  ⟨fun cfg fuel o n o_offs n_offs amount start_addr length replacement w ha hs hl =>
      Console.DiffCompare_never_returns cfg fuel o n o_offs n_offs amount start_addr length
        replacement w ha hs hl,
   by decide, by decide⟩
namespace Console

/-- A round in which the old map or the map just parsed is empty changes nothing but
the segment map of the object, which is now the map just parsed. -/
theorem round_of_empty_map (cmp : DiffCall → World → Option World)
    (maps : Option (List (List Char))) (st : DiffState)
    (hparse : (st.w.m.ParseMaps maps).1 = .ok ())
    (hempty : st.w.m.segment_infos_ = [] ∨ (st.w.m.ParseMaps maps).2.segment_infos_ = []) :
    CommandDiff.round cmp maps st
      = some (Flow.next, { st with w := { st.w with m := (st.w.m.ParseMaps maps).2 } }) := by
  rcases hpm : st.w.m.ParseMaps maps with ⟨res, m1⟩
  rw [hpm] at hparse hempty
  simp only at hparse hempty
  subst hparse
  have h0 : st.w.m.segment_infos_.length = 0 ∨ m1.segment_infos_.length = 0 := by
    rcases hempty with h | h
    · left; rw [h]; rfl
    · right; rw [h]; rfl
  unfold CommandDiff.round ParseMapsWrapper
  simp only [hpm, h0, if_true]

end Console

/-- C27 (refuted): a round in which the old map or the freshly parsed map is empty
makes no comparison and leaves `full_dump` as it is, but the segment map of the object,
from which the next round takes its old map, is now the freshly parsed one.  On
`demoDiffState` (three old segments, three retained slots) and an empty listing, the
next round starts with an old map without segments and the three retained slots.  A
round over a listing of one segment then leaves an old map of one segment next to the
three slots, and the round after it, over the same listing, compares that segment
with the first of the three slots and ends with three slots for one segment. -/
theorem C27_empty_round_moves_map :
    (∀ (cmp : Console.DiffCall → Console.World → Option Console.World)
        (maps : Option (List (List Char))) (st : Console.DiffState),
      (st.w.m.ParseMaps maps).1 = .ok () →
      (st.w.m.segment_infos_ = [] ∨ (st.w.m.ParseMaps maps).2.segment_infos_ = []) →
      Console.CommandDiff.round cmp maps st
        = some (Console.Flow.next,
            { st with w := { st.w with m := (st.w.m.ParseMaps maps).2 } })) ∧
    demoDiffState.w.m.segment_infos_.length = 3 ∧
    (Console.CommandDiff.round (Console.diffCmp {} 10 2 []) (some []) demoDiffState).map
        (fun r => (r.1, r.2.w.m.segment_infos_.length, r.2.full_dump))
      = some (Console.Flow.next, 0, [some [1, 1, 1, 1], none, some [3, 3, 3, 3]]) ∧
    ((Console.CommandDiff.round (Console.diffCmp {} 10 2 []) (some []) demoDiffState).bind
        (fun r => Console.CommandDiff.round (Console.diffCmp {} 10 2 [])
          (some (demoNewMaps.take 1)) r.2)).map
        (fun r => (r.1, r.2.w.m.segment_infos_.length, r.2.full_dump))
      = some (Console.Flow.next, 1, [some [1, 1, 1, 1], none, some [3, 3, 3, 3]]) ∧
    (((Console.CommandDiff.round (Console.diffCmp {} 10 2 []) (some []) demoDiffState).bind
        (fun r => Console.CommandDiff.round (Console.diffCmp {} 10 2 [])
          (some (demoNewMaps.take 1)) r.2)).bind
        (fun r => Console.CommandDiff.round (Console.diffCmp {} 10 2 [])
          (some (demoNewMaps.take 1)) r.2)).map
        (fun r => (r.1, r.2.w.m.segment_infos_.length, r.2.full_dump))
      = some (Console.Flow.next, 1, [some [240, 241], none, some [3, 3, 3, 3]]) ∧
    (((Console.CommandDiff.round (Console.diffCmp {} 10 2 []) (some []) demoDiffState).bind
        (fun r => Console.CommandDiff.round (Console.diffCmp {} 10 2 [])
          (some (demoNewMaps.take 1)) r.2)).bind
        (fun r => Console.CommandDiff.round (Console.diffCmp {} 10 2 [])
          (some (demoNewMaps.take 1)) r.2)).map (fun r => r.2.calls)
      = some [{ old_dump := some [1, 1, 1, 1], new_dump := some [240, 241],
                o_offs := 0, n_offs := 0, amount := 2, start_addr := 4080 }] :=
  ⟨fun cmp maps st hparse hempty => Console.round_of_empty_map cmp maps st hparse hempty,
   by decide, by decide, by decide, by decide, by decide⟩
/-! ## Read and Write beyond the last segment -/

/-- C28 (refuted): the request starts inside the last segment of the map and extends
beyond its end.  `Read` and `Write` transfer the bytes up to the end of that segment
and then, `amount` being not 0, evaluate `segment_infos_[cur_segment_num]` with
`cur_segment_num = segment_infos_.size()`: the index is out of range (marked
`OutOfRange`), `AddressNotInSegmentEx` is not what the code is known to throw. -/
theorem C28_last_segment_overrun (m : MemoryAccessor) (img : MemImage) (buf src : Ptr)
    (dst a n done_amount k : Nat) (sk : SegmentInfo)
    (hpid : m.pid_set_ = true) (hopen : img.openable = true)
    (hok : SegmentMapOk m.segment_infos_)
    (hk : m.segment_infos_[k]? = some sk) (hlast : k + 1 = m.segment_infos_.length)
    (ha1 : sk.start ≤ a) (ha2 : a < sk.end_)
    (hn : sk.end_ < a + n) (hn64 : n < SIZE)
    (hnowrap : sk.end_ - sk.start < n ∨ a - sk.start + n < SIZE)
    (hread : ∀ i, i < sk.end_ - a → img.readable (a + i) = true)
    (hwrite : ∀ i, i < sk.end_ - a → img.writable (a + i) = true) :
    (∃ m2, m.Read img buf dst a n done_amount =
        (.error Ex.OutOfRange, blit buf dst (ptrAdd img.bytes a) (sk.end_ - a),
          sk.end_ - a, m2) ∧ m2.segment_infos_[k + 1]? = none) ∧
    (∃ m2, m.Write img src a n done_amount =
        (.error Ex.OutOfRange,
          { img with bytes := (blit img.bytes a src (sk.end_ - a)) }, sk.end_ - a, m2) ∧
        m2.segment_infos_[k + 1]? = none) := by
  have hA := MemoryAccessor.AddressInSegment_inside m a k sk hok hk ha1 ha2
  obtain ⟨hsk, hske⟩ := hok.1 sk (List.getElem?_mem hk)
  have hf : m.segment_infos_.length - (k + 1) = 0 := by omega
  have hmin : min n (sk.end_ - sk.start - (a - sk.start)) = sk.end_ - a := by omega
  have hpos : sk.start + (a - sk.start) = a := by omega
  have hrest : n - (sk.end_ - a) ≠ 0 := by omega
  constructor
  · obtain ⟨m1, hr1, hp1, hs1⟩ := MemoryAccessor.ReadSegment_ok m img buf dst k (a - sk.start) n
      sk hpid hopen hk (by omega) hske (by omega) hnowrap
      (fun i hi => by rw [hpos]; exact hread i (by omega))
    rw [hmin, hpos] at hr1
    refine ⟨m1, ?_, ?_⟩
    · rw [MemoryAccessor.Read_start m img buf dst a n done_amount k sk hpid hA hk,
        sub64_eq a sk.start ha1 (by omega), hr1]
      simp only
      rw [sub64_eq n (sk.end_ - a) (by omega) hn64, add64_eq 0 (sk.end_ - a) (by omega),
        Nat.zero_add, hf]
      unfold MemoryAccessor.Read.loop
      rw [if_neg hrest]
    · rw [hs1]
      exact List.getElem?_eq_none (by omega)
  · obtain ⟨m1, hr1, hp1, hs1⟩ := MemoryAccessor.WriteSegment_ok m img src k (a - sk.start) n
      sk hpid hopen hk (by omega) hske (by omega) hnowrap
      (fun i hi => by rw [hpos]; exact hwrite i (by omega))
    rw [hmin, hpos] at hr1
    refine ⟨m1, ?_, ?_⟩
    · rw [MemoryAccessor.Write_start m img src a n done_amount k sk hpid hA hk,
        sub64_eq a sk.start ha1 (by omega), hr1]
      simp only
      rw [sub64_eq n (sk.end_ - a) (by omega) hn64, add64_eq 0 (sk.end_ - a) (by omega),
        Nat.zero_add, hf]
      unfold MemoryAccessor.Write.loop
      rw [if_neg hrest]
    · rw [hs1]
      exact List.getElem?_eq_none (by omega)

/-- C28 on `demoSegments`: ten bytes asked for at 0x2002, two bytes before the end of
the last segment. -/
theorem C28_last_segment_overrun_witness :
    (demoAccessor.Read demoImage (fun _ => 0) 0 8194 10 0).1 = .error Ex.OutOfRange ∧
    (demoAccessor.Read demoImage (fun _ => 0) 0 8194 10 0).2.2.1 = 2 ∧
    (demoAccessor.Write demoImage (fun _ => 7) 8194 10 0).1 = .error Ex.OutOfRange ∧
    (demoAccessor.Write demoImage (fun _ => 7) 8194 10 0).2.2.1 = 2 ∧
    ((∃ m2, demoAccessor.Read demoImage (fun _ => 0) 0 8194 10 0 =
        (.error Ex.OutOfRange, blit (fun _ => 0) 0 (ptrAdd demoImage.bytes 8194) (8196 - 8194),
          8196 - 8194, m2) ∧ m2.segment_infos_[2 + 1]? = none) ∧
      (∃ m2, demoAccessor.Write demoImage (fun _ => 7) 8194 10 0 =
        (.error Ex.OutOfRange,
          { demoImage with bytes := (blit demoImage.bytes 8194 (fun _ => 7) (8196 - 8194)) },
          8196 - 8194, m2) ∧ m2.segment_infos_[2 + 1]? = none)) :=
  ⟨by decide, by decide, by decide, by decide,
   C28_last_segment_overrun demoAccessor demoImage (fun _ => 0) (fun _ => 7) 0 8194 10 0 2
     { start := 8192, end_ := 8196 } rfl rfl (by decide) (by decide) (by decide) (by decide)
     (by decide) (by decide) (by decide) (by decide) (fun _ _ => rfl) (fun _ _ => rfl)⟩
/-! ## The `write` command and DiffCompare leave the segment map alone -/

namespace Console

theorem WriteWrapper_segments (w : World) (src : Ptr) (address amount done_amount : Nat) :
    (WriteWrapper w src address amount done_amount).2.2.m.segment_infos_
      = w.m.segment_infos_ := by
  have h := MemoryAccessor.Write_segments w.m w.img src address amount done_amount
  unfold WriteWrapper
  split <;> next heq => rw [heq] at h; exact h

theorem strLoop_segments (bs : Nat) (str : List Char) :
    ∀ (fuel : Nat) (s s1 : WriteState), CommandWrite.strLoop bs str fuel s = some s1 →
      s1.w.m.segment_infos_ = s.w.m.segment_infos_ := by
  intro fuel
  induction fuel with
  | zero =>
    intro s s1 h
    cases h
  | succ fuel ih =>
    intro s s1 h
    unfold CommandWrite.strLoop at h
    simp only at h
    split at h
    · split at h
      · cases h
        exact WriteWrapper_segments _ _ _ _ _
      · rw [ih _ _ h]
        exact WriteWrapper_segments _ _ _ _ _
    · cases h
      rfl

theorem strBranch_segments (bs : Nat) (str : List Char) (s s1 : WriteState)
    (h : CommandWrite.strBranch bs str s = some s1) :
    s1.w.m.segment_infos_ = s.w.m.segment_infos_ := by
  unfold CommandWrite.strBranch at h
  split at h
  · cases h
  · next s2 hl =>
    have h2 := strLoop_segments bs str _ _ _ hl
    simp only at h
    split at h
    · split at h
      · cases h
        exact (WriteWrapper_segments _ _ _ _ _).trans h2
      · cases h
        exact (WriteWrapper_segments _ _ _ _ _).trans h2
    · cases h
      exact h2

theorem fileRead_world (content : List Byte) (s : WriteState) (count : Nat) :
    (fileRead content s count).1.w = s.w := rfl

theorem fileLoop_segments (bs : Nat) (content : List Byte) :
    ∀ (fuel : Nat) (s s1 : WriteState), CommandWrite.fileLoop bs content fuel s = some s1 →
      s1.w.m.segment_infos_ = s.w.m.segment_infos_ := by
  intro fuel
  induction fuel with
  | zero =>
    intro s s1 h
    cases h
  | succ fuel ih =>
    intro s s1 h
    unfold CommandWrite.fileLoop at h
    simp only at h
    split at h
    · split at h
      · cases h
        rfl
      · split at h
        · split at h
          · cases h
            exact WriteWrapper_segments _ _ _ _ _
          · cases h
            exact WriteWrapper_segments _ _ _ _ _
        · split at h
          · cases h
            exact WriteWrapper_segments _ _ _ _ _
          · rw [ih _ _ h]
            exact WriteWrapper_segments _ _ _ _ _
    · cases h
      rfl

theorem fileBranch_segments (bs : Nat) (content : List Byte) (s s1 : WriteState)
    (h : CommandWrite.fileBranch bs content s = some s1) :
    s1.w.m.segment_infos_ = s.w.m.segment_infos_ := by
  unfold CommandWrite.fileBranch at h
  split at h
  · cases h
  · next s2 hl =>
    have h2 := fileLoop_segments bs content _ _ _ hl
    simp only at h
    split at h
    · split at h
      · cases h
        exact h2
      · split at h
        · split at h
          · cases h
            exact (WriteWrapper_segments _ _ _ _ _).trans h2
          · cases h
            exact (WriteWrapper_segments _ _ _ _ _).trans h2
        · split at h
          · cases h
            exact (WriteWrapper_segments _ _ _ _ _).trans h2
          · cases h
            exact (WriteWrapper_segments _ _ _ _ _).trans h2
    · cases h
      exact h2

theorem CommandWrite_segments (cfg : Setup) (args : List (List Char)) (w w1 : World)
    (h : CommandWrite cfg args w = some w1) : w1.m.segment_infos_ = w.m.segment_infos_ := by
  unfold CommandWrite at h
  simp only at h
  repeat' split at h
  all_goals first
    | (cases h; rfl)
    | (obtain ⟨s1, hb, hw⟩ := Option.map_eq_some'.mp h
       subst hw
       first
         | exact fileBranch_segments _ _ _ _ hb
         | exact strBranch_segments _ _ _ _ hb)

theorem HandleCommand_segments (cfg : Setup) (line : List Char) (w w1 : World)
    (h : HandleCommand cfg line w = some w1) : w1.m.segment_infos_ = w.m.segment_infos_ := by
  unfold HandleCommand at h
  split at h
  · cases h; rfl
  · split at h
    · cases h; rfl
    · split at h
      · exact CommandWrite_segments cfg _ w w1 h
      · cases h; rfl

theorem DiffCompare_body_segments (cfg : Setup) (length : Nat) (replacement : List Char)
    (s s1 : CompareState) (h : DiffCompare.body cfg length replacement s = some s1) :
    s1.w.m.segment_infos_ = s.w.m.segment_infos_ := by
  unfold DiffCompare.body at h
  simp only at h
  split at h
  · split at h
    · split at h
      · cases h
      · next w1 hw =>
        cases h
        exact HandleCommand_segments cfg _ _ w1 hw
    · cases h; rfl
  · cases h; rfl

theorem DiffCompare_iterate_segments (cfg : Setup) (length : Nat) (replacement : List Char) :
    ∀ (n : Nat) (s s1 : CompareState), DiffCompare.iterate cfg length replacement n s = some s1 →
      s1.w.m.segment_infos_ = s.w.m.segment_infos_ := by
  intro n
  induction n with
  | zero =>
    intro s s1 h
    cases h
    rfl
  | succ n ih =>
    intro s s1 h
    unfold DiffCompare.iterate at h
    split at h
    · split at h
      · cases h
      · next s2 hb =>
        exact (ih _ _ h).trans (DiffCompare_body_segments cfg length replacement s s2 hb)
    · cases h
      rfl

/-- `DiffCompare`, whatever its arguments, leaves the segment map of the object as it
is: the sweep of `CommandDiff` run with the real `DiffCompare` meets what the results
about the sweep ask of it. -/
theorem diffCmp_segments (cfg : Setup) (fuel length : Nat) (replacement : List Char)
    (c : DiffCall) (w w1 : World) (h : diffCmp cfg fuel length replacement c w = some w1) :
    w1.m.segment_infos_ = w.m.segment_infos_ := by
  unfold diffCmp at h
  obtain ⟨r, hr, hw⟩ := Option.map_eq_some'.mp h
  subst hw
  unfold DiffCompare at hr
  split at hr
  · next o n =>
    obtain ⟨s1, hl, hs⟩ := Option.map_eq_some'.mp hr
    subst hs
    unfold DiffCompare.loop at hl
    split at hl
    · next s2 hi =>
      split at hl
      · cases hl
        exact DiffCompare_iterate_segments cfg length replacement fuel _ _ hi
      · cases hl
    · cases hl
  · cases hr
    rfl

end Console
/-! ## ParseMaps: the path of a line without path -/

/-- C29 (refuted): `segmentInfo` is declared before the loop over the lines and its
`path` is assigned only when the line has a path.  In a listing whose first line has
the path `[stack]` and whose second line has none, the second segment carries the path
`[stack]` too, and `special_segment_found_` records `[stack]` for the second segment;
the other fields of the second segment are those of its line, and the same line parsed
alone gets the empty path.  The same happens with the lines as the kernel pads them (a
blank after the inode of a line without path). -/
theorem C29_path_carried_over :
    (freshAccessor.ParseMaps (some ["7ffc1000-7ffc2000 rw-p 00000000 00:00 0 [stack]".toList,
        "7ffd0000-7ffd1000 r--s 0000a000 fd:01 12".toList])).1 = .ok () ∧
    (freshAccessor.ParseMaps (some ["7ffc1000-7ffc2000 rw-p 00000000 00:00 0 [stack]".toList,
        "7ffd0000-7ffd1000 r--s 0000a000 fd:01 12".toList])).2.segment_infos_
      = [{ start := 2147225600, end_ := 2147229696, offset := 0, mode := 12, major_id := 0,
           minor_id := 0, inode_id := 0, path := "[stack]" },
         { start := 2147287040, end_ := 2147291136, offset := 40960, mode := 9, major_id := 253,
           minor_id := 1, inode_id := 12, path := "[stack]" }] ∧
    (freshAccessor.ParseMaps (some ["7ffc1000-7ffc2000 rw-p 00000000 00:00 0 [stack]".toList,
        "7ffd0000-7ffd1000 r--s 0000a000 fd:01 12".toList])).2.special_segment_found_
      = [("[stack]", 1)] ∧
    (freshAccessor.ParseMaps (some ["7ffd0000-7ffd1000 r--s 0000a000 fd:01 12".toList])).2.segment_infos_
      = [{ start := 2147287040, end_ := 2147291136, offset := 40960, mode := 9, major_id := 253,
           minor_id := 1, inode_id := 12, path := "" }] ∧
    (freshAccessor.ParseMaps (some
        ["7ffc1000-7ffc2000 rw-p 00000000 00:00 0                          [stack]".toList,
         "7ffd0000-7ffd1000 r--s 0000a000 fd:01 12 ".toList])).2.segment_infos_.map
        (fun s => s.path)
      = ["[stack]", "[stack]"] :=
  ⟨by decide, by decide, by decide, by decide, by decide⟩
/-! ## The diff command: the dump past the end of the new map -/

/-- C30 (refuted): in every round that starts with a non-empty old map and one
retained slot per old segment, parses a non-empty new map and runs to its end,
`DiffReadSeg` is called with the number `|NEW|`, on the new map: the
`segment_infos_[num]` it evaluates for the size of the array is past the end of the
segment list. -/
theorem C30_dump_past_the_end (cmp : Console.DiffCall → Console.World → Option Console.World)
    (maps : Option (List (List Char))) (st : Console.DiffState)
    (hcmp : ∀ c w w1, cmp c w = some w1 → w1.m.segment_infos_ = w.m.segment_infos_)
    (hold : st.w.m.segment_infos_ ≠ [])
    (hR : st.full_dump.length = st.w.m.segment_infos_.length)
    (hparse : (st.w.m.ParseMaps maps).1 = .ok ())
    (hnew : (st.w.m.ParseMaps maps).2.segment_infos_ ≠ []) :
    ∀ st1, Console.CommandDiff.round cmp maps st = some (Console.Flow.next, st1) →
      ∃ w, ((st.w.m.ParseMaps maps).2.segment_infos_.length, w) ∈ st1.reads ∧
        w.m.segment_infos_ = (st.w.m.ParseMaps maps).2.segment_infos_ ∧
        w.m.segment_infos_[(st.w.m.ParseMaps maps).2.segment_infos_.length]? = none := by
  intro st1 h
  obtain ⟨_, _, hnum, hsegs, _⟩ := (round_result cmp maps st hcmp hold hR hparse hnew).2 st1 h
  have hmem : (st.w.m.ParseMaps maps).2.segment_infos_.length ∈ st1.reads.map Prod.fst := by
    rw [hnum]
    exact List.mem_range.mpr (Nat.lt_succ_self _)
  obtain ⟨e, he, hfst⟩ := List.mem_map.mp hmem
  refine ⟨e.2, ?_, hsegs e he, ?_⟩
  · rw [← hfst]
    exact he
  · rw [hsegs e he]
    exact List.getElem?_eq_none (le_refl _)

/-- C30 on `demoDiffState` and `demoNewMaps` (target length 2, no replacement): the
round ends after calls of `DiffReadSeg` for the numbers 0, 1, 2 and 3, the new map
having three segments. -/
theorem C30_dump_past_the_end_witness :
    (Console.CommandDiff.round (Console.diffCmp {} 10 2 []) (some demoNewMaps)
        demoDiffState).map (fun r => (r.1, r.2.reads.map Prod.fst))
      = some (Console.Flow.next, [0, 1, 2, 3]) ∧
    (demoDiffState.w.m.ParseMaps (some demoNewMaps)).2.segment_infos_.length = 3 ∧
    ∀ st1, Console.CommandDiff.round (Console.diffCmp {} 10 2 []) (some demoNewMaps)
        demoDiffState = some (Console.Flow.next, st1) →
      ∃ w, ((demoDiffState.w.m.ParseMaps (some demoNewMaps)).2.segment_infos_.length, w)
          ∈ st1.reads ∧
        w.m.segment_infos_ = (demoDiffState.w.m.ParseMaps (some demoNewMaps)).2.segment_infos_ ∧
        w.m.segment_infos_[(demoDiffState.w.m.ParseMaps
          (some demoNewMaps)).2.segment_infos_.length]? = none :=
  ⟨by decide, by decide,
   C30_dump_past_the_end (Console.diffCmp {} 10 2 []) (some demoNewMaps) demoDiffState
     (Console.diffCmp_segments {} 10 2 []) (by decide) (by decide) (by decide) (by decide)⟩

end MemAcc
